import Mathlib

/-! Kapacitor: the Derivative and Reduce transform nodes and the BigPanda alert service.

A shallow embedding of `derivative.go`, `reduce.go` and `services/bigpanda/service.go`.

* Go `float64` arithmetic is modelled exactly (IEEE 754 binary64, round to nearest, ties to
  even) on sign and magnitude, the magnitude of a finite value being counted in units of
  `2^-1074`, the smallest subnormal.
* Go maps are association lists with unique keys; a nil map reads as the empty map.
* `time.Time` is an instant counted in nanoseconds from the zero time.
* Two calls of `eval` in progress are followed step by step, a step being a section of
  `eval` under the lock of the table of groups or the creation of instances between two such
  sections.
-/

namespace Kapacitor

/-! ## float64 -/

/-- Round `n / d` to the nearest natural number, ties to the even one. -/
def rne (n d : Nat) : Nat :=
  let q := n / d
  let r := n % d
  if 2 * r < d then q else if d < 2 * r then q + 1 else q + q % 2

/-- Binary search for the bit length: `bitLenAux k n` is the bit length of `n < 2^(2^k)`. -/
def bitLenAux : Nat → Nat → Nat
  | 0, n => if n = 0 then 0 else 1
  | k + 1, n =>
    if n < 1 <<< (1 <<< k) then bitLenAux k n
    else (1 <<< k) + bitLenAux k (n >>> (1 <<< k))

/-- Number of binary digits of `n` (exact below `2^8192`, which covers every magnitude that
binary64 arithmetic produces here). -/
def bitLen (n : Nat) : Nat := bitLenAux 13 n

/-- Round the non-negative rational `n / d`, counted in units of `2^-1074`, to a magnitude
with at most 53 significant bits: the spacing of binary64 values around a magnitude whose
integer part has `L` bits is `2^(L - 53)` units (one unit for subnormals and the first
normal binade). -/
def roundMag (n d : Nat) : Nat :=
  let s := bitLen (n / d) - 53
  rne n (d <<< s) <<< s

/-- One (the number 1.0) in units of `2^-1074`. -/
def unitsPerOne : Nat := 1 <<< 1074

/-- First magnitude that is no longer finite: `2^1024`, in units of `2^-1074`. -/
def overflowMag : Nat := 1 <<< 2098

/-- Go `float64`: a finite value is a sign and a magnitude in units of `2^-1074`. -/
inductive F64 where
  | fin (neg : Bool) (mag : Nat)
  | inf (neg : Bool)
  | nan
  deriving DecidableEq, Repr

namespace F64

/-- The constant `0` of the Go source. -/
def zero : F64 := fin false 0

/-- Rounded result with sign `neg` of the exact magnitude `n / d` (round to nearest even,
overflow to infinity). -/
def ofMag (neg : Bool) (n d : Nat) : F64 :=
  let m := roundMag n d
  if m < overflowMag then fin neg m else inf neg

/-- Signed integer value, in units of `2^-1074`, of a finite float. -/
def sval (neg : Bool) (mag : Nat) : Int := if neg then -(mag : Int) else (mag : Int)

/-- Conversion `float64(i)` of an integer. -/
def ofInt (i : Int) : F64 := ofMag (decide (i < 0)) (i.natAbs * unitsPerOne) 1

/-- Subtraction `a - b`. -/
def sub : F64 → F64 → F64
  | nan, _ => nan
  | _, nan => nan
  | inf s, inf t => if s = t then nan else inf s
  | inf s, fin _ _ => inf s
  | fin _ _, inf t => inf (!t)
  | fin s a, fin t b =>
    let d : Int := sval s a - sval t b
    if d = 0 then fin (s && !t) 0 else ofMag (decide (d < 0)) d.natAbs 1

/-- Division `a / b`. -/
def div : F64 → F64 → F64
  | nan, _ => nan
  | _, nan => nan
  | inf _, inf _ => nan
  | inf s, fin t _ => inf (xor s t)
  | fin s _, inf t => fin (xor s t) 0
  | fin s a, fin t b =>
    if b = 0 then (if a = 0 then nan else inf (xor s t))
    else ofMag (xor s t) (a * unitsPerOne) b

/-- Comparison `a < b`. -/
def lt : F64 → F64 → Bool
  | nan, _ => false
  | _, nan => false
  | inf s, inf t => s && !t
  | inf s, fin _ _ => s
  | fin _ _, inf t => !t
  | fin s a, fin t b => decide (sval s a < sval t b)

/-- Comparison `a == b`. -/
def eq : F64 → F64 → Bool
  | nan, _ => false
  | _, nan => false
  | inf s, inf t => s == t
  | fin s a, fin t b => sval s a == sval t b
  | _, _ => false

/-- Mathematical sign of a float: -1, 0 or 1 (0 for both zeros and for NaN). -/
def sign : F64 → Int
  | nan => 0
  | inf s => if s then -1 else 1
  | fin s m => if m = 0 then 0 else if s then -1 else 1

/-- The sign bit of a float (false for NaN). -/
def signBit : F64 → Bool
  | nan => false
  | inf s => s
  | fin s _ => s

end F64

/-! ## Values, maps, time -/

/-- A Go `interface{}` holding a field value: nil, an `int64`, a `float64`, a string or
a boolean. -/
inductive Value where
  | nil
  | int (i : Int)
  | float (f : F64)
  | str (s : String)
  | bool (b : Bool)
  deriving DecidableEq, Repr

/-- A Go map with string keys: an association list. A nil map is the empty list. -/
abbrev GoMap (α : Type) := List (String × α)

namespace GoMap

variable {α : Type}

/-- The two-result lookup `v, ok := m[k]`. -/
def lookup (m : GoMap α) (k : String) : Option α :=
  match m with
  | [] => none
  | (k', v) :: rest => if k' = k then some v else lookup rest k

/-- The assignment `m[k] = v`: overwrite the entry of `k`, or add one. -/
def set (m : GoMap α) (k : String) (v : α) : GoMap α :=
  match m with
  | [] => [(k, v)]
  | (k', v') :: rest => if k' = k then (k, v) :: rest else (k', v') :: set rest k v

/-- Keys of the map. -/
def keys (m : GoMap α) : List String := m.map Prod.fst

end GoMap

/-- Type `models.Fields`. -/
abbrev Fields := GoMap Value

/-- Type `models.Tags`. -/
abbrev Tags := GoMap String

/-- The index expression `m[k]` on fields: the nil interface when the key is missing. -/
def Fields.get (m : Fields) (k : String) : Value := (GoMap.lookup m k).getD Value.nil

/-- A `time.Time` instant (no monotonic clock reading), in nanoseconds since the zero
time, January 1 of year 1, 00:00:00 UTC. -/
structure Time where
  ns : Int
  deriving DecidableEq, Repr

/-- The zero value `time.Time{}`. -/
def Time.zero : Time := ⟨0⟩

/-- Smallest `time.Duration`. -/
def minDuration : Int := -(2 ^ 63)

/-- Largest `time.Duration`. -/
def maxDuration : Int := 2 ^ 63 - 1

/-- Method `t.Sub(u)`: the duration `t - u` in nanoseconds, saturated to the range of
`time.Duration` (an `int64`). -/
def Time.Sub (t u : Time) : Int :=
  let d := t.ns - u.ns
  if d < minDuration then minDuration else if maxDuration < d then maxDuration else d

/-! ## Messages and the heap of field maps -/

/-- The heap of field maps. A message refers to its `models.Fields` map by address, so that
a shallow copy of a message shares the map with the original. -/
structure Heap where
  cells : List Fields
  deriving DecidableEq, Repr

/-- Contents of the map at address `r` (an unallocated address reads as the nil map). -/
def Heap.read (h : Heap) (r : Nat) : Fields := h.cells.getD r []

/-- Modelled from the spec: `models.Fields.Copy` is missing from the sources; the output point
is a shallow copy of the input with exactly one field added or overwritten, so `Copy` allocates
a fresh map holding the same entries. Returns the new address and the new heap. -/
def Heap.Copy (h : Heap) (r : Nat) : Nat × Heap :=
  (h.cells.length, ⟨h.cells ++ [h.read r]⟩)

/-- The assignment `fields[k] = v` on the map at address `r`. -/
def Heap.assign (h : Heap) (r : Nat) (k : String) (v : Value) : Heap :=
  ⟨h.cells.set r (GoMap.set (h.read r) k v)⟩

/-- A point or batch-point message (`edge.PointMessage`, `edge.BatchPointMessage`), as far as
`edge.FieldsTagsTimeGetter` and `edge.FieldsTagsTimeSetter` see it: the address of its fields
map, its tags and its time. -/
structure Message where
  fields : Nat
  tags : Tags
  time : Time
  deriving DecidableEq, Repr

/-- Modelled from the spec: `ShallowCopy` of `edge.PointMessage` and `edge.BatchPointMessage`
is missing from the sources; the copy is a new message with the same tags and time that shares
the fields map of the original. -/
def Message.ShallowCopy (m : Message) : Message := ⟨m.fields, m.tags, m.time⟩

/-- Modelled from the spec: `SetFields` of `edge.FieldsTagsTimeSetter` is missing from the
sources; it makes the message refer to the given fields map. -/
def Message.SetFields (m : Message) (r : Nat) : Message := ⟨r, m.tags, m.time⟩

/-- A begin-batch message (`edge.BeginBatchMessage`), as far as the node sees it: its name,
its tags and its size hint (a Go `int`). -/
structure BeginBatchMessage where
  name : String
  tags : Tags
  sizeHint : Int
  deriving DecidableEq, Repr

/-- The begin-batch messages, held by address: a handler receives a message by reference and
returns one by reference. -/
structure BeginStore where
  cells : List BeginBatchMessage
  deriving DecidableEq, Repr

/-- The message at address `a`. -/
def BeginStore.read (st : BeginStore) (a : Nat) : BeginBatchMessage :=
  st.cells.getD a ⟨"", [], 0⟩

/-- Modelled from the spec: `ShallowCopy` of `edge.BeginBatchMessage` is missing from the
sources; it allocates a new message with the contents of the original. Returns the new address
and the new store. -/
def BeginStore.ShallowCopy (st : BeginStore) (a : Nat) : Nat × BeginStore :=
  (st.cells.length, ⟨st.cells ++ [st.read a]⟩)

/-- Modelled from the spec: `SetSizeHint` of `edge.BeginBatchMessage` is missing from the
sources; it sets the size hint of the message at address `a`. -/
def BeginStore.SetSizeHint (st : BeginStore) (a : Nat) (s : Int) : BeginStore :=
  ⟨st.cells.set a ⟨(st.read a).name, (st.read a).tags, s⟩⟩

/-! ## Derivative node (`derivative.go`) -/

/-- Configuration `pipeline.DerivativeNode`; `Unit` is a `time.Duration` in nanoseconds. -/
structure PipelineDerivativeNode where
  Field : String
  As : String
  Unit : Int
  NonNegativeFlag : Bool
  deriving DecidableEq, Repr

/-- The executing `DerivativeNode`: the configuration `d`, the error counter of the embedded
`node` and the lines written to its logger. -/
structure DerivativeNode where
  d : PipelineDerivativeNode
  errorCount : Nat
  logged : List String
  deriving DecidableEq, Repr

/-- Modelled from the spec: `node.incrementErrorCount` is missing from the sources; the error
counter is a monotonic counter, incremented by one. -/
def DerivativeNode.incrementErrorCount (n : DerivativeNode) : DerivativeNode :=
  ⟨n.d, n.errorCount + 1, n.logged⟩

/-- The call `n.logger.Printf(line)`. -/
def DerivativeNode.logPrintf (n : DerivativeNode) (line : String) : DerivativeNode :=
  ⟨n.d, n.errorCount, n.logged ++ [line]⟩

/-- Function `numToFloat`. -/
def numToFloat (num : Value) : F64 × Bool :=
  match num with
  | Value.int n => (F64.ofInt n, true)
  | Value.float n => (n, true)
  | _ => (F64.zero, false)

/-- The type assertion `s, ok := f.(string)`. -/
def assertString (f : Value) : String × Bool :=
  match f with
  | Value.str s => (s, true)
  | _ => ("", false)

/-- Whether the value is an integer or a float (the values `numToFloat` accepts). -/
def Value.isNumeric (v : Value) : Bool := (numToFloat v).2

/-- Whether the value is a string. -/
def Value.isString (v : Value) : Bool := (assertString v).2

/-- The Go comparison `a < b` of strings. Go compares the bytes of the strings; on valid UTF-8
that is the lexicographic order of the code points. -/
def stringLess (a b : String) : Bool := decide (a.toList < b.toList)

/-- Function `strings.Compare` of the Go standard library: `0` if `a == b`, `-1` if `a < b`,
`+1` otherwise. -/
def stringsCompare (a b : String) : Int :=
  if a = b then 0 else if stringLess a b then -1 else 1

/-- Function `diffFunc`. -/
def diffFunc (f0 f1 : Value) : F64 × Bool :=
  let (n0, ok) := numToFloat f0
  let (n1, ok1) := numToFloat f1
  if ok && ok1 then
    (F64.sub n1 n0, true)
  else
    let (s0, ok) := assertString f0
    let (s1, ok1) := assertString f1
    if ok && ok1 then
      (F64.ofInt (stringsCompare s1 s0), true)
    else
      (F64.zero, false)

/-- Results of `derivative`: the value, whether the current point should be stored as
previous, whether the result should be emitted, and the node afterwards. -/
structure DerivativeOut where
  value : F64
  store : Bool
  emit : Bool
  n : DerivativeNode
  deriving DecidableEq, Repr

/-- Method `DerivativeNode.derivative`. -/
def DerivativeNode.derivative (n : DerivativeNode) (prev curr : Fields)
    (prevTime currTime : Time) : DerivativeOut :=
  let elapsed := F64.ofInt (currTime.Sub prevTime)
  if F64.eq elapsed F64.zero then
    ⟨F64.zero, true, false,
      n.incrementErrorCount.logPrintf "E! cannot perform derivative elapsed time was 0"⟩
  else
    let f1 := Fields.get curr n.d.Field
    let f0 := Fields.get prev n.d.Field
    let (diff, ok) := diffFunc f0 f1
    if !ok then
      ⟨F64.zero, true, false, n⟩
    else if n.d.NonNegativeFlag && F64.lt diff F64.zero then
      ⟨F64.zero, true, false, n⟩
    else
      let value := F64.div diff (F64.div elapsed (F64.ofInt n.d.Unit))
      ⟨value, true, true, n⟩

/-- Per-group state `derivativeGroup`: the node `n` it points to and the previous point. -/
structure derivativeGroup where
  n : DerivativeNode
  previous : Option Message
  deriving DecidableEq, Repr

/-- Method `DerivativeNode.newGroup`. -/
def DerivativeNode.newGroup (n : DerivativeNode) : derivativeGroup := ⟨n, none⟩

/-- The fields and time that `doDerivative` hands to `derivative` as previous: those of
`g.previous`, or the nil map and the zero time when there is none. -/
def derivativeGroup.prevArgs (g : derivativeGroup) (h : Heap) : Fields × Time :=
  match g.previous with
  | some prev => (h.read prev.fields, prev.time)
  | none => ([], Time.zero)

/-- Result of `doDerivative`: whether to emit, the group, the message `n` and the heap
afterwards. -/
structure DoResult where
  emit : Bool
  g : derivativeGroup
  n : Message
  heap : Heap
  deriving DecidableEq, Repr

/-- Method `derivativeGroup.doDerivative`. -/
def derivativeGroup.doDerivative (g : derivativeGroup) (h : Heap) (p n : Message) : DoResult :=
  let (prevFields, prevTime) := g.prevArgs h
  let currFields := h.read p.fields
  let currTime := p.time
  let o := g.n.derivative prevFields currFields prevTime currTime
  let g1 : derivativeGroup := ⟨o.n, if o.store then some p else g.previous⟩
  if !o.emit then
    ⟨false, g1, n, h⟩
  else
    let (fields, h1) := h.Copy n.fields
    let h2 := h1.assign fields g.n.d.As (Value.float o.value)
    ⟨true, g1, n.SetFields fields, h2⟩

/-- Result of a message handler: the returned message (none for nil), the returned error
(none for nil), the group and the heap afterwards. -/
structure Handled where
  msg : Option Message
  err : Option String
  g : derivativeGroup
  heap : Heap
  deriving DecidableEq, Repr

/-- Method `derivativeGroup.BatchPoint`. -/
def derivativeGroup.BatchPoint (g : derivativeGroup) (h : Heap) (bp : Message) : Handled :=
  let np := bp.ShallowCopy
  let r := g.doDerivative h bp np
  if r.emit then ⟨some r.n, none, r.g, r.heap⟩ else ⟨none, none, r.g, r.heap⟩

/-- Method `derivativeGroup.Point`. -/
def derivativeGroup.Point (g : derivativeGroup) (h : Heap) (p : Message) : Handled :=
  let np := p.ShallowCopy
  let r := g.doDerivative h p np
  if r.emit then ⟨some r.n, none, r.g, r.heap⟩ else ⟨none, none, r.g, r.heap⟩

/-- Result of `BeginBatch`: the address of the returned message, the returned error (none for
nil), the group and the store of begin-batch messages afterwards. -/
structure BeginHandled where
  msg : Nat
  err : Option String
  g : derivativeGroup
  store : BeginStore
  deriving DecidableEq, Repr

/-- Method `derivativeGroup.BeginBatch`, on the message at address `begin`. -/
def derivativeGroup.BeginBatch (g : derivativeGroup) (st : BeginStore) (begin : Nat) :
    BeginHandled :=
  let s := (st.read begin).sizeHint
  if s > 0 then
    let (copy, st1) := st.ShallowCopy begin
    let st2 := st1.SetSizeHint copy (s - 1)
    ⟨copy, none, ⟨g.n, none⟩, st2⟩
  else
    ⟨begin, none, ⟨g.n, none⟩, st⟩

/-! ## Reduce node (`reduce.go`) -/

/-- Modelled from the spec: `stateful.Scope` is missing from the sources; a scope is a mapping
from variable name to value. -/
abbrev Scope := GoMap Value

/-- Modelled from the spec: `Scope.Set` is missing from the sources; binds a name to a value. -/
def Scope.Set (vars : Scope) (name : String) (v : Value) : Scope := GoMap.set vars name v

/-- Modelled from the spec: `Scope.Has` is missing from the sources; whether the name is bound. -/
def Scope.Has (vars : Scope) (name : String) : Bool := (GoMap.lookup vars name).isSome

/-- Modelled from the spec: `Scope.Get` is missing from the sources; the value bound to the
name, or an error when the name is not bound. -/
def Scope.Get (vars : Scope) (name : String) : Except String Value :=
  match GoMap.lookup vars name with
  | some v => Except.ok v
  | none => Except.error ("name \"" ++ name ++ "\" is undefined")

/-- Modelled from the spec: `stateful.ScopePool.Get` is missing from the sources; a scope
acquired from the pool holds no binding. -/
def scopePoolGet : Scope := []

/-- Modelled from the spec: `stateful.Expression` is missing from the sources; it is a stateful
evaluable unit with `Eval(scope) → value | error` and `CopyReset() → new instance with fresh
state`. The unit is given by its current state, its fresh state and its evaluation function,
which returns the result and the state afterwards. -/
structure Expression (σ : Type) where
  state : σ
  fresh : σ
  run : σ → Scope → Except String Value × σ

/-- Method `Expression.Eval`: the result and the expression afterwards. -/
def Expression.Eval {σ : Type} (x : Expression σ) (vars : Scope) :
    Except String Value × Expression σ :=
  let (r, st) := x.run x.state vars
  (r, ⟨st, x.fresh, x.run⟩)

/-- Method `Expression.CopyReset`: a new instance with fresh state. -/
def Expression.CopyReset {σ : Type} (x : Expression σ) : Expression σ :=
  ⟨x.fresh, x.fresh, x.run⟩

/-- A lambda of the configuration (`ast.LambdaNode`), as far as the node uses it: the result
of `stateful.NewExpression` on its expression and the result of `ast.FindReferenceVariables`
on it. -/
structure Lambda (σ : Type) where
  compiled : Except String (Expression σ)
  refVars : List String

/-- Configuration `pipeline.ReduceNode`. -/
structure PipelineReduceNode (σ : Type) where
  Lambdas : List (Lambda σ)
  AsList : List String
  TagsList : List String
  KeepFlag : Bool
  KeepList : List String
  DefaultPointFlag : Bool
  InitialValue : Value
  QuietFlag : Bool

/-- The executing `ReduceNode`. The map `tags` (every key bound to true) is the list of its
keys; `scopePool` is the list of reference variables of the pool; `errorCount` and `logged`
are the error counter and the logger of the embedded `node`. -/
structure ReduceNode (σ : Type) where
  e : PipelineReduceNode σ
  expressions : List (Expression σ)
  expressionsByGroup : GoMap (List (Expression σ))
  refVarList : List (List String)
  scopePool : List String
  tags : List String
  initialValue : Value
  errorCount : Nat
  logged : List String

/-- Signature of `fillScope`, which is missing from the sources: it binds the listed reference
variables from the point's time, fields and tags into the scope, or fails. -/
abbrev FillScope := Scope → List String → Time → Fields → Tags → Except String Scope

/-- Modelled from the spec: `fillScope` is missing from the sources; it binds the referenced
variables from the current point's fields and tags into the scope. -/
def fillScope : FillScope := fun vars referenceVariables _now fields tags =>
  Except.ok (referenceVariables.foldl (fun vs rv =>
    let vs1 := match GoMap.lookup fields rv with
      | some v => Scope.Set vs rv v
      | none => vs
    match GoMap.lookup tags rv with
    | some t => Scope.Set vs1 rv (Value.str t)
    | none => vs1) vars)

/-- Modelled from the spec: `node.incrementErrorCount` is missing from the sources; the error
counter is a monotonic counter, incremented by one. -/
def ReduceNode.incrementErrorCount {σ : Type} (e : ReduceNode σ) : ReduceNode σ :=
  ⟨e.e, e.expressions, e.expressionsByGroup, e.refVarList, e.scopePool, e.tags, e.initialValue,
    e.errorCount + 1, e.logged⟩

/-- The call `e.logger.Println("E!", err)`. -/
def ReduceNode.logPrintln {σ : Type} (e : ReduceNode σ) (err : String) : ReduceNode σ :=
  ⟨e.e, e.expressions, e.expressionsByGroup, e.refVarList, e.scopePool, e.tags, e.initialValue,
    e.errorCount, e.logged ++ ["E! " ++ err]⟩

/-- The assignment `e.expressionsByGroup[group] = expressions`. -/
def ReduceNode.setGroup {σ : Type} (e : ReduceNode σ) (group : String)
    (expressions : List (Expression σ)) : ReduceNode σ :=
  ⟨e.e, e.expressions, GoMap.set e.expressionsByGroup group expressions, e.refVarList,
    e.scopePool, e.tags, e.initialValue, e.errorCount, e.logged⟩

/-- Compile the lambdas in order (`newReduceNode`, lines 48-57): the compiled expressions and
the reference variables of each, or the error of the first lambda that fails to compile. -/
def compileLambdas {σ : Type} :
    Nat → List (Lambda σ) → Except String (List (Expression σ) × List (List String))
  | _, [] => Except.ok ([], [])
  | i, lambda :: rest =>
    match lambda.compiled with
    | Except.error err =>
      Except.error ("Failed to compile " ++ toString i ++ " expression: " ++ err)
    | Except.ok statefulExpr =>
      match compileLambdas (i + 1) rest with
      | Except.error err => Except.error err
      | Except.ok (xs, rvs) => Except.ok (statefulExpr :: xs, lambda.refVars :: rvs)

/-- Function `newReduceNode`. -/
def newReduceNode {σ : Type} (n : PipelineReduceNode σ) : Except String (ReduceNode σ) :=
  if n.AsList.length ≠ n.Lambdas.length then
    Except.error "must provide one name per expression via the 'As' property"
  else
    match compileLambdas 0 n.Lambdas with
    | Except.error err => Except.error err
    | Except.ok (expressions, refVarList) =>
      Except.ok
        { e := n
          expressions := expressions
          expressionsByGroup := []
          refVarList := refVarList
          scopePool := ((n.Lambdas.map Lambda.refVars).flatten).dedup
          tags := n.TagsList.dedup
          initialValue := n.InitialValue
          errorCount := 0
          logged := [] }

/-- The loop over the group's expressions in `eval` (lines 150-161): fill the scope, evaluate,
bind the result under its `As` name. Returns the scope (or the first error) and the expressions
afterwards. `refVarList` and `AsList` are as long as the expressions (`newReduceNode`). -/
def evalExpressions {σ : Type} (fs : FillScope) (refVarList : List (List String))
    (asList : List String) (now : Time) (fields : Fields) (tags : Tags) :
    Nat → List (Expression σ) → Scope → Except String Scope × List (Expression σ)
  | _, [], vars => (Except.ok vars, [])
  | i, expr :: rest, vars =>
    match fs vars (refVarList.getD i []) now fields tags with
    | Except.error err => (Except.error err, expr :: rest)
    | Except.ok vars1 =>
      match expr.Eval vars1 with
      | (Except.error err, expr1) => (Except.error err, expr1 :: rest)
      | (Except.ok v, expr1) =>
        let name := asList.getD i ""
        let (r, rest1) :=
          evalExpressions fs refVarList asList now fields tags (i + 1) rest (Scope.Set vars1 name v)
        (r, expr1 :: rest1)

/-- Name of the dynamic type of a value, as `%T` prints it. -/
def typeName : Value → String
  | Value.nil => "<nil>"
  | Value.int _ => "int64"
  | Value.float _ => "float64"
  | Value.str _ => "string"
  | Value.bool _ => "bool"

/-- The loop over `e.tags` in `eval` (lines 165-175). -/
def tagOutputs (vars : Scope) : List String → Tags → Except String Tags
  | [], newTags => Except.ok newTags
  | tag :: rest, newTags =>
    match Scope.Get vars tag with
    | Except.error err => Except.error err
    | Except.ok v =>
      match v with
      | Value.str s => tagOutputs vars rest (GoMap.set newTags tag s)
      | _ =>
        Except.error ("result of a tag expression must be of type string, got " ++ typeName v)

/-- The loop over `KeepList` in `eval` (lines 181-195). -/
def keepListFields (vars : Scope) (fields : Fields) : List String → Fields → Except String Fields
  | [], newFields => Except.ok newFields
  | f :: rest, newFields =>
    if Scope.Has vars f then
      match Scope.Get vars f with
      | Except.error err => Except.error err
      | Except.ok v => keepListFields vars fields rest (GoMap.set newFields f v)
    else
      match GoMap.lookup fields f with
      | some v => keepListFields vars fields rest (GoMap.set newFields f v)
      | none => Except.error ("cannot keep field \"" ++ f ++ "\", field does not exist")

/-- The loops over `AsList` in `eval` (lines 201-207, and lines 211-220 where the names in
`skip` are passed over). -/
def asListFields (vars : Scope) (skip : List String) : List String → Fields → Except String Fields
  | [], newFields => Except.ok newFields
  | f :: rest, newFields =>
    if f ∈ skip then
      asListFields vars skip rest newFields
    else
      match Scope.Get vars f with
      | Except.error err => Except.error err
      | Except.ok v => asListFields vars skip rest (GoMap.set newFields f v)

/-- The scope of `eval` before the expressions run (lines 124-139): every reference variable
bound to the initial value, then the previous fields and tags under `_previous.`. -/
def ReduceNode.seedScope {σ : Type} (e : ReduceNode σ) (previousFields : Fields)
    (previousTags : Tags) : Scope :=
  let vars := e.scopePool.foldl (fun vs rv => Scope.Set vs rv e.initialValue) scopePoolGet
  let vars := previousFields.foldl (fun vs kv => Scope.Set vs ("_previous." ++ kv.1) kv.2) vars
  previousTags.foldl (fun vs kv => Scope.Set vs ("_previous." ++ kv.1) (Value.str kv.2)) vars

/-- The outputs of `eval` once the expressions have run (lines 162-222). -/
def ReduceNode.outputs {σ : Type} (e : ReduceNode σ) (vars : Scope) (fields : Fields)
    (tags : Tags) : Except String (Fields × Tags) :=
  let newTagsR : Except String Tags :=
    if e.tags.length > 0 then tagOutputs vars e.tags tags else Except.ok tags
  match newTagsR with
  | Except.error err => Except.error err
  | Except.ok newTags =>
    let newFieldsR : Except String Fields :=
      if e.e.KeepFlag then
        if e.e.KeepList.length ≠ 0 then
          keepListFields vars fields e.e.KeepList []
        else
          asListFields vars [] e.e.AsList fields
      else
        asListFields vars e.tags e.e.AsList []
    match newFieldsR with
    | Except.error err => Except.error err
    | Except.ok newFields => Except.ok (newFields, newTags)

/-- Method `ReduceNode.eval`: the returned fields and tags, or the error, and the node
afterwards. -/
def ReduceNode.eval {σ : Type} (fs : FillScope) (e : ReduceNode σ) (now : Time) (group : String)
    (fields : Fields) (tags : Tags) (previousFields : Fields) (previousTags : Tags) :
    Except String (Fields × Tags) × ReduceNode σ :=
  let found := GoMap.lookup e.expressionsByGroup group
  let vars := e.seedScope previousFields previousTags
  let (expressions, e1) :=
    match found with
    | some xs => (xs, e)
    | none =>
      let xs := e.expressions.map Expression.CopyReset
      (xs, e.setGroup group xs)
  let (r, expressions1) :=
    evalExpressions fs e.refVarList e.e.AsList now fields tags 0 expressions vars
  let e2 := e1.setGroup group expressions1
  match r with
  | Except.error err => (Except.error err, e2)
  | Except.ok vars1 => (e.outputs vars1 fields tags, e2)

/-- Type `models.BatchPoint`. -/
structure BatchPoint where
  Time : Kapacitor.Time
  Fields : Kapacitor.Fields
  Tags : Kapacitor.Tags
  deriving DecidableEq, Repr

/-- Type `models.Batch`, as far as the node uses it. -/
structure Batch where
  Group : String
  Points : List BatchPoint
  deriving DecidableEq, Repr

/-- State of the loop over the points of a batch in `runReduce`. -/
structure ReduceLoop (σ : Type) where
  e : ReduceNode σ
  i : Nat
  Points : List BatchPoint
  previousResult : BatchPoint

/-- Body of the loop over the points of a batch in `runReduce` (lines 96-108), entered with
`i < len(b.Points)`. -/
def loopBody {σ : Type} (fs : FillScope) (group : String) (s : ReduceLoop σ) : ReduceLoop σ :=
  let p := s.Points.getD s.i ⟨Time.zero, [], []⟩
  let (r, e1) :=
    s.e.eval fs p.Time group p.Fields p.Tags s.previousResult.Fields s.previousResult.Tags
  match r with
  | Except.error err =>
    let e2 := e1.incrementErrorCount
    let e3 := if !e2.e.QuietFlag then e2.logPrintln err else e2
    ⟨e3, s.i, s.Points.eraseIdx s.i, ⟨p.Time, [], []⟩⟩
  | Except.ok (newFields, newTags) =>
    ⟨e1, s.i + 1, s.Points, ⟨p.Time, newFields, newTags⟩⟩

/-- The loop `for i := 0; i < len(b.Points); ...` of `runReduce`, run for at most `fuel`
iterations. -/
def reduceLoop {σ : Type} (fs : FillScope) (group : String) :
    Nat → ReduceLoop σ → ReduceLoop σ
  | 0, s => s
  | fuel + 1, s =>
    if s.i < s.Points.length then reduceLoop fs group fuel (loopBody fs group s) else s

/-- The accumulator `previousResult` before the loop (lines 88-94). -/
def initialResult {σ : Type} (e : ReduceNode σ) (points : List BatchPoint) : BatchPoint :=
  if points.length = 0 && e.e.DefaultPointFlag then
    ⟨Time.zero, e.e.AsList.foldl (fun m asName => GoMap.set m asName e.initialValue) [], []⟩
  else
    ⟨Time.zero, [], []⟩

/-- Body of the loop over the input batches in `runReduce` for one batch `b` (lines 86-111):
the batch handed to the children and the node afterwards. The inner loop removes a point or
advances the index on every iteration, so `len(b.Points)` iterations reach its end. -/
def ReduceNode.runReduceBatch {σ : Type} (fs : FillScope) (e : ReduceNode σ) (b : Batch) :
    Batch × ReduceNode σ :=
  let points := b.Points
  let s := reduceLoop fs b.Group points.length ⟨e, 0, points, initialResult e points⟩
  (⟨b.Group, [s.previousResult]⟩, s.e)

/-- Method `ReduceNode.runReduce` on a batch edge that delivers the given batches: the batches
handed to the children, in order, and the node afterwards. -/
def ReduceNode.runReduce {σ : Type} (fs : FillScope) (e : ReduceNode σ) :
    List Batch → List Batch × ReduceNode σ
  | [] => ([], e)
  | b :: rest =>
    let (out, e1) := e.runReduceBatch fs b
    let (outs, e2) := ReduceNode.runReduce fs e1 rest
    (out :: outs, e2)


/-! ## The outputs of `eval` with the maps held by address

`eval` receives the fields and tags of the point as Go maps, that is by reference. The
definitions below are lines 162-222 of `eval` once more, with the maps in a heap, so that the
writes of `eval` and the sharing between its arguments and its results are explicit;
`ReduceNode.outputsOnHeap_refines` relates them to `ReduceNode.outputs`. -/

/-- A heap of Go maps with values of type `α`, addressed by position. -/
structure MapHeap (α : Type) where
  cells : List (GoMap α)

/-- Contents of the map at address `r` (an unallocated address reads as the nil map). -/
def MapHeap.read {α : Type} (h : MapHeap α) (r : Nat) : GoMap α := h.cells.getD r []

/-- The built-in `make`: a new, empty map. Returns its address and the new heap. -/
def MapHeap.make {α : Type} (h : MapHeap α) : Nat × MapHeap α :=
  (h.cells.length, ⟨h.cells ++ [[]]⟩)

/-- Modelled from the spec: `models.Tags.Copy` is missing from the sources; it allocates a new
map holding the same entries. Returns the new address and the new heap. -/
def MapHeap.Copy {α : Type} (h : MapHeap α) (r : Nat) : Nat × MapHeap α :=
  (h.cells.length, ⟨h.cells ++ [h.read r]⟩)

/-- The assignment `m[k] = v` on the map at address `r`. -/
def MapHeap.assign {α : Type} (h : MapHeap α) (r : Nat) (k : String) (v : α) : MapHeap α :=
  ⟨h.cells.set r (GoMap.set (h.read r) k v)⟩

/-- The loop over `e.tags` (lines 165-175), writing to the map at address `newTags`: the
error, if any, and the heap afterwards. -/
def tagOutputsOnHeap (vars : Scope) :
    List String → Nat → MapHeap String → Option String × MapHeap String
  | [], _, h => (none, h)
  | tag :: rest, newTags, h =>
    match Scope.Get vars tag with
    | Except.error err => (some err, h)
    | Except.ok v =>
      match v with
      | Value.str s => tagOutputsOnHeap vars rest newTags (h.assign newTags tag s)
      | _ => (some ("result of a tag expression must be of type string, got " ++ typeName v), h)

/-- The loop over `KeepList` (lines 181-195), reading the point's fields at address `fields`
and writing to the map at address `newFields`. -/
def keepListFieldsOnHeap (vars : Scope) (fields : Nat) :
    List String → Nat → MapHeap Value → Option String × MapHeap Value
  | [], _, h => (none, h)
  | f :: rest, newFields, h =>
    if Scope.Has vars f then
      match Scope.Get vars f with
      | Except.error err => (some err, h)
      | Except.ok v => keepListFieldsOnHeap vars fields rest newFields (h.assign newFields f v)
    else
      match GoMap.lookup (h.read fields) f with
      | some v => keepListFieldsOnHeap vars fields rest newFields (h.assign newFields f v)
      | none => (some ("cannot keep field \"" ++ f ++ "\", field does not exist"), h)

/-- The loops over `AsList` (lines 201-207 and 211-220), writing to the map at address
`newFields`. -/
def asListFieldsOnHeap (vars : Scope) (skip : List String) :
    List String → Nat → MapHeap Value → Option String × MapHeap Value
  | [], _, h => (none, h)
  | f :: rest, newFields, h =>
    if f ∈ skip then
      asListFieldsOnHeap vars skip rest newFields h
    else
      match Scope.Get vars f with
      | Except.error err => (some err, h)
      | Except.ok v => asListFieldsOnHeap vars skip rest newFields (h.assign newFields f v)

/-- The loop `for f, v := range fields` (lines 198-200) over the given entries, writing to
the map at address `newFields`. -/
def copyEntriesOnHeap : List (String × Value) → Nat → MapHeap Value → MapHeap Value
  | [], _, h => h
  | (f, v) :: rest, newFields, h => copyEntriesOnHeap rest newFields (h.assign newFields f v)

/-- The tag outputs of `eval` (lines 162-176) on a heap of tag maps: the address of `newTags`,
the error, if any, and the heap afterwards. Without tag names `newTags` is the point's own
map. -/
def ReduceNode.tagsOnHeap {σ : Type} (e : ReduceNode σ) (vars : Scope) (ht : MapHeap String)
    (tags : Nat) : Nat × Option String × MapHeap String :=
  if e.tags.length > 0 then
    let copy := ht.Copy tags
    let r := tagOutputsOnHeap vars e.tags copy.1 copy.2
    (copy.1, r.1, r.2)
  else
    (tags, none, ht)

/-- The field outputs of `eval` (lines 177-221) on a heap of field maps: the address of
`newFields`, the error, if any, and the heap afterwards. -/
def ReduceNode.fieldsOnHeap {σ : Type} (e : ReduceNode σ) (vars : Scope) (hf : MapHeap Value)
    (fields : Nat) : Nat × Option String × MapHeap Value :=
  let made := hf.make
  let r :=
    if e.e.KeepFlag then
      if e.e.KeepList.length ≠ 0 then
        keepListFieldsOnHeap vars fields e.e.KeepList made.1 made.2
      else
        asListFieldsOnHeap vars [] e.e.AsList made.1
          (copyEntriesOnHeap (made.2.read fields) made.1 made.2)
    else
      asListFieldsOnHeap vars e.tags e.e.AsList made.1 made.2
  (made.1, r.1, r.2)

/-- Lines 162-222 of `eval` on heaps of field maps and tag maps: the addresses of the returned
fields and tags (or the error) and the two heaps afterwards. -/
def ReduceNode.outputsOnHeap {σ : Type} (e : ReduceNode σ) (vars : Scope)
    (hf : MapHeap Value) (ht : MapHeap String) (fields tags : Nat) :
    Except String (Nat × Nat) × MapHeap Value × MapHeap String :=
  let t := e.tagsOnHeap vars ht tags
  match t.2.1 with
  | some err => (Except.error err, hf, t.2.2)
  | none =>
    let f := e.fieldsOnHeap vars hf fields
    match f.2.1 with
    | some err => (Except.error err, f.2.2, t.2.2)
    | none => (Except.ok (f.1, t.1), f.2.2, t.2.2)

/-! ## Reading aids for the Reduce node

The definitions below name parts of `eval` and `runReduce` so that statements can refer to
them; `ReduceNode.eval_eq` and `reduceLoop_eq_foldPoints` relate them to the code. -/

/-- The expression instances that `eval` uses for a group: the entry of the table, or one
`CopyReset` copy of each configured expression when the group has no entry yet
(lines 127 and 141-145). -/
def ReduceNode.groupExpressions {σ : Type} (e : ReduceNode σ) (group : String) :
    List (Expression σ) :=
  match GoMap.lookup e.expressionsByGroup group with
  | some xs => xs
  | none => e.expressions.map Expression.CopyReset

/-- The loop over the expressions as `eval` runs it: the scope after all expressions ran (or
the first error) and the expression instances afterwards. -/
def ReduceNode.runExpressions {σ : Type} (fs : FillScope) (e : ReduceNode σ) (now : Time)
    (group : String) (fields : Fields) (tags : Tags) (previousFields : Fields)
    (previousTags : Tags) : Except String Scope × List (Expression σ) :=
  evalExpressions fs e.refVarList e.e.AsList now fields tags 0 (e.groupExpressions group)
    (e.seedScope previousFields previousTags)

/-- What does not change while a node runs: the configuration, the compiled expressions, the
reference variables, the tag names and the initial value. -/
def ReduceNode.sameSetup {σ : Type} (e e' : ReduceNode σ) : Prop :=
  e'.e = e.e ∧ e'.expressions = e.expressions ∧ e'.refVarList = e.refVarList ∧
    e'.scopePool = e.scopePool ∧ e'.tags = e.tags ∧ e'.initialValue = e.initialValue

/-- The loop of `runReduce` over the points of a batch, read as a fold over the points in
order: the node and the accumulator afterwards, and the result of each evaluation. -/
def foldPoints {σ : Type} (fs : FillScope) (group : String) :
    ReduceNode σ → BatchPoint → List BatchPoint →
      ReduceNode σ × BatchPoint × List (Except String (Fields × Tags))
  | e, acc, [] => (e, acc, [])
  | e, acc, p :: rest =>
    let s := loopBody fs group ⟨e, 0, [p], acc⟩
    let r := (e.eval fs p.Time group p.Fields p.Tags acc.Fields acc.Tags).1
    let (e', acc', results) := foldPoints fs group s.e s.previousResult rest
    (e', acc', r :: results)

/-- The results of the evaluations that `runReduce` performs on the points of a batch, in
order (each with the node and the accumulator that the loop holds at that moment). -/
def ReduceNode.evalResults {σ : Type} (fs : FillScope) (e : ReduceNode σ) (b : Batch) :
    List (Except String (Fields × Tags)) :=
  (foldPoints fs b.Group e (initialResult e b.Points) b.Points).2.2

/-- The points that are left in `b.Points` when the loop of `runReduce` ends, before the batch
is replaced by the single output point. -/
def ReduceNode.keptPoints {σ : Type} (fs : FillScope) (e : ReduceNode σ) (b : Batch) :
    List BatchPoint :=
  (reduceLoop fs b.Group b.Points.length ⟨e, 0, b.Points, initialResult e b.Points⟩).Points

/-- Whether an evaluation returned an error. -/
def isError {α : Type} : Except String α → Bool
  | Except.error _ => true
  | Except.ok _ => false

/-- Two expression values are the same instance, possibly in different states: they have the
same fresh state and the same evaluation function. -/
def Expression.sameInstance {σ : Type} (x y : Expression σ) : Prop :=
  y.fresh = x.fresh ∧ y.run = x.run

/-- The arguments of one call of `eval`. -/
structure EvalCall where
  now : Time
  group : String
  fields : Fields
  tags : Tags
  previousFields : Fields
  previousTags : Tags
  deriving DecidableEq, Repr

/-- The node after one call of `eval`. -/
def ReduceNode.afterEval {σ : Type} (fs : FillScope) (e : ReduceNode σ) (c : EvalCall) :
    ReduceNode σ :=
  (e.eval fs c.now c.group c.fields c.tags c.previousFields c.previousTags).2

/-- The node after a sequence of calls of `eval`, one after the other. -/
def ReduceNode.afterEvals {σ : Type} (fs : FillScope) (e : ReduceNode σ) :
    List EvalCall → ReduceNode σ
  | [] => e
  | c :: rest => ReduceNode.afterEvals fs (e.afterEval fs c) rest

/-- The point that a call of `eval` was given: its time, fields and tags. -/
def EvalCall.point (c : EvalCall) : BatchPoint := ⟨c.now, c.fields, c.tags⟩

/-- The calls of `eval` that the loop of `runReduce` makes (line 97), one for each iteration
and in the order of the iterations, when the loop is run for at most `fuel` iterations: the
iteration entered with index `i` evaluates `p := b.Points[i]` against the accumulator. -/
def evalCalls {σ : Type} (fs : FillScope) (group : String) :
    Nat → ReduceLoop σ → List EvalCall
  | 0, _ => []
  | fuel + 1, s =>
    if s.i < s.Points.length then
      let p := s.Points.getD s.i ⟨Time.zero, [], []⟩
      ⟨p.Time, group, p.Fields, p.Tags, s.previousResult.Fields, s.previousResult.Tags⟩ ::
        evalCalls fs group fuel (loopBody fs group s)
    else []

/-! ## Two calls of `eval` in progress

`eval` reads the table of groups under the read lock (lines 126-128) and writes it under the
write lock (lines 146-148); between the two it holds no lock, and it creates the instances of a
new group there (lines 141-145). The definitions below follow two calls of `eval` through
these steps, one step of one call at a time, up to the point where each call has its
`expressions`. The instance sets are held by address, so that two sets with equal contents
are told apart. -/

/-- Where a call of `eval` stands, with its arguments and local variables as far as the
table of groups is concerned: before the lookup (line 126), before the creation of the
instances (line 141, `ok` is false), before the insert (line 146, `expressions` is the new
set), and at the loop over `expressions` (line 150). -/
inductive EvalThread where
  | atLookup (group : String)
  | atCreate (group : String)
  | atInsert (group : String) (expressions : Nat)
  | atLoop (group : String) (ok : Bool) (expressions : Nat)
  deriving DecidableEq, Repr

/-- The argument `group` of the call. -/
def EvalThread.group : EvalThread → String
  | atLookup g => g
  | atCreate g => g
  | atInsert g _ => g
  | atLoop g _ _ => g

/-- The instance set that the call has created, if it has. -/
def EvalThread.created : EvalThread → Option Nat
  | atInsert _ a => some a
  | atLoop _ false a => some a
  | _ => none

/-- The instance set that the call has inserted into the table, if it has. -/
def EvalThread.inserted : EvalThread → Option Nat
  | atLoop _ false a => some a
  | _ => none

/-- The instance set that the lookup of the call has found in the table, if it has. -/
def EvalThread.found : EvalThread → Option Nat
  | atLoop _ true a => some a
  | _ => none

/-- How many steps the call has left at most before it reaches the loop over
`expressions`. -/
def EvalThread.stepsLeft : EvalThread → Nat
  | atLookup _ => 3
  | atCreate _ => 2
  | atInsert _ _ => 1
  | atLoop _ _ _ => 0

/-- The next step of a call of `eval` on the instance sets allocated so far and the table
`expressionsByGroup`: the lookup under the read lock (lines 126-128), the creation of one
`CopyReset` copy of each expression at a new address (lines 141-145), or the insert under the
write lock (lines 146-148). A call at the loop over `expressions` steps no further here. -/
def EvalThread.step {σ : Type} (e : ReduceNode σ) (sets : List (List (Expression σ)))
    (expressionsByGroup : GoMap Nat) :
    EvalThread → List (List (Expression σ)) × GoMap Nat × EvalThread
  | atLookup group =>
    match GoMap.lookup expressionsByGroup group with
    | some expressions => (sets, expressionsByGroup, atLoop group true expressions)
    | none => (sets, expressionsByGroup, atCreate group)
  | atCreate group =>
    (sets ++ [e.expressions.map Expression.CopyReset], expressionsByGroup,
      atInsert group sets.length)
  | atInsert group expressions =>
    (sets, GoMap.set expressionsByGroup group expressions, atLoop group false expressions)
  | atLoop group ok expressions => (sets, expressionsByGroup, atLoop group ok expressions)

/-- Two calls of `eval` on one node: the instance sets allocated so far, by address, the
table `expressionsByGroup`, which holds addresses, and where each call stands. -/
structure EvalPair (σ : Type) where
  sets : List (List (Expression σ))
  expressionsByGroup : GoMap Nat
  first : EvalThread
  second : EvalThread

/-- One step of the second call (`second` is true) or of the first. -/
def EvalPair.step {σ : Type} (e : ReduceNode σ) (s : EvalPair σ) (second : Bool) :
    EvalPair σ :=
  if second then
    let r := s.second.step e s.sets s.expressionsByGroup
    ⟨r.1, r.2.1, s.first, r.2.2⟩
  else
    let r := s.first.step e s.sets s.expressionsByGroup
    ⟨r.1, r.2.1, r.2.2, s.second⟩

/-- The two calls after the steps of a schedule, which names the call that takes each step. -/
def EvalPair.run {σ : Type} (e : ReduceNode σ) : List Bool → EvalPair σ → EvalPair σ
  | [], s => s
  | t :: rest, s => EvalPair.run e rest (s.step e t)

/-- Two calls of `eval` for the group `group`, both before their lookup. -/
def EvalPair.start {σ : Type} (sets : List (List (Expression σ)))
    (expressionsByGroup : GoMap Nat) (group : String) : EvalPair σ :=
  ⟨sets, expressionsByGroup, EvalThread.atLookup group, EvalThread.atLookup group⟩

/-- The table of groups as `ReduceNode.expressionsByGroup` holds it, by value: every address
replaced by the set at that address. -/
def EvalPair.table {σ : Type} (s : EvalPair σ) : GoMap (List (Expression σ)) :=
  s.expressionsByGroup.map (fun ga => (ga.1, s.sets.getD ga.2 []))

/-- What holds of two calls for the same new group `group` after every schedule, given the
sets `sets0` and the table `table0` they started from: the entries of the other groups are as
they were; the sets allocated are those that the calls created, each a list of `CopyReset`
copies; the entry of the group is a set that one of the calls inserted; a call whose lookup
found a set found the set that the other call inserted. -/
def EvalPair.invariant {σ : Type} (e : ReduceNode σ) (sets0 : List (List (Expression σ)))
    (table0 : GoMap Nat) (group : String) (s : EvalPair σ) : Prop :=
  s.first.group = group ∧ s.second.group = group ∧
  (∀ g, g ≠ group → GoMap.lookup s.expressionsByGroup g = GoMap.lookup table0 g) ∧
  (match s.first.created, s.second.created with
    | none, none => s.sets = sets0
    | some a, none =>
      s.sets = sets0 ++ [e.expressions.map Expression.CopyReset] ∧ a = sets0.length
    | none, some b =>
      s.sets = sets0 ++ [e.expressions.map Expression.CopyReset] ∧ b = sets0.length
    | some a, some b =>
      s.sets = sets0 ++ [e.expressions.map Expression.CopyReset,
          e.expressions.map Expression.CopyReset] ∧
        ((a = sets0.length ∧ b = sets0.length + 1) ∨
          (a = sets0.length + 1 ∧ b = sets0.length))) ∧
  (match s.first.inserted, s.second.inserted with
    | none, none => GoMap.lookup s.expressionsByGroup group = none
    | some a, none => GoMap.lookup s.expressionsByGroup group = some a
    | none, some b => GoMap.lookup s.expressionsByGroup group = some b
    | some a, some b =>
      GoMap.lookup s.expressionsByGroup group = some a ∨
        GoMap.lookup s.expressionsByGroup group = some b) ∧
  (∀ a, s.first.found = some a → s.second.inserted = some a) ∧
  (∀ b, s.second.found = some b → s.first.inserted = some b)

/-! ## BigPanda service (`services/bigpanda/service.go`) -/

namespace bigpanda

/-- Type `alert.Level`: an integer type, declared outside the sources. -/
abbrev Level := Int

/-- The constants `alert.OK`, `alert.Info`, `alert.Warning` and `alert.Critical`, declared
outside the sources. `preparePost` names them as the cases of one `switch`. -/
structure Levels where
  OK : Level
  Info : Level
  Warning : Level
  Critical : Level
  deriving DecidableEq, Repr

/-- The four constants are different from each other, as the cases of a Go `switch` are. -/
def Levels.distinct (lv : Levels) : Prop := [lv.OK, lv.Warning, lv.Critical, lv.Info].Nodup

instance (lv : Levels) : Decidable lv.distinct :=
  inferInstanceAs (Decidable ([lv.OK, lv.Warning, lv.Critical, lv.Info].Nodup))

/-- Type `alert.EventData`, declared outside the sources, with the fields that the service
names. -/
structure EventData where
  Name : String
  Tags : Kapacitor.Tags
  Fields : Kapacitor.Fields
  deriving DecidableEq, Repr

/-- Type `Config`, declared outside the sources, with the fields that the service reads. -/
structure Config where
  Enabled : Bool
  AppKey : String
  Url : String
  Token : String
  InsecureSkipVerify : Bool
  Global : Bool
  StateChangesOnly : Bool
  deriving DecidableEq, Repr

/-- Type `Service`, as far as `preparePost` uses it: the configuration held in
`configValue`. -/
structure Service where
  configValue : Config
  deriving DecidableEq, Repr

/-- Method `Service.config`. -/
def Service.config (s : Service) : Config := s.configValue

/-- An `http.Request` as far as `preparePost` sets it up: method, URL, body and the header
entries in the order they were added. -/
structure Request where
  Method : String
  URL : String
  Body : String
  Header : List (String × String)
  deriving DecidableEq, Repr

/-- The call `req.Header.Add(key, value)`. -/
def Request.HeaderAdd (req : Request) (key value : String) : Request :=
  ⟨req.Method, req.URL, req.Body, req.Header ++ [(key, value)]⟩

/-- The functions of the Go library that `preparePost` calls: `Format` is
`timestamp.Format(layout)`, `Encode` is `json.Encoder.Encode` of the payload into the buffer,
`Parse` is `url.Parse` followed by `String()` on the parsed URL, `NewRequest` is
`http.NewRequest(method, url, body)`. -/
structure Library where
  Format : Time → String → String
  Encode : GoMap String → Except String String
  Parse : String → Except String String
  NewRequest : String → String → String → Except String Request

/-- Constant `defaultTokenPrefix`. -/
def defaultTokenPrefix : String := "Bearer"

/-- The `switch level` of `preparePost` (lines 188-199), its cases tried in order. -/
def status (lv : Levels) (level : Level) : String :=
  if level = lv.OK then "ok"
  else if level = lv.Warning then "warning"
  else if level = lv.Critical then "critical"
  else if level = lv.Info then "ok"
  else "critical"

/-- The payload `bpData` of `preparePost` (lines 201-215). Every value stored in it is a
string. -/
def bpData (lib : Library) (lv : Levels) (c : Config) (appKey message : String) (level : Level)
    (timestamp : Time) (data : EventData) : GoMap String :=
  let bpData : GoMap String := []
  let bpData := GoMap.set bpData "check" message
  let bpData := GoMap.set bpData "timestamp"
    (lib.Format timestamp "2006-01-02T15:04:05.000000000Z07:00")
  let bpData := GoMap.set bpData "status" (status lv level)
  let appKey := if appKey = "" then c.AppKey else appKey
  let bpData := GoMap.set bpData "app_key" appKey
  if data.Tags.length > 0 then
    data.Tags.foldl (fun m kv => GoMap.set m kv.1 kv.2) bpData
  else bpData

/-- What `preparePost` does: it returns a request and a nil error, or a nil request and an
error, or it calls `req.Header.Add` on the nil request that `http.NewRequest` returned with
its error (lines 229-234). -/
inductive PostResult where
  | request (req : Request)
  | error (err : String)
  | nilDereference
  deriving DecidableEq, Repr

/-- Method `Service.preparePost`. -/
def Service.preparePost (lib : Library) (lv : Levels) (s : Service)
    (appKey _alertTopic _alertID message : String) (level : Level) (timestamp : Time)
    (data : EventData) : PostResult :=
  let c := s.config
  if !c.Enabled then
    PostResult.error "service is not enabled"
  else
    match lib.Encode (bpData lib lv c appKey message level timestamp data) with
    | Except.error err => PostResult.error err
    | Except.ok post =>
      match lib.Parse c.Url with
      | Except.error err => PostResult.error err
      | Except.ok alertUrl =>
        match lib.NewRequest "POST" alertUrl post with
        | Except.error _ => PostResult.nilDereference
        | Except.ok req =>
          PostResult.request
            ((req.HeaderAdd "Authorization" (defaultTokenPrefix ++ " " ++ c.Token)).HeaderAdd
              "Content-Type" "application/json")

/-- The statuses that the comment above `preparePost` lists. -/
def documentedStatuses : List String := ["ok", "critical", "warning", "acknowledged"]

end bigpanda

/-! ## Concrete configurations and inputs -/

/-- A derivative of the field `value` per second, emitted as `rate`. -/
def exDerivative : DerivativeNode := ⟨⟨"value", "rate", 1000000000, false⟩, 0, []⟩

/-- The same with `NonNegativeFlag` set. -/
def exNonNegative : DerivativeNode := ⟨⟨"value", "rate", 1000000000, true⟩, 0, []⟩

/-- A heap with three field maps, at the addresses 0, 1 and 2. -/
def exHeap : Heap :=
  ⟨[[("value", Value.int 10), ("load", Value.float (F64.ofInt 1))],
    [("value", Value.int 4)],
    [("value", Value.bool true)]]⟩

/-- A derivative of the field `value` with the negative unit -1s. -/
def exNegativeUnit : DerivativeNode := ⟨⟨"value", "rate", -1000000000, false⟩, 0, []⟩

/-- The running sum `"_previous.total" + "x"` as a stateless expression: it adds the two
integers in scope and fails on any other type. -/
def exSum : Expression Unit :=
  ⟨(), (), fun st vars =>
    match GoMap.lookup vars "_previous.total", GoMap.lookup vars "x" with
    | some (Value.int a), some (Value.int b) => (Except.ok (Value.int (a + b)), st)
    | _, _ => (Except.error "invalid math operator + for these types", st)⟩

/-- A reduce of `"_previous.total" + "x"` as `total`, with initial value 0. -/
def exReduceConfig : PipelineReduceNode Unit :=
  { Lambdas := [⟨Except.ok exSum, ["_previous.total", "x"]⟩]
    AsList := ["total"]
    TagsList := []
    KeepFlag := false
    KeepList := []
    DefaultPointFlag := false
    InitialValue := Value.int 0
    QuietFlag := false }

/-- The node that `newReduceNode` builds from `exReduceConfig`. -/
def exReduce : ReduceNode Unit :=
  { e := exReduceConfig
    expressions := [exSum]
    expressionsByGroup := []
    refVarList := [["_previous.total", "x"]]
    scopePool := ["_previous.total", "x"]
    tags := []
    initialValue := Value.int 0
    errorCount := 0
    logged := [] }

/-- A point with `x = 1` at 1s. -/
def exPoint1 : BatchPoint := ⟨⟨1000000000⟩, [("x", Value.int 1)], [("host", "a")]⟩

/-- A point whose `x` is a string, at 2s: the sum fails on it. -/
def exPointBad : BatchPoint := ⟨⟨2000000000⟩, [("x", Value.str "n/a")], [("host", "a")]⟩

/-- A point with `x = 5` at 3s. -/
def exPoint3 : BatchPoint := ⟨⟨3000000000⟩, [("x", Value.int 5)], [("host", "a")]⟩

/-- A point whose `x` is a string, at 4s: the sum fails on it. -/
def exPointBadLast : BatchPoint := ⟨⟨4000000000⟩, [("x", Value.str "n/a")], [("host", "a")]⟩

/-- Two begin-batch messages: size hint 3 at address 0, size hint 0 at address 1. -/
def exBegin : BeginStore := ⟨[⟨"cpu", [("host", "a")], 3⟩, ⟨"cpu", [("host", "b")], 0⟩]⟩

/-- The expression `"x"`: the value of the variable `x` in scope. -/
def exRefX : Expression Unit := ⟨(), (), fun st vars => (Scope.Get vars "x", st)⟩

/-- A reduce of `"x"` as `y`, `KeepFlag` unset, with a default point and initial value 0. -/
def exRenameConfig : PipelineReduceNode Unit :=
  { Lambdas := [⟨Except.ok exRefX, ["x"]⟩]
    AsList := ["y"]
    TagsList := []
    KeepFlag := false
    KeepList := []
    DefaultPointFlag := true
    InitialValue := Value.int 0
    QuietFlag := false }

/-- The node that `newReduceNode` builds from `exRenameConfig`. -/
def exRename : ReduceNode Unit :=
  { e := exRenameConfig
    expressions := [exRefX]
    expressionsByGroup := []
    refVarList := [["x"]]
    scopePool := ["x"]
    tags := []
    initialValue := Value.int 0
    errorCount := 0
    logged := [] }

/-- A configuration with two names for one lambda. -/
def exMismatchConfig : PipelineReduceNode Unit :=
  { Lambdas := [⟨Except.error "unexpected token", ["x"]⟩]
    AsList := ["y", "z"]
    TagsList := []
    KeepFlag := false
    KeepList := []
    DefaultPointFlag := false
    InitialValue := Value.nil
    QuietFlag := false }

/-- The node `exRename` with `KeepFlag` set and no `KeepList`. -/
def exKeepAll : ReduceNode Unit :=
  { e := { exRenameConfig with KeepFlag := true }
    expressions := [exRefX]
    expressionsByGroup := []
    refVarList := [["x"]]
    scopePool := ["x"]
    tags := []
    initialValue := Value.int 0
    errorCount := 0
    logged := [] }

/-- The node `exRename` with `KeepFlag` set and the `KeepList` `y`, `load`. -/
def exKeepSome : ReduceNode Unit :=
  { e := { exRenameConfig with KeepFlag := true, KeepList := ["y", "load"] }
    expressions := [exRefX]
    expressionsByGroup := []
    refVarList := [["x"]]
    scopePool := ["x"]
    tags := []
    initialValue := Value.int 0
    errorCount := 0
    logged := [] }

/-- The node `exRename` with `y` in `TagsList`: the result of `"x"` becomes the tag `y`. -/
def exTagged : ReduceNode Unit :=
  { e := { exRenameConfig with TagsList := ["y"] }
    expressions := [exRefX]
    expressionsByGroup := []
    refVarList := [["x"]]
    scopePool := ["x"]
    tags := ["y"]
    initialValue := Value.int 0
    errorCount := 0
    logged := [] }

/-- A counter as a stateful expression: it returns how many times it was evaluated before
and fails when `x` is not an integer. -/
def exCount : Expression Nat :=
  ⟨0, 0, fun st vars =>
    match GoMap.lookup vars "x" with
    | some (Value.int _) => (Except.ok (Value.int st), st + 1)
    | _ => (Except.error "x is not an integer", st + 1)⟩

/-- A node with the counter as `n`, as `newReduceNode` builds it. -/
def exCounter : ReduceNode Nat :=
  { e := { Lambdas := [⟨Except.ok exCount, ["x"]⟩]
           AsList := ["n"]
           TagsList := []
           KeepFlag := false
           KeepList := []
           DefaultPointFlag := false
           InitialValue := Value.nil
           QuietFlag := false }
    expressions := [exCount]
    expressionsByGroup := []
    refVarList := [["x"]]
    scopePool := ["x"]
    tags := []
    initialValue := Value.nil
    errorCount := 0
    logged := [] }

/-- A call of `eval` for group `a` on a point with x = 1. -/
def exCallA : EvalCall := ⟨⟨1000000000⟩, "host=a", [("x", Value.int 1)], [("host", "a")], [], []⟩

/-- A call of `eval` for group `b` on a point whose x is a string: the evaluation fails. -/
def exCallB : EvalCall :=
  ⟨⟨1000000000⟩, "host=b", [("x", Value.str "n/a")], [("host", "b")], [], []⟩

/-- The levels with the values 0 to 3. -/
def exLevels : bigpanda.Levels := ⟨0, 1, 2, 3⟩

/-- A library for the examples: the time is printed as its seconds, the payload is encoded as
`key=value` entries in the order of the map, every URL parses to itself and every request can
be built. -/
def exLibrary : bigpanda.Library :=
  { Format := fun t _ => toString (t.ns / 1000000000)
    Encode := fun m => Except.ok (String.intercalate ";" (m.map fun kv => kv.1 ++ "=" ++ kv.2))
    Parse := fun u => Except.ok u
    NewRequest := fun method u body => Except.ok ⟨method, u, body, []⟩ }

/-- An enabled BigPanda service. -/
def exService : bigpanda.Service :=
  ⟨⟨true, "key-1", "https://api.bigpanda.io/data/v2/alerts", "token-1", false, false, false⟩⟩

/-- The same service, not enabled. -/
def exServiceOff : bigpanda.Service :=
  ⟨⟨false, "key-1", "https://api.bigpanda.io/data/v2/alerts", "token-1", false, false, false⟩⟩

/-- Event data of a check whose points carry the tag `host`. -/
def exEvent : bigpanda.EventData := ⟨"ping", [("host", "a")], [("value", Value.int 1)]⟩

/-- Event data of a check whose points carry a tag named `status`. -/
def exEventStatusTag : bigpanda.EventData :=
  ⟨"ping", [("host", "a"), ("status", "down")], [("value", Value.int 1)]⟩

/-- Event data of a check whose points carry a tag named `app_key`. -/
def exEventAppKeyTag : bigpanda.EventData :=
  ⟨"ping", [("app_key", "key-of-the-tag")], [("value", Value.int 1)]⟩

/-! ## Lemmas on the float model -/

theorem bitLenAux_lower (k n : Nat) (hn : n ≠ 0) :
    1 ≤ bitLenAux k n ∧ 2 ^ (bitLenAux k n - 1) ≤ n := by
  induction k generalizing n with
  | zero =>
    simp only [bitLenAux, hn, if_false]
    constructor
    · exact le_refl 1
    · simpa using Nat.pos_of_ne_zero hn
  | succ k ih =>
    have e1 : (1 <<< k : Nat) = 2 ^ k := by simp [Nat.shiftLeft_eq]
    rw [bitLenAux, e1]
    have e2 : (1 <<< 2 ^ k : Nat) = 2 ^ 2 ^ k := by simp [Nat.shiftLeft_eq]
    rw [e2, Nat.shiftRight_eq_div_pow]
    split_ifs with h
    · exact ih n hn
    · have hB : 2 ^ (2 ^ k) ≤ n := Nat.le_of_not_lt h
      have hpos : 0 < 2 ^ (2 ^ k) := Nat.two_pow_pos _
      have hm : n / 2 ^ 2 ^ k ≠ 0 := Nat.pos_iff_ne_zero.mp (Nat.div_pos hB hpos)
      obtain ⟨h1, h2⟩ := ih _ hm
      generalize bitLenAux k (n / 2 ^ 2 ^ k) = b at h1 h2
      refine ⟨le_trans h1 (Nat.le_add_left _ _), ?_⟩
      have e : 2 ^ k + b - 1 = 2 ^ k + (b - 1) := Nat.add_sub_assoc h1 _
      rw [e, pow_add]
      calc 2 ^ 2 ^ k * 2 ^ (b - 1)
          ≤ 2 ^ 2 ^ k * (n / 2 ^ 2 ^ k) := Nat.mul_le_mul_left _ h2
        _ ≤ n := Nat.mul_div_le n _

theorem rne_ge_div (n d : Nat) : n / d ≤ rne n d := by
  unfold rne
  simp only
  split_ifs <;> omega

theorem roundMag_zero (d : Nat) : roundMag 0 d = 0 := by
  simp [roundMag, rne]

theorem roundMag_one_ne_zero (n : Nat) (hn : n ≠ 0) : roundMag n 1 ≠ 0 := by
  obtain ⟨h1, h2⟩ := bitLenAux_lower 13 n hn
  unfold roundMag
  simp only [Nat.div_one, Nat.shiftLeft_eq, one_mul]
  have hs : 2 ^ (bitLen n - 53) ≤ n := by
    refine le_trans (Nat.pow_le_pow_right (by norm_num) ?_) h2
    unfold bitLen
    omega
  have hpos : 0 < 2 ^ (bitLen n - 53) := Nat.two_pow_pos _
  have hq : 0 < n / 2 ^ (bitLen n - 53) := Nat.div_pos hs hpos
  have hr := rne_ge_div n (2 ^ (bitLen n - 53))
  exact Nat.pos_iff_ne_zero.mp (Nat.mul_pos (lt_of_lt_of_le hq hr) hpos)

theorem bitLenAux_upper (k n j : Nat) (h : n < 2 ^ j) : bitLenAux k n ≤ j := by
  induction k generalizing n j with
  | zero =>
    by_cases hn : n = 0
    · simp [bitLenAux, hn]
    · simp only [bitLenAux, hn, if_false]
      rcases Nat.eq_zero_or_pos j with hj | hj
      · subst hj
        simp only [pow_zero, Nat.lt_one_iff] at h
        exact absurd h hn
      · exact hj
  | succ k ih =>
    have e1 : (1 <<< k : Nat) = 2 ^ k := by rw [Nat.shiftLeft_eq, one_mul]
    rw [bitLenAux, e1]
    have e2 : (1 <<< 2 ^ k : Nat) = 2 ^ 2 ^ k := by rw [Nat.shiftLeft_eq, one_mul]
    rw [e2, Nat.shiftRight_eq_div_pow]
    split_ifs with hlt
    · exact ih n j h
    · have hB : 2 ^ (2 ^ k) ≤ n := Nat.le_of_not_lt hlt
      have hj : 2 ^ k < j := by
        by_contra hc
        have : 2 ^ j ≤ 2 ^ 2 ^ k := Nat.pow_le_pow_right (by norm_num) (Nat.le_of_not_lt hc)
        omega
      have hq : n / 2 ^ 2 ^ k < 2 ^ (j - 2 ^ k) := by
        rw [Nat.div_lt_iff_lt_mul (Nat.two_pow_pos _), ← pow_add]
        have : j - 2 ^ k + 2 ^ k = j := Nat.sub_add_cancel (le_of_lt hj)
        rw [this]
        exact h
      have := ih _ _ hq
      omega

theorem one_shiftLeft (e : Nat) : (1 <<< e : Nat) = 2 ^ e := by
  rw [Nat.shiftLeft_eq, one_mul]

/-- An integer below `2^53` scaled by a power of two has at most 53 significant bits:
rounding leaves it as it is. -/
theorem roundMag_scaled (m e : Nat) (hm : m < 2 ^ 53) :
    roundMag (m * (1 <<< e)) 1 = m * (1 <<< e) := by
  rw [one_shiftLeft]
  have hlen : bitLen (m * 2 ^ e) ≤ 53 + e := by
    apply bitLenAux_upper
    rw [pow_add]
    exact Nat.mul_lt_mul_of_pos_right hm (Nat.two_pow_pos _)
  unfold roundMag
  simp only [Nat.div_one, Nat.shiftLeft_eq, one_mul]
  generalize hs : bitLen (m * 2 ^ e) - 53 = s
  have hs' : s ≤ e := by omega
  have hdvd : 2 ^ s ∣ m * 2 ^ e := Dvd.dvd.mul_left (pow_dvd_pow 2 hs') m
  have hr : m * 2 ^ e % 2 ^ s = 0 := Nat.mod_eq_zero_of_dvd hdvd
  have hpos : 0 < 2 ^ s := Nat.two_pow_pos _
  unfold rne
  simp only [hr, Nat.mul_zero, hpos, if_true]
  exact Nat.div_mul_cancel hdvd

theorem scaled_lt_shiftLeft (m e f : Nat) (hm : m < 2 ^ 53) (hf : 53 + e ≤ f) :
    m * (1 <<< e) < 1 <<< f := by
  rw [one_shiftLeft, one_shiftLeft]
  calc m * 2 ^ e < 2 ^ 53 * 2 ^ e := Nat.mul_lt_mul_of_pos_right hm (Nat.two_pow_pos _)
    _ = 2 ^ (53 + e) := (pow_add 2 53 e).symm
    _ ≤ 2 ^ f := Nat.pow_le_pow_right (by norm_num) hf

theorem unitsPerOne_pos : 0 < unitsPerOne := by decide

theorem overflowMag_pos : 0 < overflowMag := by decide

theorem F64.ofInt_small (i : Int) (hi : i.natAbs < 2 ^ 53) :
    F64.ofInt i = F64.fin (decide (i < 0)) (i.natAbs * unitsPerOne) := by
  have h1 : roundMag (i.natAbs * unitsPerOne) 1 = i.natAbs * unitsPerOne :=
    roundMag_scaled _ 1074 hi
  have h2 : i.natAbs * unitsPerOne < overflowMag :=
    scaled_lt_shiftLeft _ 1074 2098 hi (by norm_num)
  unfold F64.ofInt F64.ofMag
  simp only [h1, h2, if_true]

theorem F64.sval_small (i : Int) :
    F64.sval (decide (i < 0)) (i.natAbs * unitsPerOne) = i * (unitsPerOne : Int) := by
  unfold F64.sval
  generalize unitsPerOne = u
  by_cases h : i < 0
  · simp only [h, decide_True, if_true, Nat.cast_mul, Int.natCast_natAbs]
    rw [abs_of_neg h]
    ring
  · simp only [h, decide_False, Bool.false_eq_true, if_false, Nat.cast_mul, Int.natCast_natAbs]
    rw [abs_of_nonneg (not_lt.mp h)]

/-- Promotion to float64 keeps the strict order of integers of magnitude below `2^53`. -/
theorem F64.ofInt_lt_ofInt (a b : Int) (ha : a.natAbs < 2 ^ 53) (hb : b.natAbs < 2 ^ 53)
    (h : a < b) : F64.lt (F64.ofInt a) (F64.ofInt b) = true := by
  rw [F64.ofInt_small a ha, F64.ofInt_small b hb]
  simp only [F64.lt, F64.sval_small, decide_eq_true_eq]
  exact Int.mul_lt_mul_of_pos_right h (by exact_mod_cast unitsPerOne_pos)

theorem sval_eq_zero_iff (s : Bool) (m : Nat) : F64.sval s m = 0 ↔ m = 0 := by
  unfold F64.sval
  split_ifs <;> omega

theorem F64.ofInt_eq_zero_iff (i : Int) : F64.eq (F64.ofInt i) F64.zero = true ↔ i = 0 := by
  unfold F64.ofInt F64.ofMag
  simp only
  by_cases hi : i = 0
  · subst hi
    simp [roundMag_zero, overflowMag_pos, F64.eq, F64.zero, F64.sval]
  · have hn : i.natAbs * unitsPerOne ≠ 0 :=
      Nat.mul_ne_zero (Int.natAbs_ne_zero.mpr hi) (Nat.pos_iff_ne_zero.mp unitsPerOne_pos)
    have hm := roundMag_one_ne_zero _ hn
    split_ifs with h
    · simp only [F64.eq, F64.zero, beq_iff_eq, hi, iff_false]
      intro hz
      have h0 : F64.sval false 0 = 0 := by simp [F64.sval]
      rw [h0] at hz
      exact hm ((sval_eq_zero_iff _ _).mp hz)
    · simp [F64.eq, F64.zero, hi]

theorem Time.Sub_eq_zero_iff (t u : Time) : t.Sub u = 0 ↔ t = u := by
  have key : t = u ↔ t.ns - u.ns = 0 := by
    constructor
    · intro h; subst h; simp
    · intro h
      cases t; cases u
      simp only [Time.mk.injEq]
      simp only at h
      omega
  rw [key]
  unfold Time.Sub minDuration maxDuration
  simp only
  split_ifs <;> omega

/-- A strictly smaller float minus a larger one is negative: rounding never reaches zero. -/
theorem F64.sub_neg_of_lt (a b : F64) (h : F64.lt a b = true) :
    F64.lt (F64.sub a b) F64.zero = true := by
  cases a with
  | nan => simp [F64.lt] at h
  | inf s =>
    cases b with
    | nan => simp [F64.lt] at h
    | inf t =>
      simp only [F64.lt, Bool.and_eq_true, Bool.not_eq_true'] at h
      obtain ⟨hs, ht⟩ := h
      subst hs; subst ht
      simp [F64.sub, F64.lt, F64.zero]
    | fin t b =>
      simp only [F64.lt] at h
      subst h
      simp [F64.sub, F64.lt, F64.zero]
  | fin s a =>
    cases b with
    | nan => simp [F64.lt] at h
    | inf t =>
      simp only [F64.lt, Bool.not_eq_true'] at h
      subst h
      simp [F64.sub, F64.lt, F64.zero]
    | fin t b =>
      simp only [F64.lt, decide_eq_true_eq] at h
      have hd : F64.sval s a - F64.sval t b < 0 := by omega
      have hne : F64.sval s a - F64.sval t b ≠ 0 := by omega
      have hn : (F64.sval s a - F64.sval t b).natAbs ≠ 0 := Int.natAbs_ne_zero.mpr hne
      have hm := roundMag_one_ne_zero _ hn
      simp only [F64.sub, hne, if_false, F64.ofMag, hd, decide_True]
      generalize roundMag (F64.sval s a - F64.sval t b).natAbs 1 = m at hm
      split_ifs with ho
      · simp only [F64.lt, F64.zero, F64.sval, if_true, decide_eq_true_eq]
        simp only [Bool.false_eq_true, if_false]
        omega
      · simp [F64.lt, F64.zero]

theorem F64.sign_of_ne_zero (x : F64) (h : F64.sign x ≠ 0) :
    F64.sign x = if F64.signBit x = true then -1 else 1 := by
  cases x with
  | nan => simp [F64.sign] at h
  | inf s => simp [F64.sign, F64.signBit]
  | fin s m =>
    by_cases hm : m = 0
    · simp [F64.sign, hm] at h
    · simp [F64.sign, F64.signBit, hm]

theorem F64.ofMag_cases (s : Bool) (n d : Nat) :
    F64.ofMag s n d = F64.fin s (roundMag n d) ∨ F64.ofMag s n d = F64.inf s := by
  unfold F64.ofMag
  simp only
  split_ifs
  · exact Or.inl rfl
  · exact Or.inr rfl

theorem F64.signBit_ofMag (s : Bool) (n d : Nat) : F64.signBit (F64.ofMag s n d) = s := by
  rcases F64.ofMag_cases s n d with h | h <;> rw [h] <;> rfl

theorem F64.signBit_ofInt (i : Int) : F64.signBit (F64.ofInt i) = decide (i < 0) :=
  F64.signBit_ofMag _ _ _

theorem F64.ofInt_cases (i : Int) (hi : i ≠ 0) :
    (∃ m, m ≠ 0 ∧ F64.ofInt i = F64.fin (decide (i < 0)) m) ∨
      F64.ofInt i = F64.inf (decide (i < 0)) := by
  have hn : i.natAbs * unitsPerOne ≠ 0 :=
    Nat.mul_ne_zero (Int.natAbs_ne_zero.mpr hi) (Nat.pos_iff_ne_zero.mp unitsPerOne_pos)
  rcases F64.ofMag_cases (decide (i < 0)) (i.natAbs * unitsPerOne) 1 with h | h
  · exact Or.inl ⟨_, roundMag_one_ne_zero _ hn, h⟩
  · exact Or.inr h

theorem F64.signBit_div (a b : F64) (h : F64.div a b ≠ F64.nan) :
    F64.signBit (F64.div a b) = xor (F64.signBit a) (F64.signBit b) := by
  cases a with
  | nan => simp [F64.div] at h
  | inf s =>
    cases b with
    | nan => simp [F64.div] at h
    | inf t => simp [F64.div] at h
    | fin t b => simp [F64.div, F64.signBit]
  | fin s a =>
    cases b with
    | nan => simp [F64.div] at h
    | inf t => simp [F64.div, F64.signBit]
    | fin t b =>
      simp only [F64.div] at h ⊢
      split_ifs at h ⊢ with hb ha
      · exact absurd rfl h
      · rfl
      · rw [F64.signBit_ofMag]
        rfl

theorem F64.sign_div_ne_zero (a b : F64) (h : F64.sign (F64.div a b) ≠ 0) :
    F64.sign a ≠ 0 ∧ ∃ t m, b = F64.fin t m := by
  cases a with
  | nan => simp [F64.div, F64.sign] at h
  | inf s =>
    cases b with
    | nan => simp [F64.div, F64.sign] at h
    | inf t => simp [F64.div, F64.sign] at h
    | fin t b =>
      refine ⟨?_, t, b, rfl⟩
      cases s <;> simp [F64.sign]
  | fin s a =>
    cases b with
    | nan => simp [F64.div, F64.sign] at h
    | inf t => simp [F64.div, F64.sign] at h
    | fin t b =>
      refine ⟨?_, t, b, rfl⟩
      intro ha
      have ha0 : a = 0 := by
        by_contra hne
        cases s <;> simp [F64.sign, hne] at ha
      subst ha0
      by_cases hb : b = 0
      · simp [F64.div, hb, F64.sign] at h
      · simp [F64.div, hb, F64.ofMag, roundMag_zero, overflowMag_pos, F64.sign] at h

theorem F64.div_ofInt_zero_not_fin (i : Int) (hi : i ≠ 0) (t : Bool) (m : Nat) :
    F64.div (F64.ofInt i) (F64.ofInt 0) ≠ F64.fin t m := by
  have h0 : F64.ofInt 0 = F64.fin false 0 := by decide
  rw [h0]
  rcases F64.ofInt_cases i hi with ⟨k, hk, e⟩ | e
  · rw [e]
    simp [F64.div, hk]
  · rw [e]
    simp [F64.div]

theorem Int.sign_eq_ite (i : Int) (hi : i ≠ 0) : Int.sign i = if i < 0 then -1 else 1 := by
  rcases lt_trichotomy i 0 with h | h | h
  · simp [Int.sign_eq_neg_one_of_neg h, h]
  · exact absurd h hi
  · simp [Int.sign_eq_one_of_pos h, not_lt.mpr (le_of_lt h)]

/-- Sign of `diff / (float64(elapsed) / float64(unit))` for a non-zero elapsed time: when the
quotient is a non-zero number, its sign is the product of the three signs. -/
theorem F64.sign_rate (diff : F64) (elapsed unit : Int) (he : elapsed ≠ 0)
    (h : F64.sign (F64.div diff (F64.div (F64.ofInt elapsed) (F64.ofInt unit))) ≠ 0) :
    F64.sign (F64.div diff (F64.div (F64.ofInt elapsed) (F64.ofInt unit)))
      = F64.sign diff * Int.sign elapsed * Int.sign unit := by
  obtain ⟨hd, t, m, hr⟩ := F64.sign_div_ne_zero _ _ h
  have hu : unit ≠ 0 := by
    intro hu
    rw [hu] at hr
    exact F64.div_ofInt_zero_not_fin elapsed he t m hr
  have hvn : F64.div diff (F64.div (F64.ofInt elapsed) (F64.ofInt unit)) ≠ F64.nan := by
    intro e
    rw [e] at h
    exact h rfl
  have hrn : F64.div (F64.ofInt elapsed) (F64.ofInt unit) ≠ F64.nan := by
    rw [hr]
    exact fun e => F64.noConfusion e
  rw [F64.sign_of_ne_zero _ h, F64.signBit_div _ _ hvn, F64.signBit_div _ _ hrn,
    F64.signBit_ofInt, F64.signBit_ofInt, F64.sign_of_ne_zero _ hd, Int.sign_eq_ite _ he,
    Int.sign_eq_ite _ hu]
  by_cases h1 : F64.signBit diff = true <;> by_cases h2 : elapsed < 0 <;>
    by_cases h3 : unit < 0 <;> simp [h1, h2, h3]

/-! ## Lemmas on maps and the heap -/

theorem GoMap.lookup_set {α : Type} (m : GoMap α) (k : String) (v : α) (k' : String) :
    GoMap.lookup (GoMap.set m k v) k' = if k' = k then some v else GoMap.lookup m k' := by
  induction m with
  | nil =>
    simp only [GoMap.set, GoMap.lookup]
    by_cases h : k = k'
    · simp [h]
    · have h' : ¬ k' = k := fun e => h e.symm
      simp [h, h']
  | cons e rest ih =>
    obtain ⟨k0, v0⟩ := e
    simp only [GoMap.set]
    by_cases h0 : k0 = k
    · subst h0
      simp only [if_true, GoMap.lookup]
      by_cases h : k0 = k'
      · simp [h]
      · have h' : ¬ k' = k0 := fun e => h e.symm
        simp [h, h']
    · simp only [h0, if_false, GoMap.lookup, ih]
      by_cases h : k0 = k'
      · subst h
        simp [h0]
      · simp [h]

theorem Heap.read_Copy_old (h : Heap) (r r' : Nat) (hr : r' < h.cells.length) :
    (h.Copy r).2.read r' = h.read r' := by
  simp [Heap.Copy, Heap.read, List.getD_eq_getElem?_getD, List.getElem?_append_left hr]

theorem Heap.read_assign_new (h : Heap) (r : Nat) (k : String) (v : Value) :
    ((h.Copy r).2.assign (h.Copy r).1 k v).read (h.Copy r).1 = GoMap.set (h.read r) k v := by
  simp [Heap.Copy, Heap.read, Heap.assign, List.getD_eq_getElem?_getD]

theorem Heap.read_assign_old (h : Heap) (r : Nat) (k : String) (v : Value) (r' : Nat)
    (hr : r' < h.cells.length) :
    ((h.Copy r).2.assign (h.Copy r).1 k v).read r' = h.read r' := by
  have hne : h.cells.length ≠ r' := by omega
  simp [Heap.Copy, Heap.read, Heap.assign, List.getD_eq_getElem?_getD, List.getElem?_set, hne,
    List.getElem?_append_left hr]

/-! ## Lemmas on `derivative` -/

theorem DerivativeNode.derivative_eq (n : DerivativeNode) (prev curr : Fields) (pt ct : Time) :
    n.derivative prev curr pt ct =
      if F64.eq (F64.ofInt (ct.Sub pt)) F64.zero = true then
        ⟨F64.zero, true, false,
          n.incrementErrorCount.logPrintf "E! cannot perform derivative elapsed time was 0"⟩
      else if (diffFunc (Fields.get prev n.d.Field) (Fields.get curr n.d.Field)).2 = false then
        ⟨F64.zero, true, false, n⟩
      else if n.d.NonNegativeFlag = true ∧
          F64.lt (diffFunc (Fields.get prev n.d.Field) (Fields.get curr n.d.Field)).1 F64.zero
            = true then
        ⟨F64.zero, true, false, n⟩
      else
        ⟨F64.div (diffFunc (Fields.get prev n.d.Field) (Fields.get curr n.d.Field)).1
            (F64.div (F64.ofInt (ct.Sub pt)) (F64.ofInt n.d.Unit)), true, true, n⟩ := by
  unfold DerivativeNode.derivative
  simp only
  rcases hd : diffFunc (Fields.get prev n.d.Field) (Fields.get curr n.d.Field) with ⟨d, ok⟩
  cases ok <;> simp

theorem DerivativeNode.derivative_store (n : DerivativeNode) (prev curr : Fields) (pt ct : Time) :
    (n.derivative prev curr pt ct).store = true := by
  rw [DerivativeNode.derivative_eq]
  split_ifs <;> rfl

theorem diffFunc_nil_left (f1 : Value) : diffFunc Value.nil f1 = (F64.zero, false) := by
  cases f1 <;> rfl

theorem derivativeGroup.doDerivative_eq (g : derivativeGroup) (h : Heap) (p n : Message) :
    g.doDerivative h p n =
      if (g.n.derivative (g.prevArgs h).1 (h.read p.fields) (g.prevArgs h).2 p.time).emit
          = true then
        ⟨true,
          ⟨(g.n.derivative (g.prevArgs h).1 (h.read p.fields) (g.prevArgs h).2 p.time).n, some p⟩,
          n.SetFields (h.Copy n.fields).1,
          (h.Copy n.fields).2.assign (h.Copy n.fields).1 g.n.d.As (Value.float
            (g.n.derivative (g.prevArgs h).1 (h.read p.fields) (g.prevArgs h).2 p.time).value)⟩
      else
        ⟨false,
          ⟨(g.n.derivative (g.prevArgs h).1 (h.read p.fields) (g.prevArgs h).2 p.time).n, some p⟩,
          n, h⟩ := by
  have hst := DerivativeNode.derivative_store g.n (g.prevArgs h).1 (h.read p.fields)
    (g.prevArgs h).2 p.time
  unfold derivativeGroup.doDerivative
  simp only [hst, if_true]
  split_ifs with a b b
  · rw [b] at a
    exact absurd a (by decide)
  · rfl
  · rfl
  · simp only [Bool.not_eq_true] at b
    rw [b] at a
    exact absurd a (by decide)

theorem derivativeGroup.doDerivative_fresh (n : DerivativeNode) (h : Heap) (p np : Message)
    (hp : p.time ≠ Time.zero) :
    n.newGroup.doDerivative h p np = ⟨false, ⟨n, some p⟩, np, h⟩ := by
  have hz : ¬ (F64.eq (F64.ofInt (p.time.Sub Time.zero)) F64.zero = true) := by
    rw [F64.ofInt_eq_zero_iff, Time.Sub_eq_zero_iff]
    exact hp
  simp [derivativeGroup.doDerivative, derivativeGroup.prevArgs, DerivativeNode.newGroup,
    DerivativeNode.derivative_eq, hz, Fields.get, GoMap.lookup, diffFunc_nil_left]

theorem diffFunc_ok_iff (f0 f1 : Value) :
    (diffFunc f0 f1).2 = true ↔
      (f0.isNumeric = true ∧ f1.isNumeric = true) ∨ (f0.isString = true ∧ f1.isString = true) := by
  cases f0 <;> cases f1 <;>
    simp [diffFunc, numToFloat, assertString, Value.isNumeric, Value.isString]

theorem DerivativeNode.derivative_emit_iff (n : DerivativeNode) (prev curr : Fields)
    (pt ct : Time) :
    (n.derivative prev curr pt ct).emit = true ↔
      ct ≠ pt ∧
      (diffFunc (Fields.get prev n.d.Field) (Fields.get curr n.d.Field)).2 = true ∧
      ¬ (n.d.NonNegativeFlag = true ∧
        F64.lt (diffFunc (Fields.get prev n.d.Field) (Fields.get curr n.d.Field)).1 F64.zero
          = true) := by
  have hz : F64.eq (F64.ofInt (ct.Sub pt)) F64.zero = true ↔ ct = pt := by
    rw [F64.ofInt_eq_zero_iff, Time.Sub_eq_zero_iff]
  rw [DerivativeNode.derivative_eq]
  split_ifs with a b c
  · simp [hz.mp a]
  · simp [b]
  · refine ⟨fun e => absurd e (by decide), ?_⟩
    rintro ⟨_, _, hc⟩
    exact absurd c hc
  · refine ⟨fun _ => ⟨fun e => a (hz.mpr e), ?_, c⟩, fun _ => rfl⟩
    simpa using b

theorem stringLess_iff (a b : String) : stringLess a b = true ↔ a < b := by
  unfold stringLess
  rw [decide_eq_true_iff]
  exact String.lt_iff_toList_lt.symm

theorem stringsCompare_cases (a b : String) :
    (a = b ∧ stringsCompare a b = 0) ∨ (a < b ∧ stringsCompare a b = -1) ∨
      (b < a ∧ stringsCompare a b = 1) := by
  unfold stringsCompare
  rcases lt_trichotomy a b with h | h | h
  · right; left
    have hne : a ≠ b := ne_of_lt h
    simp [hne, (stringLess_iff a b).mpr h, h]
  · left
    simp [h]
  · right; right
    have hne : a ≠ b := (ne_of_lt h).symm
    have hnl : ¬ stringLess a b = true := by
      rw [stringLess_iff]
      exact not_lt.mpr (le_of_lt h)
    simp [hne, hnl, h]

/-! ## More lemmas on maps -/

theorem GoMap.mem_keys_iff {α : Type} (m : GoMap α) (k : String) :
    k ∈ GoMap.keys m ↔ GoMap.lookup m k ≠ none := by
  induction m with
  | nil => simp [GoMap.keys, GoMap.lookup]
  | cons e rest ih =>
    obtain ⟨k0, v0⟩ := e
    by_cases h : k0 = k
    · simp [GoMap.keys, GoMap.lookup, h]
    · have h' : ¬ k = k0 := fun e => h e.symm
      simp only [GoMap.keys, List.map_cons, List.mem_cons, h', false_or, GoMap.lookup, h,
        if_false]
      exact ih

theorem GoMap.keys_set {α : Type} (m : GoMap α) (k : String) (v : α) :
    GoMap.keys (GoMap.set m k v)
      = if k ∈ GoMap.keys m then GoMap.keys m else GoMap.keys m ++ [k] := by
  induction m with
  | nil => simp [GoMap.keys, GoMap.set]
  | cons e rest ih =>
    obtain ⟨k0, v0⟩ := e
    by_cases h : k0 = k
    · subst h
      simp [GoMap.keys, GoMap.set]
    · have h' : ¬ k = k0 := fun e => h e.symm
      simp only [GoMap.keys, List.map_cons, List.mem_cons, h', false_or, GoMap.set, h, if_false]
      simp only [GoMap.keys] at ih
      rw [ih]
      split_ifs <;> simp

theorem GoMap.keys_set_nodup {α : Type} (m : GoMap α) (k : String) (v : α)
    (h : (GoMap.keys m).Nodup) : (GoMap.keys (GoMap.set m k v)).Nodup := by
  rw [GoMap.keys_set]
  split_ifs with hk
  · exact h
  · exact List.Nodup.append h (List.nodup_singleton k) (by simpa using hk)

theorem GoMap.lookup_foldl_set {α : Type} (l : List String) (v : α) (m0 : GoMap α)
    (k : String) :
    GoMap.lookup (l.foldl (fun m a => GoMap.set m a v) m0) k
      = if k ∈ l then some v else GoMap.lookup m0 k := by
  induction l generalizing m0 with
  | nil => simp
  | cons a rest ih =>
    simp only [List.foldl_cons, ih, GoMap.lookup_set, List.mem_cons]
    by_cases h1 : k ∈ rest
    · simp [h1]
    · by_cases h2 : k = a
      · simp [h1, h2]
      · simp [h1, h2]

theorem GoMap.keys_foldl_set_nodup {α : Type} (l : List String) (v : α) (m0 : GoMap α)
    (h : (GoMap.keys m0).Nodup) :
    (GoMap.keys (l.foldl (fun m a => GoMap.set m a v) m0)).Nodup := by
  induction l generalizing m0 with
  | nil => simpa using h
  | cons a rest ih =>
    simp only [List.foldl_cons]
    exact ih _ (GoMap.keys_set_nodup m0 a v h)

/-! ## Lemmas on `newReduceNode` -/

theorem compileLambdas_ok {σ : Type} (ls : List (Lambda σ)) (xs : List (Expression σ)) (i : Nat)
    (h : ls.map Lambda.compiled = xs.map Except.ok) :
    compileLambdas i ls = Except.ok (xs, ls.map Lambda.refVars) := by
  induction ls generalizing xs i with
  | nil =>
    cases xs with
    | nil => rfl
    | cons x xs => simp at h
  | cons l rest ih =>
    cases xs with
    | nil => simp at h
    | cons x xs =>
      simp only [List.map_cons, List.cons.injEq] at h
      obtain ⟨h1, h2⟩ := h
      simp only [compileLambdas, h1, ih xs (i + 1) h2, List.map_cons]

/-- What `newReduceNode` sets up besides the expressions: the tag names are the names of
`TagsList`, the initial value is the configured one, the table of groups is empty. -/
theorem newReduceNode_setup {σ : Type} (n : PipelineReduceNode σ) (e : ReduceNode σ)
    (h : newReduceNode n = Except.ok e) :
    e.e = n ∧ e.tags = n.TagsList.dedup ∧ e.initialValue = n.InitialValue ∧
      e.expressionsByGroup = [] ∧ e.errorCount = 0 := by
  unfold newReduceNode at h
  split_ifs at h with hlen
  cases hc : compileLambdas 0 n.Lambdas with
  | error err =>
    rw [hc] at h
    simp at h
  | ok r =>
    rw [hc] at h
    simp only [Except.ok.injEq] at h
    subst h
    exact ⟨rfl, rfl, rfl, rfl, rfl⟩

/-! ## Lemmas on `eval` -/

theorem GoMap.set_set {α : Type} (m : GoMap α) (k : String) (a b : α) :
    GoMap.set (GoMap.set m k a) k b = GoMap.set m k b := by
  induction m with
  | nil => simp [GoMap.set]
  | cons e rest ih =>
    obtain ⟨k0, v0⟩ := e
    by_cases h : k0 = k
    · simp [GoMap.set, h]
    · simp [GoMap.set, h, ih]

theorem ReduceNode.eval_eq {σ : Type} (fs : FillScope) (e : ReduceNode σ) (now : Time)
    (group : String) (fields : Fields) (tags : Tags) (pf : Fields) (pt : Tags) :
    e.eval fs now group fields tags pf pt =
      ((match (e.runExpressions fs now group fields tags pf pt).1 with
        | Except.error err => Except.error err
        | Except.ok vars1 => e.outputs vars1 fields tags),
       e.setGroup group (e.runExpressions fs now group fields tags pf pt).2) := by
  unfold ReduceNode.eval ReduceNode.runExpressions ReduceNode.groupExpressions
  cases hl : GoMap.lookup e.expressionsByGroup group with
  | none =>
    simp only
    rcases hx : evalExpressions fs e.refVarList e.e.AsList now fields tags 0
      (e.expressions.map Expression.CopyReset) (e.seedScope pf pt) with ⟨r, xs⟩
    cases r <;> simp [ReduceNode.setGroup, GoMap.set_set]
  | some ys =>
    simp only
    rcases hx : evalExpressions fs e.refVarList e.e.AsList now fields tags 0 ys
      (e.seedScope pf pt) with ⟨r, xs⟩
    cases r <;> simp

theorem ReduceNode.eval_node {σ : Type} (fs : FillScope) (e : ReduceNode σ) (now : Time)
    (group : String) (fields : Fields) (tags : Tags) (pf : Fields) (pt : Tags) :
    (e.eval fs now group fields tags pf pt).2
      = e.setGroup group (e.runExpressions fs now group fields tags pf pt).2 := by
  rw [ReduceNode.eval_eq]

theorem ReduceNode.eval_result {σ : Type} (fs : FillScope) (e : ReduceNode σ) (now : Time)
    (group : String) (fields : Fields) (tags : Tags) (pf : Fields) (pt : Tags) :
    (e.eval fs now group fields tags pf pt).1
      = match (e.runExpressions fs now group fields tags pf pt).1 with
        | Except.error err => Except.error err
        | Except.ok vars1 => e.outputs vars1 fields tags := by
  rw [ReduceNode.eval_eq]

theorem ReduceNode.eval_errorCount {σ : Type} (fs : FillScope) (e : ReduceNode σ) (now : Time)
    (group : String) (fields : Fields) (tags : Tags) (pf : Fields) (pt : Tags) :
    (e.eval fs now group fields tags pf pt).2.errorCount = e.errorCount := by
  rw [ReduceNode.eval_node]
  rfl

theorem ReduceNode.eval_sameSetup {σ : Type} (fs : FillScope) (e : ReduceNode σ) (now : Time)
    (group : String) (fields : Fields) (tags : Tags) (pf : Fields) (pt : Tags) :
    e.sameSetup (e.eval fs now group fields tags pf pt).2 := by
  rw [ReduceNode.eval_node]
  exact ⟨rfl, rfl, rfl, rfl, rfl, rfl⟩

/-! ## Lemmas on the outputs of `eval` -/

theorem Scope.Get_ok_iff (vars : Scope) (name : String) (v : Value) :
    Scope.Get vars name = Except.ok v ↔ GoMap.lookup vars name = some v := by
  unfold Scope.Get
  cases h : GoMap.lookup vars name <;> simp

theorem Scope.Get_error_iff (vars : Scope) (name : String) :
    (∃ err, Scope.Get vars name = Except.error err) ↔ GoMap.lookup vars name = none := by
  unfold Scope.Get
  cases h : GoMap.lookup vars name <;> simp

theorem Scope.Has_iff (vars : Scope) (name : String) :
    Scope.Has vars name = true ↔ GoMap.lookup vars name ≠ none := by
  unfold Scope.Has
  cases h : GoMap.lookup vars name <;> simp

/-- A successful run of a loop over `AsList`: every name that is not passed over is bound in
scope, and the map holds the scope values under these names and what it held elsewhere. -/
theorem asListFields_ok (vars : Scope) (skip : List String) (l : List String)
    (m0 m : Fields) (h : asListFields vars skip l m0 = Except.ok m) :
    (∀ k, GoMap.lookup m k
      = if k ∈ l ∧ k ∉ skip then GoMap.lookup vars k else GoMap.lookup m0 k) ∧
      (∀ k, k ∈ l → k ∉ skip → GoMap.lookup vars k ≠ none) := by
  induction l generalizing m0 with
  | nil =>
    simp only [asListFields, Except.ok.injEq] at h
    subst h
    simp
  | cons f rest ih =>
    simp only [asListFields] at h
    by_cases hf : f ∈ skip
    · simp only [hf, if_true] at h
      obtain ⟨h1, h2⟩ := ih m0 h
      constructor
      · intro k
        rw [h1 k]
        by_cases hk : k = f
        · subst hk
          simp [hf]
        · simp [hk]
      · intro k hk hs
        rcases List.mem_cons.mp hk with e | e
        · subst e
          exact absurd hf hs
        · exact h2 k e hs
    · simp only [hf, if_false] at h
      cases hg : Scope.Get vars f with
      | error err => simp [hg] at h
      | ok v =>
        rw [hg] at h
        simp only at h
        have hv : GoMap.lookup vars f = some v := (Scope.Get_ok_iff vars f v).mp hg
        obtain ⟨h1, h2⟩ := ih _ h
        constructor
        · intro k
          rw [h1 k, GoMap.lookup_set]
          by_cases hk : k = f
          · subst hk
            simp [hf, hv]
          · simp [hk]
        · intro k hk hs
          rcases List.mem_cons.mp hk with e | e
          · subst e
            simp [hv]
          · exact h2 k e hs

theorem asListFields_keys (vars : Scope) (skip : List String) (l : List String)
    (m0 m : Fields) (h : asListFields vars skip l m0 = Except.ok m) (k : String) :
    k ∈ GoMap.keys m ↔ (k ∈ l ∧ k ∉ skip) ∨ k ∈ GoMap.keys m0 := by
  obtain ⟨h1, h2⟩ := asListFields_ok vars skip l m0 m h
  rw [GoMap.mem_keys_iff, GoMap.mem_keys_iff, h1 k]
  by_cases hk : k ∈ l ∧ k ∉ skip
  · simp [hk, h2 k hk.1 hk.2]
  · simp [hk]

/-- The loop over `KeepList` fails exactly when some name is neither bound in scope nor a key
of the point's fields, with the error about the first such name. -/
theorem keepListFields_error (vars : Scope) (fields : Fields) (l : List String) (m0 : Fields) :
    (∀ err, keepListFields vars fields l m0 = Except.error err →
      ∃ f, f ∈ l ∧ Scope.Has vars f = false ∧ GoMap.lookup fields f = none ∧
        err = "cannot keep field \"" ++ f ++ "\", field does not exist") ∧
      ((∃ f, f ∈ l ∧ Scope.Has vars f = false ∧ GoMap.lookup fields f = none) →
        ∃ err, keepListFields vars fields l m0 = Except.error err) := by
  induction l generalizing m0 with
  | nil => simp [keepListFields]
  | cons f rest ih =>
    by_cases hh : Scope.Has vars f = true
    · obtain ⟨v, hv⟩ : ∃ v, GoMap.lookup vars f = some v := by
        have := (Scope.Has_iff vars f).mp hh
        cases hl : GoMap.lookup vars f with
        | none => exact absurd hl this
        | some v => exact ⟨v, rfl⟩
      have hg : Scope.Get vars f = Except.ok v := (Scope.Get_ok_iff vars f v).mpr hv
      simp only [keepListFields, hh, if_true, hg]
      obtain ⟨i1, i2⟩ := ih (GoMap.set m0 f v)
      constructor
      · intro err he
        obtain ⟨g, hg1, hg2⟩ := i1 err he
        exact ⟨g, List.mem_cons_of_mem _ hg1, hg2⟩
      · rintro ⟨g, hg1, hg2, hg3⟩
        rcases List.mem_cons.mp hg1 with e | e
        · subst e
          rw [hh] at hg2
          exact absurd hg2 (by decide)
        · exact i2 ⟨g, e, hg2, hg3⟩
    · have hh' : Scope.Has vars f = false := by
        cases hb : Scope.Has vars f
        · rfl
        · exact absurd hb hh
      cases hl : GoMap.lookup fields f with
      | none =>
        simp only [keepListFields, hh', Bool.false_eq_true, if_false, hl]
        constructor
        · intro err he
          simp only [Except.error.injEq] at he
          exact ⟨f, List.mem_cons_self _ _, hh', hl, he.symm⟩
        · intro _
          exact ⟨_, rfl⟩
      | some v =>
        simp only [keepListFields, hh', Bool.false_eq_true, if_false, hl]
        obtain ⟨i1, i2⟩ := ih (GoMap.set m0 f v)
        constructor
        · intro err he
          obtain ⟨g, hg1, hg2⟩ := i1 err he
          exact ⟨g, List.mem_cons_of_mem _ hg1, hg2⟩
        · rintro ⟨g, hg1, hg2, hg3⟩
          rcases List.mem_cons.mp hg1 with e | e
          · subst e
            rw [hl] at hg3
            exact absurd hg3 (by simp)
          · exact i2 ⟨g, e, hg2, hg3⟩

/-- A successful run of the loop over `KeepList`: the map holds, under every name of the list,
the scope value when the scope has the name and the point's field otherwise. -/
theorem keepListFields_ok (vars : Scope) (fields : Fields) (l : List String) (m0 m : Fields)
    (h : keepListFields vars fields l m0 = Except.ok m) :
    (∀ k, GoMap.lookup m k
      = if k ∈ l then
          (if Scope.Has vars k = true then GoMap.lookup vars k else GoMap.lookup fields k)
        else GoMap.lookup m0 k) ∧
      (∀ k, k ∈ l → Scope.Has vars k = true ∨ GoMap.lookup fields k ≠ none) := by
  induction l generalizing m0 with
  | nil =>
    simp only [keepListFields, Except.ok.injEq] at h
    subst h
    simp
  | cons f rest ih =>
    simp only [keepListFields] at h
    by_cases hh : Scope.Has vars f = true
    · simp only [hh, if_true] at h
      cases hg : Scope.Get vars f with
      | error err => simp [hg] at h
      | ok v =>
        rw [hg] at h
        simp only at h
        have hv : GoMap.lookup vars f = some v := (Scope.Get_ok_iff vars f v).mp hg
        obtain ⟨h1, h2⟩ := ih _ h
        constructor
        · intro k
          rw [h1 k, GoMap.lookup_set]
          by_cases hk : k = f
          · subst hk
            simp [hh, hv]
          · simp [hk]
        · intro k hk
          rcases List.mem_cons.mp hk with e | e
          · subst e
            exact Or.inl hh
          · exact h2 k e
    · simp only [hh, if_false] at h
      cases hl : GoMap.lookup fields f with
      | none => simp [hl] at h
      | some v =>
        rw [hl] at h
        simp only at h
        obtain ⟨h1, h2⟩ := ih _ h
        constructor
        · intro k
          rw [h1 k, GoMap.lookup_set]
          by_cases hk : k = f
          · subst hk
            simp [hh, hl]
          · simp [hk]
        · intro k hk
          rcases List.mem_cons.mp hk with e | e
          · subst e
            exact Or.inr (by simp [hl])
          · exact h2 k e

/-- A successful run of the loop over the tag names: every name is bound to a string in scope,
and the tags hold these strings under the names and what they held elsewhere. -/
theorem tagOutputs_ok (vars : Scope) (l : List String) (t0 t : Tags)
    (h : tagOutputs vars l t0 = Except.ok t) :
    (∀ k, k ∈ l → ∃ s, GoMap.lookup vars k = some (Value.str s) ∧ GoMap.lookup t k = some s) ∧
      (∀ k, k ∉ l → GoMap.lookup t k = GoMap.lookup t0 k) := by
  induction l generalizing t0 with
  | nil =>
    simp only [tagOutputs, Except.ok.injEq] at h
    subst h
    simp
  | cons f rest ih =>
    simp only [tagOutputs] at h
    cases hg : Scope.Get vars f with
    | error err => simp [hg] at h
    | ok v =>
      rw [hg] at h
      have hv : GoMap.lookup vars f = some v := (Scope.Get_ok_iff vars f v).mp hg
      cases v with
      | str s =>
        simp only at h
        obtain ⟨h1, h2⟩ := ih _ h
        constructor
        · intro k hk
          by_cases hkr : k ∈ rest
          · exact h1 k hkr
          · rcases List.mem_cons.mp hk with e | e
            · subst e
              refine ⟨s, hv, ?_⟩
              rw [h2 k hkr, GoMap.lookup_set]
              simp
            · exact absurd e hkr
        · intro k hk
          have hk1 : k ≠ f := fun e => hk (e ▸ List.mem_cons_self _ _)
          have hk2 : k ∉ rest := fun e => hk (List.mem_cons_of_mem _ e)
          rw [h2 k hk2, GoMap.lookup_set]
          simp [hk1]
      | nil => simp at h
      | int i => simp at h
      | float x => simp at h
      | bool b => simp at h

/-- The loop over the tag names fails as soon as some name is not bound to a string in
scope. -/
theorem tagOutputs_error (vars : Scope) (l : List String) (t0 : Tags)
    (h : ∃ k, k ∈ l ∧ ¬ ∃ s, GoMap.lookup vars k = some (Value.str s)) :
    ∃ err, tagOutputs vars l t0 = Except.error err := by
  cases hr : tagOutputs vars l t0 with
  | error err => exact ⟨err, rfl⟩
  | ok t =>
    obtain ⟨k, hk, hns⟩ := h
    obtain ⟨s, hs, _⟩ := (tagOutputs_ok vars l t0 t hr).1 k hk
    exact absurd ⟨s, hs⟩ hns

theorem ReduceNode.outputs_ok {σ : Type} (e : ReduceNode σ) (vars : Scope) (fields : Fields)
    (tags : Tags) (nf : Fields) (nt : Tags)
    (h : e.outputs vars fields tags = Except.ok (nf, nt)) :
    (if e.tags.length > 0 then tagOutputs vars e.tags tags else Except.ok tags)
        = Except.ok nt ∧
      (if e.e.KeepFlag = true then
          if e.e.KeepList.length ≠ 0 then keepListFields vars fields e.e.KeepList []
          else asListFields vars [] e.e.AsList fields
        else asListFields vars e.tags e.e.AsList []) = Except.ok nf := by
  unfold ReduceNode.outputs at h
  simp only at h
  cases ht : (if e.tags.length > 0 then tagOutputs vars e.tags tags else Except.ok tags) with
  | error err =>
    rw [ht] at h
    simp at h
  | ok t =>
    rw [ht] at h
    simp only at h
    cases hf : (if e.e.KeepFlag = true then
          if e.e.KeepList.length ≠ 0 then keepListFields vars fields e.e.KeepList []
          else asListFields vars [] e.e.AsList fields
        else asListFields vars e.tags e.e.AsList []) with
    | error err =>
      rw [hf] at h
      simp at h
    | ok f =>
      rw [hf] at h
      simp only [Except.ok.injEq, Prod.mk.injEq] at h
      obtain ⟨h1, h2⟩ := h
      subst h1
      subst h2
      exact ⟨rfl, rfl⟩

theorem ReduceNode.outputs_of_ok {σ : Type} (e : ReduceNode σ) (vars : Scope) (fields : Fields)
    (tags : Tags) (nf : Fields) (nt : Tags)
    (ht : (if e.tags.length > 0 then tagOutputs vars e.tags tags else Except.ok tags)
        = Except.ok nt)
    (hf : (if e.e.KeepFlag = true then
          if e.e.KeepList.length ≠ 0 then keepListFields vars fields e.e.KeepList []
          else asListFields vars [] e.e.AsList fields
        else asListFields vars e.tags e.e.AsList []) = Except.ok nf) :
    e.outputs vars fields tags = Except.ok (nf, nt) := by
  unfold ReduceNode.outputs
  simp only [ht, hf]

theorem ReduceNode.outputs_tag_error {σ : Type} (e : ReduceNode σ) (vars : Scope)
    (fields : Fields) (tags : Tags) (err : String)
    (ht : (if e.tags.length > 0 then tagOutputs vars e.tags tags else Except.ok tags)
        = Except.error err) :
    e.outputs vars fields tags = Except.error err := by
  unfold ReduceNode.outputs
  simp only [ht]

theorem ReduceNode.outputs_field_error {σ : Type} (e : ReduceNode σ) (vars : Scope)
    (fields : Fields) (tags : Tags) (nt : Tags) (err : String)
    (ht : (if e.tags.length > 0 then tagOutputs vars e.tags tags else Except.ok tags)
        = Except.ok nt)
    (hf : (if e.e.KeepFlag = true then
          if e.e.KeepList.length ≠ 0 then keepListFields vars fields e.e.KeepList []
          else asListFields vars [] e.e.AsList fields
        else asListFields vars e.tags e.e.AsList []) = Except.error err) :
    e.outputs vars fields tags = Except.error err := by
  unfold ReduceNode.outputs
  simp only [ht, hf]

/-- A successful `eval` ran all expressions and produced its outputs from the scope they
left. -/
theorem ReduceNode.eval_ok {σ : Type} (fs : FillScope) (e : ReduceNode σ) (now : Time)
    (group : String) (fields : Fields) (tags : Tags) (pf : Fields) (pt : Tags)
    (nf : Fields) (nt : Tags)
    (h : (e.eval fs now group fields tags pf pt).1 = Except.ok (nf, nt)) :
    ∃ vars1, (e.runExpressions fs now group fields tags pf pt).1 = Except.ok vars1 ∧
      e.outputs vars1 fields tags = Except.ok (nf, nt) := by
  rw [ReduceNode.eval_result] at h
  cases hx : (e.runExpressions fs now group fields tags pf pt).1 with
  | error err =>
    rw [hx] at h
    simp at h
  | ok vars1 =>
    rw [hx] at h
    exact ⟨vars1, rfl, h⟩

theorem ReduceNode.eval_of_scope {σ : Type} (fs : FillScope) (e : ReduceNode σ) (now : Time)
    (group : String) (fields : Fields) (tags : Tags) (pf : Fields) (pt : Tags)
    (vars1 : Scope)
    (hx : (e.runExpressions fs now group fields tags pf pt).1 = Except.ok vars1) :
    (e.eval fs now group fields tags pf pt).1 = e.outputs vars1 fields tags := by
  rw [ReduceNode.eval_result, hx]

/-! ## Lemmas on the outputs of `eval` with the maps held by address -/

theorem MapHeap.length_assign {α : Type} (h : MapHeap α) (r : Nat) (k : String) (v : α) :
    (h.assign r k v).cells.length = h.cells.length := by
  simp [MapHeap.assign]

theorem MapHeap.read_assign_same {α : Type} (h : MapHeap α) (r : Nat) (k : String) (v : α)
    (hr : r < h.cells.length) : (h.assign r k v).read r = GoMap.set (h.read r) k v := by
  simp [MapHeap.assign, MapHeap.read, List.getD_eq_getElem?_getD, List.getElem?_set, hr]

theorem MapHeap.read_assign_ne {α : Type} (h : MapHeap α) (r r' : Nat) (k : String) (v : α)
    (hne : r' ≠ r) : (h.assign r k v).read r' = h.read r' := by
  have hne' : r ≠ r' := fun e => hne e.symm
  simp [MapHeap.assign, MapHeap.read, List.getD_eq_getElem?_getD, List.getElem?_set, hne']

theorem MapHeap.read_make_old {α : Type} (h : MapHeap α) (r : Nat) (hr : r < h.cells.length) :
    h.make.2.read r = h.read r := by
  simp [MapHeap.make, MapHeap.read, List.getD_eq_getElem?_getD, List.getElem?_append_left hr]

theorem MapHeap.read_make_new {α : Type} (h : MapHeap α) : h.make.2.read h.make.1 = [] := by
  simp [MapHeap.make, MapHeap.read, List.getD_eq_getElem?_getD]

theorem MapHeap.read_Copy_other {α : Type} (h : MapHeap α) (c r : Nat)
    (hr : r < h.cells.length) : (h.Copy c).2.read r = h.read r := by
  simp [MapHeap.Copy, MapHeap.read, List.getD_eq_getElem?_getD, List.getElem?_append_left hr]

theorem MapHeap.read_Copy_fresh {α : Type} (h : MapHeap α) (c : Nat) :
    (h.Copy c).2.read (h.Copy c).1 = h.read c := by
  simp [MapHeap.Copy, MapHeap.read, List.getD_eq_getElem?_getD]

theorem tagOutputsOnHeap_frame (vars : Scope) (l : List String) (c : Nat)
    (h : MapHeap String) :
    (tagOutputsOnHeap vars l c h).2.cells.length = h.cells.length ∧
      ∀ r, r ≠ c → (tagOutputsOnHeap vars l c h).2.read r = h.read r := by
  induction l generalizing h with
  | nil => simp [tagOutputsOnHeap]
  | cons f rest ih =>
    simp only [tagOutputsOnHeap]
    cases hg : Scope.Get vars f with
    | error err => simp
    | ok v =>
      cases v with
      | str s =>
        simp only
        obtain ⟨h1, h2⟩ := ih (h.assign c f s)
        refine ⟨by rw [h1, MapHeap.length_assign], ?_⟩
        intro r hr
        rw [h2 r hr, MapHeap.read_assign_ne _ _ _ _ _ hr]
      | nil => simp
      | int i => simp
      | float x => simp
      | bool b => simp

theorem tagOutputsOnHeap_refines (vars : Scope) (l : List String) (c : Nat)
    (h : MapHeap String) (hc : c < h.cells.length) :
    match tagOutputs vars l (h.read c) with
    | Except.ok t =>
      (tagOutputsOnHeap vars l c h).1 = none ∧ (tagOutputsOnHeap vars l c h).2.read c = t
    | Except.error err => (tagOutputsOnHeap vars l c h).1 = some err := by
  induction l generalizing h with
  | nil => simp [tagOutputs, tagOutputsOnHeap]
  | cons f rest ih =>
    simp only [tagOutputs, tagOutputsOnHeap]
    cases hg : Scope.Get vars f with
    | error err => simp
    | ok v =>
      cases v with
      | str s =>
        simp only
        have := ih (h.assign c f s) (by rw [MapHeap.length_assign]; exact hc)
        rw [MapHeap.read_assign_same _ _ _ _ hc] at this
        exact this
      | nil => simp
      | int i => simp
      | float x => simp
      | bool b => simp

theorem asListFieldsOnHeap_frame (vars : Scope) (skip l : List String) (c : Nat)
    (h : MapHeap Value) :
    (asListFieldsOnHeap vars skip l c h).2.cells.length = h.cells.length ∧
      ∀ r, r ≠ c → (asListFieldsOnHeap vars skip l c h).2.read r = h.read r := by
  induction l generalizing h with
  | nil => simp [asListFieldsOnHeap]
  | cons f rest ih =>
    simp only [asListFieldsOnHeap]
    split_ifs with hs
    · exact ih h
    · cases hg : Scope.Get vars f with
      | error err => simp
      | ok v =>
        simp only
        obtain ⟨h1, h2⟩ := ih (h.assign c f v)
        refine ⟨by rw [h1, MapHeap.length_assign], ?_⟩
        intro r hr
        rw [h2 r hr, MapHeap.read_assign_ne _ _ _ _ _ hr]

theorem asListFieldsOnHeap_refines (vars : Scope) (skip l : List String) (c : Nat)
    (h : MapHeap Value) (hc : c < h.cells.length) :
    match asListFields vars skip l (h.read c) with
    | Except.ok m =>
      (asListFieldsOnHeap vars skip l c h).1 = none ∧
        (asListFieldsOnHeap vars skip l c h).2.read c = m
    | Except.error err => (asListFieldsOnHeap vars skip l c h).1 = some err := by
  induction l generalizing h with
  | nil => simp [asListFields, asListFieldsOnHeap]
  | cons f rest ih =>
    simp only [asListFields, asListFieldsOnHeap]
    split_ifs with hs
    · exact ih h hc
    · cases hg : Scope.Get vars f with
      | error err => simp
      | ok v =>
        simp only
        have := ih (h.assign c f v) (by rw [MapHeap.length_assign]; exact hc)
        rw [MapHeap.read_assign_same _ _ _ _ hc] at this
        exact this

theorem keepListFieldsOnHeap_frame (vars : Scope) (fields : Nat) (l : List String) (c : Nat)
    (h : MapHeap Value) :
    (keepListFieldsOnHeap vars fields l c h).2.cells.length = h.cells.length ∧
      ∀ r, r ≠ c → (keepListFieldsOnHeap vars fields l c h).2.read r = h.read r := by
  induction l generalizing h with
  | nil => simp [keepListFieldsOnHeap]
  | cons f rest ih =>
    simp only [keepListFieldsOnHeap]
    split_ifs with hs
    · cases hg : Scope.Get vars f with
      | error err => simp
      | ok v =>
        simp only
        obtain ⟨h1, h2⟩ := ih (h.assign c f v)
        refine ⟨by rw [h1, MapHeap.length_assign], ?_⟩
        intro r hr
        rw [h2 r hr, MapHeap.read_assign_ne _ _ _ _ _ hr]
    · cases hl : GoMap.lookup (h.read fields) f with
      | none => simp
      | some v =>
        simp only
        obtain ⟨h1, h2⟩ := ih (h.assign c f v)
        refine ⟨by rw [h1, MapHeap.length_assign], ?_⟩
        intro r hr
        rw [h2 r hr, MapHeap.read_assign_ne _ _ _ _ _ hr]

theorem keepListFieldsOnHeap_refines (vars : Scope) (fields : Nat) (l : List String) (c : Nat)
    (h : MapHeap Value) (hc : c < h.cells.length) (hne : fields ≠ c) :
    match keepListFields vars (h.read fields) l (h.read c) with
    | Except.ok m =>
      (keepListFieldsOnHeap vars fields l c h).1 = none ∧
        (keepListFieldsOnHeap vars fields l c h).2.read c = m
    | Except.error err => (keepListFieldsOnHeap vars fields l c h).1 = some err := by
  induction l generalizing h with
  | nil => simp [keepListFields, keepListFieldsOnHeap]
  | cons f rest ih =>
    simp only [keepListFields, keepListFieldsOnHeap]
    split_ifs with hs
    · cases hg : Scope.Get vars f with
      | error err => simp
      | ok v =>
        simp only
        have := ih (h.assign c f v) (by rw [MapHeap.length_assign]; exact hc)
        rw [MapHeap.read_assign_same _ _ _ _ hc, MapHeap.read_assign_ne _ _ _ _ _ hne] at this
        exact this
    · cases hl : GoMap.lookup (h.read fields) f with
      | none => simp
      | some v =>
        simp only
        have := ih (h.assign c f v) (by rw [MapHeap.length_assign]; exact hc)
        rw [MapHeap.read_assign_same _ _ _ _ hc, MapHeap.read_assign_ne _ _ _ _ _ hne] at this
        exact this

theorem copyEntriesOnHeap_frame (es : List (String × Value)) (c : Nat) (h : MapHeap Value) :
    (copyEntriesOnHeap es c h).cells.length = h.cells.length ∧
      ∀ r, r ≠ c → (copyEntriesOnHeap es c h).read r = h.read r := by
  induction es generalizing h with
  | nil => simp [copyEntriesOnHeap]
  | cons kv rest ih =>
    obtain ⟨k, v⟩ := kv
    simp only [copyEntriesOnHeap]
    obtain ⟨h1, h2⟩ := ih (h.assign c k v)
    refine ⟨by rw [h1, MapHeap.length_assign], ?_⟩
    intro r hr
    rw [h2 r hr, MapHeap.read_assign_ne _ _ _ _ _ hr]

theorem GoMap.set_of_not_mem {α : Type} (m : GoMap α) (k : String) (v : α)
    (h : k ∉ GoMap.keys m) : GoMap.set m k v = m ++ [(k, v)] := by
  induction m with
  | nil => rfl
  | cons e rest ih =>
    obtain ⟨k0, v0⟩ := e
    simp only [GoMap.keys, List.map_cons, List.mem_cons, not_or] at h
    have h0 : ¬ k0 = k := fun e => h.1 e.symm
    simp only [GoMap.set, h0, if_false, List.cons_append, List.cons.injEq, true_and]
    exact ih h.2

/-- Copying the entries of a map (its keys are distinct) into another map that has none of
its keys appends them. -/
theorem copyEntriesOnHeap_read (es : List (String × Value)) (c : Nat) (h : MapHeap Value)
    (hc : c < h.cells.length) (hnd : (GoMap.keys es).Nodup)
    (hdis : ∀ k, k ∈ GoMap.keys es → k ∉ GoMap.keys (h.read c)) :
    (copyEntriesOnHeap es c h).read c = h.read c ++ es := by
  induction es generalizing h with
  | nil => simp [copyEntriesOnHeap]
  | cons kv rest ih =>
    obtain ⟨k, v⟩ := kv
    simp only [GoMap.keys, List.map_cons, List.nodup_cons] at hnd
    simp only [copyEntriesOnHeap]
    have hk : k ∉ GoMap.keys (h.read c) := hdis k (by simp [GoMap.keys])
    have hread : (h.assign c k v).read c = h.read c ++ [(k, v)] := by
      rw [MapHeap.read_assign_same _ _ _ _ hc, GoMap.set_of_not_mem _ _ _ hk]
    rw [ih (h.assign c k v) (by rw [MapHeap.length_assign]; exact hc) hnd.2, hread]
    · simp
    · intro k' hk'
      rw [hread]
      simp only [GoMap.keys, List.map_append, List.map_cons, List.map_nil, List.mem_append,
        List.mem_singleton, not_or]
      refine ⟨hdis k' (by simp only [GoMap.keys, List.map_cons, List.mem_cons]; exact Or.inr hk'),
        ?_⟩
      intro e
      subst e
      exact hnd.1 hk'

theorem ReduceNode.tagsOnHeap_frame {σ : Type} (e : ReduceNode σ) (vars : Scope)
    (ht : MapHeap String) (tags : Nat) (r : Nat) (hr : r < ht.cells.length) :
    (e.tagsOnHeap vars ht tags).2.2.read r = ht.read r := by
  unfold ReduceNode.tagsOnHeap
  split_ifs with h
  · simp only
    have hne : r ≠ (ht.Copy tags).1 := by
      simp only [MapHeap.Copy]
      omega
    rw [(tagOutputsOnHeap_frame vars e.tags (ht.Copy tags).1 (ht.Copy tags).2).2 r hne,
      MapHeap.read_Copy_other _ _ _ hr]
  · rfl

theorem ReduceNode.tagsOnHeap_refines {σ : Type} (e : ReduceNode σ) (vars : Scope)
    (ht : MapHeap String) (tags : Nat) :
    match (if e.tags.length > 0 then tagOutputs vars e.tags (ht.read tags)
      else Except.ok (ht.read tags)) with
    | Except.ok t =>
      (e.tagsOnHeap vars ht tags).2.1 = none ∧
        (e.tagsOnHeap vars ht tags).2.2.read (e.tagsOnHeap vars ht tags).1 = t
    | Except.error err => (e.tagsOnHeap vars ht tags).2.1 = some err := by
  unfold ReduceNode.tagsOnHeap
  split_ifs with h
  · simp only
    have := tagOutputsOnHeap_refines vars e.tags (ht.Copy tags).1 (ht.Copy tags).2
      (by simp [MapHeap.Copy])
    rw [MapHeap.read_Copy_fresh] at this
    exact this
  · simp

theorem ReduceNode.fieldsOnHeap_frame {σ : Type} (e : ReduceNode σ) (vars : Scope)
    (hf : MapHeap Value) (fields : Nat) (r : Nat) (hr : r < hf.cells.length) :
    (e.fieldsOnHeap vars hf fields).2.2.read r = hf.read r := by
  have hne : r ≠ hf.make.1 := by
    simp only [MapHeap.make]
    omega
  unfold ReduceNode.fieldsOnHeap
  simp only
  split_ifs with h1 h2
  · rw [(keepListFieldsOnHeap_frame vars fields e.e.KeepList hf.make.1 hf.make.2).2 r hne,
      MapHeap.read_make_old _ _ hr]
  · rw [(asListFieldsOnHeap_frame vars [] e.e.AsList hf.make.1 _).2 r hne,
      (copyEntriesOnHeap_frame _ hf.make.1 hf.make.2).2 r hne, MapHeap.read_make_old _ _ hr]
  · rw [(asListFieldsOnHeap_frame vars e.tags e.e.AsList hf.make.1 hf.make.2).2 r hne,
      MapHeap.read_make_old _ _ hr]

theorem ReduceNode.fieldsOnHeap_refines {σ : Type} (e : ReduceNode σ) (vars : Scope)
    (hf : MapHeap Value) (fields : Nat) (hfa : fields < hf.cells.length)
    (hnd : (GoMap.keys (hf.read fields)).Nodup) :
    match (if e.e.KeepFlag = true then
          if e.e.KeepList.length ≠ 0 then keepListFields vars (hf.read fields) e.e.KeepList []
          else asListFields vars [] e.e.AsList (hf.read fields)
        else asListFields vars e.tags e.e.AsList []) with
    | Except.ok m =>
      (e.fieldsOnHeap vars hf fields).2.1 = none ∧
        (e.fieldsOnHeap vars hf fields).2.2.read (e.fieldsOnHeap vars hf fields).1 = m
    | Except.error err => (e.fieldsOnHeap vars hf fields).2.1 = some err := by
  have hc : hf.make.1 < hf.make.2.cells.length := by simp [MapHeap.make]
  have hne : fields ≠ hf.make.1 := by
    simp only [MapHeap.make]
    omega
  have hold : hf.make.2.read fields = hf.read fields := MapHeap.read_make_old _ _ hfa
  have hnew : hf.make.2.read hf.make.1 = [] := MapHeap.read_make_new hf
  unfold ReduceNode.fieldsOnHeap
  simp only
  split_ifs with h1 h2
  · have := keepListFieldsOnHeap_refines vars fields e.e.KeepList hf.make.1 hf.make.2 hc hne
    rw [hold, hnew] at this
    exact this
  · have hcopy : (copyEntriesOnHeap (hf.make.2.read fields) hf.make.1 hf.make.2).read hf.make.1
        = hf.read fields := by
      rw [copyEntriesOnHeap_read _ _ _ hc (by rw [hold]; exact hnd)
        (by rw [hnew]; simp [GoMap.keys]), hnew, hold]
      rfl
    have := asListFieldsOnHeap_refines vars [] e.e.AsList hf.make.1
      (copyEntriesOnHeap (hf.make.2.read fields) hf.make.1 hf.make.2)
      (by rw [(copyEntriesOnHeap_frame _ _ _).1]; exact hc)
    rw [hcopy] at this
    exact this
  · have := asListFieldsOnHeap_refines vars e.tags e.e.AsList hf.make.1 hf.make.2 hc
    rw [hnew] at this
    exact this

/-- The writes of the outputs of `eval` go to new maps only: every map that existed before
holds what it held. -/
theorem ReduceNode.outputsOnHeap_frame {σ : Type} (e : ReduceNode σ) (vars : Scope)
    (hf : MapHeap Value) (ht : MapHeap String) (fields tags : Nat) :
    (∀ r, r < hf.cells.length →
        (e.outputsOnHeap vars hf ht fields tags).2.1.read r = hf.read r) ∧
      (∀ r, r < ht.cells.length →
        (e.outputsOnHeap vars hf ht fields tags).2.2.read r = ht.read r) := by
  unfold ReduceNode.outputsOnHeap
  simp only
  constructor
  · intro r hr
    split
    · rfl
    · split
      · exact ReduceNode.fieldsOnHeap_frame e vars hf fields r hr
      · exact ReduceNode.fieldsOnHeap_frame e vars hf fields r hr
  · intro r hr
    split
    · exact ReduceNode.tagsOnHeap_frame e vars ht tags r hr
    · split
      · exact ReduceNode.tagsOnHeap_frame e vars ht tags r hr
      · exact ReduceNode.tagsOnHeap_frame e vars ht tags r hr

/-- The outputs of `eval` on the heap are the outputs of `ReduceNode.outputs` on the contents
of the point's maps. -/
theorem ReduceNode.outputsOnHeap_refines {σ : Type} (e : ReduceNode σ) (vars : Scope)
    (hf : MapHeap Value) (ht : MapHeap String) (fields tags : Nat)
    (hfa : fields < hf.cells.length) (hnd : (GoMap.keys (hf.read fields)).Nodup) :
    match (e.outputsOnHeap vars hf ht fields tags).1 with
    | Except.ok (rf, rt) =>
      e.outputs vars (hf.read fields) (ht.read tags)
        = Except.ok ((e.outputsOnHeap vars hf ht fields tags).2.1.read rf,
            (e.outputsOnHeap vars hf ht fields tags).2.2.read rt)
    | Except.error err => e.outputs vars (hf.read fields) (ht.read tags) = Except.error err := by
  have ht' := ReduceNode.tagsOnHeap_refines e vars ht tags
  have hf' := ReduceNode.fieldsOnHeap_refines e vars hf fields hfa hnd
  unfold ReduceNode.outputsOnHeap
  simp only
  cases hT : (if e.tags.length > 0 then tagOutputs vars e.tags (ht.read tags)
      else Except.ok (ht.read tags)) with
  | error err =>
    rw [hT] at ht'
    simp only at ht'
    simp only [ht']
    exact ReduceNode.outputs_tag_error e vars _ _ err hT
  | ok t =>
    rw [hT] at ht'
    simp only at ht'
    simp only [ht'.1]
    cases hF : (if e.e.KeepFlag = true then
          if e.e.KeepList.length ≠ 0 then keepListFields vars (hf.read fields) e.e.KeepList []
          else asListFields vars [] e.e.AsList (hf.read fields)
        else asListFields vars e.tags e.e.AsList []) with
    | error err =>
      rw [hF] at hf'
      simp only at hf'
      simp only [hf']
      exact ReduceNode.outputs_field_error e vars _ _ t err hT hF
    | ok m =>
      rw [hF] at hf'
      simp only at hf'
      simp only [hf'.1, hf'.2, ht'.2]
      exact ReduceNode.outputs_of_ok e vars _ _ m t hT hF

theorem ReduceNode.outputsOnHeap_no_tags {σ : Type} (e : ReduceNode σ) (vars : Scope)
    (hf : MapHeap Value) (ht : MapHeap String) (fields tags : Nat) (rf rt : Nat)
    (hnone : e.tags = [])
    (h : (e.outputsOnHeap vars hf ht fields tags).1 = Except.ok (rf, rt)) :
    rt = tags ∧ (e.outputsOnHeap vars hf ht fields tags).2.2 = ht := by
  have hT : e.tagsOnHeap vars ht tags = (tags, none, ht) := by
    simp [ReduceNode.tagsOnHeap, hnone]
  unfold ReduceNode.outputsOnHeap at h ⊢
  simp only [hT] at h ⊢
  split at h
  · simp at h
  · rename_i hnoerr
    simp only [hnoerr]
    simp only [Except.ok.injEq, Prod.mk.injEq] at h
    exact ⟨h.2.symm, trivial⟩

theorem ReduceNode.outputsOnHeap_fresh {σ : Type} (e : ReduceNode σ) (vars : Scope)
    (hf : MapHeap Value) (ht : MapHeap String) (fields tags : Nat) (rf rt : Nat)
    (h : (e.outputsOnHeap vars hf ht fields tags).1 = Except.ok (rf, rt)) :
    rf = hf.cells.length ∧ (e.tags ≠ [] → rt = ht.cells.length) := by
  unfold ReduceNode.outputsOnHeap at h
  simp only at h
  split at h
  · simp at h
  · split at h
    · simp at h
    · simp only [Except.ok.injEq, Prod.mk.injEq] at h
      obtain ⟨h1, h2⟩ := h
      refine ⟨h1.symm, ?_⟩
      intro hne
      rw [← h2]
      have hpos : e.tags.length > 0 := List.length_pos.mpr hne
      simp [ReduceNode.tagsOnHeap, hpos, MapHeap.Copy]

/-- When the outputs of `eval` succeed on the contents of the point's maps, they succeed on
the heap: the returned fields are a new map with these contents, and so are the returned
tags. -/
theorem ReduceNode.outputsOnHeap_of_outputs {σ : Type} (e : ReduceNode σ) (vars : Scope)
    (hf : MapHeap Value) (ht : MapHeap String) (fields tags : Nat) (nf : Fields) (nt : Tags)
    (hfa : fields < hf.cells.length) (hnd : (GoMap.keys (hf.read fields)).Nodup)
    (h : e.outputs vars (hf.read fields) (ht.read tags) = Except.ok (nf, nt)) :
    ∃ rf rt, (e.outputsOnHeap vars hf ht fields tags).1 = Except.ok (rf, rt) ∧
      (e.outputsOnHeap vars hf ht fields tags).2.1.read rf = nf ∧
      (e.outputsOnHeap vars hf ht fields tags).2.2.read rt = nt := by
  have href := ReduceNode.outputsOnHeap_refines e vars hf ht fields tags hfa hnd
  cases hr : (e.outputsOnHeap vars hf ht fields tags).1 with
  | error err =>
    rw [hr] at href
    simp only at href
    rw [h] at href
    simp at href
  | ok r =>
    obtain ⟨rf, rt⟩ := r
    rw [hr] at href
    simp only at href
    rw [h] at href
    simp only [Except.ok.injEq, Prod.mk.injEq] at href
    exact ⟨rf, rt, rfl, href.1.symm, href.2.symm⟩

/-! ## Lemmas on the table of groups -/

theorem Expression.sameInstance_refl {σ : Type} (x : Expression σ) : x.sameInstance x :=
  ⟨rfl, rfl⟩

theorem Expression.sameInstance_trans {σ : Type} {x y z : Expression σ}
    (h1 : x.sameInstance y) (h2 : y.sameInstance z) : x.sameInstance z :=
  ⟨h2.1.trans h1.1, h2.2.trans h1.2⟩

theorem sameInstance_list_refl {σ : Type} (xs : List (Expression σ)) :
    List.Forall₂ Expression.sameInstance xs xs := by
  induction xs with
  | nil => exact List.Forall₂.nil
  | cons x rest ih => exact List.Forall₂.cons (Expression.sameInstance_refl x) ih

theorem sameInstance_list_trans {σ : Type} {xs ys zs : List (Expression σ)}
    (h1 : List.Forall₂ Expression.sameInstance xs ys)
    (h2 : List.Forall₂ Expression.sameInstance ys zs) :
    List.Forall₂ Expression.sameInstance xs zs := by
  induction h1 generalizing zs with
  | nil =>
    cases h2
    exact List.Forall₂.nil
  | cons hxy _ ih =>
    cases h2 with
    | cons hyz hrest => exact List.Forall₂.cons (Expression.sameInstance_trans hxy hyz) (ih hrest)

theorem sameInstance_CopyReset {σ : Type} (xs : List (Expression σ)) :
    List.Forall₂ Expression.sameInstance xs (xs.map Expression.CopyReset) := by
  induction xs with
  | nil => exact List.Forall₂.nil
  | cons x rest ih => exact List.Forall₂.cons ⟨rfl, rfl⟩ ih

/-- Evaluating the expressions of a group changes their states only: the instances stay the
same, in the same order, whether or not an evaluation fails. -/
theorem evalExpressions_sameInstance {σ : Type} (fs : FillScope)
    (refVarList : List (List String)) (asList : List String) (now : Time) (fields : Fields)
    (tags : Tags) (i : Nat) (xs : List (Expression σ)) (vars : Scope) :
    List.Forall₂ Expression.sameInstance xs
      (evalExpressions fs refVarList asList now fields tags i xs vars).2 := by
  induction xs generalizing i vars with
  | nil => exact List.Forall₂.nil
  | cons x rest ih =>
    simp only [evalExpressions]
    cases hf : fs vars (refVarList.getD i []) now fields tags with
    | error err => exact sameInstance_list_refl _
    | ok vars1 =>
      simp only
      rcases hx : x.Eval vars1 with ⟨r, x1⟩
      have hsame : x.sameInstance x1 := by
        have : x1 = (x.Eval vars1).2 := by rw [hx]
        rw [this]
        exact ⟨rfl, rfl⟩
      cases r with
      | error err => exact List.Forall₂.cons hsame (sameInstance_list_refl _)
      | ok v => exact List.Forall₂.cons hsame (ih _ _)

theorem ReduceNode.afterEval_table {σ : Type} (fs : FillScope) (e : ReduceNode σ)
    (c : EvalCall) :
    (e.afterEval fs c).expressionsByGroup
      = GoMap.set e.expressionsByGroup c.group
          (e.runExpressions fs c.now c.group c.fields c.tags c.previousFields
            c.previousTags).2 := by
  unfold ReduceNode.afterEval
  rw [ReduceNode.eval_node]
  rfl

theorem ReduceNode.afterEval_expressions {σ : Type} (fs : FillScope) (e : ReduceNode σ)
    (c : EvalCall) : (e.afterEval fs c).expressions = e.expressions := by
  unfold ReduceNode.afterEval
  rw [ReduceNode.eval_node]
  rfl

theorem ReduceNode.afterEvals_expressions {σ : Type} (fs : FillScope) (e : ReduceNode σ)
    (calls : List EvalCall) : (e.afterEvals fs calls).expressions = e.expressions := by
  induction calls generalizing e with
  | nil => rfl
  | cons c rest ih =>
    simp only [ReduceNode.afterEvals]
    rw [ih, ReduceNode.afterEval_expressions]

theorem ReduceNode.afterEvals_append {σ : Type} (fs : FillScope) (e : ReduceNode σ)
    (xs ys : List EvalCall) :
    e.afterEvals fs (xs ++ ys) = (e.afterEvals fs xs).afterEvals fs ys := by
  induction xs generalizing e with
  | nil => rfl
  | cons c rest ih =>
    simp only [List.cons_append, ReduceNode.afterEvals]
    exact ih _

/-- The groups of the table after a sequence of calls: those it had and those of the calls,
each once. -/
theorem ReduceNode.afterEvals_keys {σ : Type} (fs : FillScope) (e : ReduceNode σ)
    (calls : List EvalCall) (hnd : (GoMap.keys e.expressionsByGroup).Nodup) :
    (GoMap.keys (e.afterEvals fs calls).expressionsByGroup).Nodup ∧
      ∀ g, g ∈ GoMap.keys (e.afterEvals fs calls).expressionsByGroup ↔
        g ∈ GoMap.keys e.expressionsByGroup ∨ g ∈ calls.map EvalCall.group := by
  induction calls generalizing e with
  | nil => exact ⟨hnd, by simp [ReduceNode.afterEvals]⟩
  | cons c rest ih =>
    simp only [ReduceNode.afterEvals]
    have hnd1 : (GoMap.keys (e.afterEval fs c).expressionsByGroup).Nodup := by
      rw [ReduceNode.afterEval_table]
      exact GoMap.keys_set_nodup _ _ _ hnd
    obtain ⟨i1, i2⟩ := ih (e.afterEval fs c) hnd1
    refine ⟨i1, ?_⟩
    intro g
    rw [i2 g, ReduceNode.afterEval_table, GoMap.keys_set]
    simp only [List.map_cons, List.mem_cons]
    split_ifs with hk
    · constructor
      · rintro (h | h)
        · exact Or.inl h
        · exact Or.inr (Or.inr h)
      · rintro (h | h | h)
        · exact Or.inl h
        · exact Or.inl (h ▸ hk)
        · exact Or.inr h
    · simp only [List.mem_append, List.mem_singleton]
      constructor
      · rintro ((h | h) | h)
        · exact Or.inl h
        · exact Or.inr (Or.inl h)
        · exact Or.inr (Or.inr h)
      · rintro (h | h | h)
        · exact Or.inl (Or.inl h)
        · exact Or.inl (Or.inr h)
        · exact Or.inr h

/-- Calls of `eval` for other groups leave the entry of a group as it is. -/
theorem ReduceNode.afterEvals_other_groups {σ : Type} (fs : FillScope) (e : ReduceNode σ)
    (calls : List EvalCall) (g : String) (h : ∀ c, c ∈ calls → c.group ≠ g) :
    GoMap.lookup (e.afterEvals fs calls).expressionsByGroup g
      = GoMap.lookup e.expressionsByGroup g := by
  induction calls generalizing e with
  | nil => rfl
  | cons c rest ih =>
    simp only [ReduceNode.afterEvals]
    rw [ih (e.afterEval fs c) (fun c' hc' => h c' (List.mem_cons_of_mem _ hc')),
      ReduceNode.afterEval_table, GoMap.lookup_set]
    have hne : ¬ g = c.group := fun e' => h c (List.mem_cons_self _ _) e'.symm
    simp [hne]

/-- Every entry of the table holds the instances created for it: one per configured
expression, in order. -/
theorem ReduceNode.afterEvals_instances {σ : Type} (fs : FillScope) (e : ReduceNode σ)
    (calls : List EvalCall)
    (hinst : ∀ g xs, GoMap.lookup e.expressionsByGroup g = some xs →
      List.Forall₂ Expression.sameInstance e.expressions xs) :
    ∀ g xs, GoMap.lookup (e.afterEvals fs calls).expressionsByGroup g = some xs →
      List.Forall₂ Expression.sameInstance e.expressions xs := by
  induction calls generalizing e with
  | nil => exact hinst
  | cons c rest ih =>
    simp only [ReduceNode.afterEvals]
    have hstep : ∀ g xs, GoMap.lookup (e.afterEval fs c).expressionsByGroup g = some xs →
        List.Forall₂ Expression.sameInstance (e.afterEval fs c).expressions xs := by
      intro g xs hl
      rw [ReduceNode.afterEval_expressions]
      rw [ReduceNode.afterEval_table, GoMap.lookup_set] at hl
      split_ifs at hl with hg
      · simp only [Option.some.injEq] at hl
        rw [← hl]
        have hstart : List.Forall₂ Expression.sameInstance e.expressions
            (e.groupExpressions c.group) := by
          unfold ReduceNode.groupExpressions
          cases hq : GoMap.lookup e.expressionsByGroup c.group with
          | none => exact sameInstance_CopyReset _
          | some ys => exact hinst _ _ hq
        exact sameInstance_list_trans hstart (evalExpressions_sameInstance _ _ _ _ _ _ _ _ _)
      · exact hinst g xs hl
    have := ih (e.afterEval fs c) hstep
    rw [ReduceNode.afterEval_expressions] at this
    exact this

/-! ## Lemmas on the loop of `runReduce` -/

theorem loopBody_measure {σ : Type} (fs : FillScope) (group : String) (s : ReduceLoop σ)
    (h : s.i < s.Points.length) :
    (loopBody fs group s).Points.length - (loopBody fs group s).i
      = s.Points.length - s.i - 1 := by
  unfold loopBody
  simp only
  split
  · simp only [List.length_eraseIdx, h, if_true]
    omega
  · simp only
    omega

/-- The loop of `runReduce` reaches its exit condition within `len(b.Points) - i` iterations. -/
theorem reduceLoop_exit {σ : Type} (fs : FillScope) (group : String) (fuel : Nat)
    (s : ReduceLoop σ) (h : s.Points.length - s.i ≤ fuel) :
    ¬ (reduceLoop fs group fuel s).i < (reduceLoop fs group fuel s).Points.length := by
  induction fuel generalizing s with
  | zero =>
    simp only [reduceLoop]
    omega
  | succ fuel ih =>
    simp only [reduceLoop]
    split_ifs with hlt
    · apply ih
      rw [loopBody_measure fs group s hlt]
      omega
    · exact hlt

theorem DerivativeNode.derivative_no_previous (n : DerivativeNode) (curr : Fields)
    (pt ct : Time) : (n.derivative [] curr pt ct).emit = false := by
  cases h : (n.derivative [] curr pt ct).emit
  · rfl
  · have hk := ((DerivativeNode.derivative_emit_iff n [] curr pt ct).mp h).2.1
    simp [Fields.get, GoMap.lookup, diffFunc_nil_left] at hk

theorem derivativeGroup.BatchPoint_no_previous (g : derivativeGroup) (h : Heap) (bp : Message)
    (hg : g.previous = none) : (g.BatchPoint h bp).msg = none := by
  unfold derivativeGroup.BatchPoint
  simp only [derivativeGroup.doDerivative_eq]
  have hargs : g.prevArgs h = ([], Time.zero) := by
    simp [derivativeGroup.prevArgs, hg]
  rw [hargs]
  simp [DerivativeNode.derivative_no_previous]

theorem BeginStore.read_ShallowCopy_new (st : BeginStore) (a : Nat) :
    (st.ShallowCopy a).2.read (st.ShallowCopy a).1 = st.read a := by
  simp [BeginStore.ShallowCopy, BeginStore.read, List.getD_eq_getElem?_getD]

theorem BeginStore.read_SetSizeHint_new (st : BeginStore) (a : Nat) (s : Int) :
    ((st.ShallowCopy a).2.SetSizeHint (st.ShallowCopy a).1 s).read (st.ShallowCopy a).1
      = ⟨(st.read a).name, (st.read a).tags, s⟩ := by
  simp [BeginStore.ShallowCopy, BeginStore.SetSizeHint, BeginStore.read,
    List.getD_eq_getElem?_getD]

theorem BeginStore.read_SetSizeHint_old (st : BeginStore) (a : Nat) (s : Int) (b : Nat)
    (hb : b < st.cells.length) :
    ((st.ShallowCopy a).2.SetSizeHint (st.ShallowCopy a).1 s).read b = st.read b := by
  have hne : st.cells.length ≠ b := by omega
  simp [BeginStore.ShallowCopy, BeginStore.SetSizeHint, BeginStore.read,
    List.getD_eq_getElem?_getD, List.getElem?_set, hne, List.getElem?_append_left hb]

/-- One iteration of the loop acts on the node and the accumulator as an iteration on the
current point alone. -/
theorem loopBody_point {σ : Type} (fs : FillScope) (group : String) (s : ReduceLoop σ) :
    (loopBody fs group s).e
        = (loopBody fs group
            ⟨s.e, 0, [s.Points.getD s.i ⟨Time.zero, [], []⟩], s.previousResult⟩).e ∧
      (loopBody fs group s).previousResult
        = (loopBody fs group
            ⟨s.e, 0, [s.Points.getD s.i ⟨Time.zero, [], []⟩], s.previousResult⟩).previousResult := by
  unfold loopBody
  simp only [List.getD_cons_zero]
  split <;> simp

theorem loopBody_drop {σ : Type} (fs : FillScope) (group : String) (s : ReduceLoop σ)
    (h : s.i < s.Points.length) :
    (loopBody fs group s).Points.drop (loopBody fs group s).i = s.Points.drop (s.i + 1) := by
  unfold loopBody
  simp only
  split
  · simp only
    rw [List.eraseIdx_eq_take_drop_succ]
    exact List.drop_left' (List.length_take_of_le (le_of_lt h))
  · rfl

theorem foldPoints_cons {σ : Type} (fs : FillScope) (group : String) (e : ReduceNode σ)
    (acc p : BatchPoint) (rest : List BatchPoint) :
    foldPoints fs group e acc (p :: rest)
      = ((foldPoints fs group (loopBody fs group ⟨e, 0, [p], acc⟩).e
            (loopBody fs group ⟨e, 0, [p], acc⟩).previousResult rest).1,
          (foldPoints fs group (loopBody fs group ⟨e, 0, [p], acc⟩).e
            (loopBody fs group ⟨e, 0, [p], acc⟩).previousResult rest).2.1,
          (e.eval fs p.Time group p.Fields p.Tags acc.Fields acc.Tags).1 ::
            (foldPoints fs group (loopBody fs group ⟨e, 0, [p], acc⟩).e
              (loopBody fs group ⟨e, 0, [p], acc⟩).previousResult rest).2.2) := by
  simp only [foldPoints]

/-- The loop of `runReduce` computes the fold over the points that are left from the index
on. -/
theorem reduceLoop_eq_foldPoints {σ : Type} (fs : FillScope) (group : String) (fuel : Nat)
    (s : ReduceLoop σ) (h : s.Points.length - s.i ≤ fuel) :
    (reduceLoop fs group fuel s).e
        = (foldPoints fs group s.e s.previousResult (s.Points.drop s.i)).1 ∧
      (reduceLoop fs group fuel s).previousResult
        = (foldPoints fs group s.e s.previousResult (s.Points.drop s.i)).2.1 := by
  induction fuel generalizing s with
  | zero =>
    have hd : s.Points.drop s.i = [] := List.drop_of_length_le (by omega)
    simp [reduceLoop, hd, foldPoints]
  | succ fuel ih =>
    simp only [reduceLoop]
    split_ifs with hlt
    · have hm := loopBody_measure fs group s hlt
      have hih := ih (loopBody fs group s) (by omega)
      rw [loopBody_drop fs group s hlt] at hih
      have hd : s.Points.drop s.i = s.Points[s.i] :: s.Points.drop (s.i + 1) :=
        List.drop_eq_getElem_cons hlt
      have hg : s.Points.getD s.i ⟨Time.zero, [], []⟩ = s.Points[s.i] := by
        simp [List.getD_eq_getElem?_getD, List.getElem?_eq_getElem hlt]
      obtain ⟨h1, h2⟩ := loopBody_point fs group s
      rw [hg] at h1 h2
      rw [hd, foldPoints_cons, ← h1, ← h2]
      exact hih
    · have hd : s.Points.drop s.i = [] := List.drop_of_length_le (by omega)
      simp [hd, foldPoints]

theorem runReduceBatch_eq_foldPoints {σ : Type} (fs : FillScope) (e : ReduceNode σ)
    (b : Batch) :
    e.runReduceBatch fs b
      = (⟨b.Group, [(foldPoints fs b.Group e (initialResult e b.Points) b.Points).2.1]⟩,
          (foldPoints fs b.Group e (initialResult e b.Points) b.Points).1) := by
  obtain ⟨h1, h2⟩ := reduceLoop_eq_foldPoints fs b.Group b.Points.length
    ⟨e, 0, b.Points, initialResult e b.Points⟩ (by simp)
  simp only [List.drop_zero] at h1 h2
  simp only [ReduceNode.runReduceBatch, h1, h2]

/-- One iteration on a point whose evaluation fails: the error is counted (and logged unless
`QuietFlag` is set) and the accumulator is emptied. -/
theorem loopBody_error {σ : Type} (fs : FillScope) (group : String) (e : ReduceNode σ)
    (acc p : BatchPoint) (err : String)
    (h : (e.eval fs p.Time group p.Fields p.Tags acc.Fields acc.Tags).1 = Except.error err) :
    (loopBody fs group ⟨e, 0, [p], acc⟩).previousResult = ⟨p.Time, [], []⟩ ∧
      (loopBody fs group ⟨e, 0, [p], acc⟩).e.errorCount = e.errorCount + 1 ∧
      e.sameSetup (loopBody fs group ⟨e, 0, [p], acc⟩).e := by
  have hc := ReduceNode.eval_errorCount fs e p.Time group p.Fields p.Tags acc.Fields acc.Tags
  have hs := ReduceNode.eval_sameSetup fs e p.Time group p.Fields p.Tags acc.Fields acc.Tags
  unfold loopBody
  simp only [List.getD_cons_zero]
  rcases hx : e.eval fs p.Time group p.Fields p.Tags acc.Fields acc.Tags with ⟨r, e1⟩
  rw [hx] at h hc hs
  simp only at h hc hs
  subst h
  refine ⟨?_, ?_, ?_⟩
  · simp
  · simp only
    split_ifs <;> simp [ReduceNode.incrementErrorCount, ReduceNode.logPrintln, hc]
  · obtain ⟨a1, a2, a3, a4, a5, a6⟩ := hs
    simp only
    split_ifs <;> exact ⟨a1, a2, a3, a4, a5, a6⟩

/-- One iteration on a point whose evaluation succeeds: the results become the accumulator and
the error counter stays. -/
theorem loopBody_ok {σ : Type} (fs : FillScope) (group : String) (e : ReduceNode σ)
    (acc p : BatchPoint) (f : Fields) (t : Tags)
    (h : (e.eval fs p.Time group p.Fields p.Tags acc.Fields acc.Tags).1 = Except.ok (f, t)) :
    (loopBody fs group ⟨e, 0, [p], acc⟩).previousResult = ⟨p.Time, f, t⟩ ∧
      (loopBody fs group ⟨e, 0, [p], acc⟩).e.errorCount = e.errorCount ∧
      e.sameSetup (loopBody fs group ⟨e, 0, [p], acc⟩).e := by
  have hc := ReduceNode.eval_errorCount fs e p.Time group p.Fields p.Tags acc.Fields acc.Tags
  have hs := ReduceNode.eval_sameSetup fs e p.Time group p.Fields p.Tags acc.Fields acc.Tags
  unfold loopBody
  simp only [List.getD_cons_zero]
  rcases hx : e.eval fs p.Time group p.Fields p.Tags acc.Fields acc.Tags with ⟨r, e1⟩
  rw [hx] at h hc hs
  simp only at h hc hs
  subst h
  refine ⟨?_, ?_, ?_⟩
  · simp
  · simpa using hc
  · simpa using hs

theorem loopBody_errorCount_single {σ : Type} (fs : FillScope) (group : String)
    (e : ReduceNode σ) (acc p : BatchPoint) :
    (loopBody fs group ⟨e, 0, [p], acc⟩).e.errorCount
      = e.errorCount +
        (if isError (e.eval fs p.Time group p.Fields p.Tags acc.Fields acc.Tags).1 = true
          then 1 else 0) := by
  cases hr : (e.eval fs p.Time group p.Fields p.Tags acc.Fields acc.Tags).1 with
  | error err => simp [(loopBody_error fs group e acc p err hr).2.1, isError]
  | ok ft =>
    obtain ⟨f, t⟩ := ft
    simp [(loopBody_ok fs group e acc p f t hr).2.1, isError]

theorem foldPoints_length {σ : Type} (fs : FillScope) (group : String) (e : ReduceNode σ)
    (acc : BatchPoint) (pts : List BatchPoint) :
    (foldPoints fs group e acc pts).2.2.length = pts.length := by
  induction pts generalizing e acc with
  | nil => simp [foldPoints]
  | cons p rest ih => simp [foldPoints_cons, ih]

theorem foldPoints_errorCount {σ : Type} (fs : FillScope) (group : String) (e : ReduceNode σ)
    (acc : BatchPoint) (pts : List BatchPoint) :
    (foldPoints fs group e acc pts).1.errorCount
      = e.errorCount + (foldPoints fs group e acc pts).2.2.countP isError := by
  induction pts generalizing e acc with
  | nil => simp [foldPoints]
  | cons p rest ih =>
    rw [foldPoints_cons]
    simp only [ih, loopBody_errorCount_single, List.countP_cons]
    omega

theorem foldPoints_sameSetup {σ : Type} (fs : FillScope) (group : String) (e : ReduceNode σ)
    (acc : BatchPoint) (pts : List BatchPoint) :
    e.sameSetup (foldPoints fs group e acc pts).1 := by
  induction pts generalizing e acc with
  | nil => exact ⟨rfl, rfl, rfl, rfl, rfl, rfl⟩
  | cons p rest ih =>
    rw [foldPoints_cons]
    have h1 : e.sameSetup (loopBody fs group ⟨e, 0, [p], acc⟩).e := by
      cases hr : (e.eval fs p.Time group p.Fields p.Tags acc.Fields acc.Tags).1 with
      | error err => exact (loopBody_error fs group e acc p err hr).2.2
      | ok ft => exact (loopBody_ok fs group e acc p ft.1 ft.2 hr).2.2
    have h2 := ih (loopBody fs group ⟨e, 0, [p], acc⟩).e
      (loopBody fs group ⟨e, 0, [p], acc⟩).previousResult
    obtain ⟨a1, a2, a3, a4, a5, a6⟩ := h1
    obtain ⟨b1, b2, b3, b4, b5, b6⟩ := h2
    exact ⟨b1.trans a1, b2.trans a2, b3.trans a3, b4.trans a4, b5.trans a5, b6.trans a6⟩

/-- After the fold over a non-empty list of points the accumulator carries the time of the
last point, and the fields and tags that the last evaluation returned (none if it failed). -/
theorem foldPoints_last {σ : Type} (fs : FillScope) (group : String) (e : ReduceNode σ)
    (acc : BatchPoint) (pts : List BatchPoint) (hne : pts ≠ []) :
    (foldPoints fs group e acc pts).2.1.Time = (pts.getLast hne).Time ∧
      ((∃ err, (foldPoints fs group e acc pts).2.2.getLast? = some (Except.error err) ∧
          (foldPoints fs group e acc pts).2.1.Fields = [] ∧
          (foldPoints fs group e acc pts).2.1.Tags = []) ∨
        (∃ f t, (foldPoints fs group e acc pts).2.2.getLast? = some (Except.ok (f, t)) ∧
          (foldPoints fs group e acc pts).2.1.Fields = f ∧
          (foldPoints fs group e acc pts).2.1.Tags = t)) := by
  induction pts generalizing e acc with
  | nil => exact absurd rfl hne
  | cons p rest ih =>
    cases rest with
    | nil =>
      rw [foldPoints_cons]
      simp only [foldPoints, List.getLast_singleton, List.getLast?_singleton, Option.some.injEq]
      cases hr : (e.eval fs p.Time group p.Fields p.Tags acc.Fields acc.Tags).1 with
      | error err =>
        rw [(loopBody_error fs group e acc p err hr).1]
        exact ⟨rfl, Or.inl ⟨err, rfl, rfl, rfl⟩⟩
      | ok ft =>
        obtain ⟨f, t⟩ := ft
        rw [(loopBody_ok fs group e acc p f t hr).1]
        exact ⟨rfl, Or.inr ⟨f, t, rfl, rfl, rfl⟩⟩
    | cons q rest =>
      have h := ih (loopBody fs group ⟨e, 0, [p], acc⟩).e
        (loopBody fs group ⟨e, 0, [p], acc⟩).previousResult (by simp)
      rw [foldPoints_cons]
      simp only [List.getLast_cons_cons]
      have hl : ∀ (x : Except String (Fields × Tags)) (l : List (Except String (Fields × Tags))),
          l ≠ [] → (x :: l).getLast? = l.getLast? := by
        intro x l hl
        cases l with
        | nil => exact absurd rfl hl
        | cons y l => simp
      have hne2 : (foldPoints fs group (loopBody fs group ⟨e, 0, [p], acc⟩).e
          (loopBody fs group ⟨e, 0, [p], acc⟩).previousResult (q :: rest)).2.2 ≠ [] := by
        intro hnil
        have := foldPoints_length fs group (loopBody fs group ⟨e, 0, [p], acc⟩).e
          (loopBody fs group ⟨e, 0, [p], acc⟩).previousResult (q :: rest)
        rw [hnil] at this
        simp at this
      rw [hl _ _ hne2]
      exact h

theorem loopBody_conserve {σ : Type} (fs : FillScope) (group : String) (s : ReduceLoop σ)
    (h : s.i < s.Points.length) :
    (loopBody fs group s).Points.length + (loopBody fs group s).e.errorCount
      = s.Points.length + s.e.errorCount := by
  have hc := ReduceNode.eval_errorCount fs s.e (s.Points.getD s.i ⟨Time.zero, [], []⟩).Time
    group (s.Points.getD s.i ⟨Time.zero, [], []⟩).Fields
    (s.Points.getD s.i ⟨Time.zero, [], []⟩).Tags s.previousResult.Fields s.previousResult.Tags
  unfold loopBody
  simp only
  rcases hx : s.e.eval fs (s.Points.getD s.i ⟨Time.zero, [], []⟩).Time
    group (s.Points.getD s.i ⟨Time.zero, [], []⟩).Fields
    (s.Points.getD s.i ⟨Time.zero, [], []⟩).Tags s.previousResult.Fields
    s.previousResult.Tags with ⟨r, e1⟩
  rw [hx] at hc
  simp only at hc
  cases r with
  | error err =>
    simp only [List.length_eraseIdx, h, if_true]
    split_ifs <;> simp [ReduceNode.incrementErrorCount, ReduceNode.logPrintln, hc] <;> omega
  | ok ft => simp [hc]

/-- Every point dropped from `b.Points` is one error counted, and the other way round. -/
theorem reduceLoop_conserve {σ : Type} (fs : FillScope) (group : String) (fuel : Nat)
    (s : ReduceLoop σ) :
    (reduceLoop fs group fuel s).Points.length + (reduceLoop fs group fuel s).e.errorCount
      = s.Points.length + s.e.errorCount := by
  induction fuel generalizing s with
  | zero => rfl
  | succ fuel ih =>
    simp only [reduceLoop]
    split_ifs with hlt
    · rw [ih, loopBody_conserve fs group s hlt]
    · rfl

/-- After at most `fuel` iterations the loop has evaluated the first `fuel` of the points that
were left from the index on, each once and in order. -/
theorem evalCalls_points {σ : Type} (fs : FillScope) (group : String) (fuel : Nat)
    (s : ReduceLoop σ) :
    (evalCalls fs group fuel s).map EvalCall.point = (s.Points.drop s.i).take fuel := by
  induction fuel generalizing s with
  | zero => simp [evalCalls]
  | succ fuel ih =>
    simp only [evalCalls]
    split_ifs with hlt
    · have hd : s.Points.drop s.i = s.Points[s.i] :: s.Points.drop (s.i + 1) :=
        List.drop_eq_getElem_cons hlt
      have hg : s.Points.getD s.i ⟨Time.zero, [], []⟩ = s.Points[s.i] := by
        simp [List.getD_eq_getElem?_getD, List.getElem?_eq_getElem hlt]
      simp only [List.map_cons, ih, loopBody_drop fs group s hlt, hd, List.take_succ_cons, hg,
        EvalCall.point]
    · have hd : s.Points.drop s.i = [] := List.drop_of_length_le (by omega)
      simp [hd]

/-- While iterations are left, each iteration of the loop brings the index one step closer to
the end of the points. -/
theorem reduceLoop_measure {σ : Type} (fs : FillScope) (group : String) (k : Nat)
    (s : ReduceLoop σ) (h : k ≤ s.Points.length - s.i) :
    (reduceLoop fs group k s).Points.length - (reduceLoop fs group k s).i
      = s.Points.length - s.i - k := by
  induction k generalizing s with
  | zero => simp [reduceLoop]
  | succ k ih =>
    have hlt : s.i < s.Points.length := by omega
    simp only [reduceLoop, hlt, if_true]
    have hm := loopBody_measure fs group s hlt
    rw [ih (loopBody fs group s) (by omega), hm]
    omega

/-- Once the loop has reached its exit condition, further fuel changes nothing. -/
theorem reduceLoop_extra {σ : Type} (fs : FillScope) (group : String) (fuel extra : Nat)
    (s : ReduceLoop σ) (h : s.Points.length - s.i ≤ fuel) :
    reduceLoop fs group (fuel + extra) s = reduceLoop fs group fuel s := by
  induction fuel generalizing s with
  | zero =>
    have hge : ¬ s.i < s.Points.length := by omega
    cases extra with
    | zero => rfl
    | succ extra => simp [reduceLoop, hge]
  | succ fuel ih =>
    rw [Nat.add_right_comm]
    simp only [reduceLoop]
    split_ifs with hlt
    · have hm := loopBody_measure fs group s hlt
      exact ih (loopBody fs group s) (by omega)
    · rfl

theorem evalCalls_extra {σ : Type} (fs : FillScope) (group : String) (fuel extra : Nat)
    (s : ReduceLoop σ) (h : s.Points.length - s.i ≤ fuel) :
    evalCalls fs group (fuel + extra) s = evalCalls fs group fuel s := by
  induction fuel generalizing s with
  | zero =>
    have hge : ¬ s.i < s.Points.length := by omega
    cases extra with
    | zero => rfl
    | succ extra => simp [evalCalls, hge]
  | succ fuel ih =>
    rw [Nat.add_right_comm]
    simp only [evalCalls]
    split_ifs with hlt
    · have hm := loopBody_measure fs group s hlt
      rw [ih (loopBody fs group s) (by omega)]
    · rfl

/-- One iteration of the loop makes one call of `eval`, on the point at the index and the
accumulator; when the call fails the point is removed and the index stays, when it succeeds
the points stay and the index advances. -/
theorem loopBody_cases {σ : Type} (fs : FillScope) (group : String) (s : ReduceLoop σ)
    (h : s.i < s.Points.length) :
    ∃ c, evalCalls fs group 1 s = [c] ∧ c.group = group ∧
      c.point = s.Points.getD s.i ⟨Time.zero, [], []⟩ ∧
      c.previousFields = s.previousResult.Fields ∧ c.previousTags = s.previousResult.Tags ∧
      (isError (s.e.eval fs c.now c.group c.fields c.tags c.previousFields c.previousTags).1
          = true →
        (loopBody fs group s).i = s.i ∧ (loopBody fs group s).Points = s.Points.eraseIdx s.i) ∧
      (isError (s.e.eval fs c.now c.group c.fields c.tags c.previousFields c.previousTags).1
          = false →
        (loopBody fs group s).i = s.i + 1 ∧ (loopBody fs group s).Points = s.Points) := by
  refine ⟨⟨(s.Points.getD s.i ⟨Time.zero, [], []⟩).Time, group,
    (s.Points.getD s.i ⟨Time.zero, [], []⟩).Fields, (s.Points.getD s.i ⟨Time.zero, [], []⟩).Tags,
    s.previousResult.Fields, s.previousResult.Tags⟩, ?_, rfl, rfl, rfl, rfl, ?_, ?_⟩
  · simp [evalCalls, h]
  · intro herr
    unfold loopBody
    simp only at herr ⊢
    rcases hx : s.e.eval fs (s.Points.getD s.i ⟨Time.zero, [], []⟩).Time group
      (s.Points.getD s.i ⟨Time.zero, [], []⟩).Fields
      (s.Points.getD s.i ⟨Time.zero, [], []⟩).Tags s.previousResult.Fields
      s.previousResult.Tags with ⟨r, e1⟩
    rw [hx] at herr
    cases r with
    | error err => simp
    | ok ft => simp [isError] at herr
  · intro hok
    unfold loopBody
    simp only at hok ⊢
    rcases hx : s.e.eval fs (s.Points.getD s.i ⟨Time.zero, [], []⟩).Time group
      (s.Points.getD s.i ⟨Time.zero, [], []⟩).Fields
      (s.Points.getD s.i ⟨Time.zero, [], []⟩).Tags s.previousResult.Fields
      s.previousResult.Tags with ⟨r, e1⟩
    rw [hx] at hok
    cases r with
    | error err => simp [isError] at hok
    | ok ft => simp

/-- The node after one iteration of the loop is the node after one call of `eval`, on the
point at the index and the accumulator, with the error counted (and logged unless `QuietFlag`
is set) when the call failed; the accumulator is what that call returned. -/
theorem loopBody_node {σ : Type} (fs : FillScope) (group : String) (s : ReduceLoop σ)
    (c : EvalCall)
    (hc : c = ⟨(s.Points.getD s.i ⟨Time.zero, [], []⟩).Time, group,
      (s.Points.getD s.i ⟨Time.zero, [], []⟩).Fields,
      (s.Points.getD s.i ⟨Time.zero, [], []⟩).Tags,
      s.previousResult.Fields, s.previousResult.Tags⟩) :
    (∀ f t,
      (s.e.eval fs c.now c.group c.fields c.tags c.previousFields c.previousTags).1
        = Except.ok (f, t) →
      (loopBody fs group s).e = s.e.afterEval fs c ∧
        (loopBody fs group s).previousResult = ⟨c.now, f, t⟩) ∧
    (∀ err,
      (s.e.eval fs c.now c.group c.fields c.tags c.previousFields c.previousTags).1
        = Except.error err →
      (loopBody fs group s).e
          = (if !(s.e.afterEval fs c).incrementErrorCount.e.QuietFlag then
              (s.e.afterEval fs c).incrementErrorCount.logPrintln err
            else (s.e.afterEval fs c).incrementErrorCount) ∧
        (loopBody fs group s).previousResult = ⟨c.now, [], []⟩) := by
  subst hc
  simp only [ReduceNode.afterEval]
  constructor
  · intro f t h
    unfold loopBody
    simp only
    rcases hx : s.e.eval fs (s.Points.getD s.i ⟨Time.zero, [], []⟩).Time group
      (s.Points.getD s.i ⟨Time.zero, [], []⟩).Fields
      (s.Points.getD s.i ⟨Time.zero, [], []⟩).Tags s.previousResult.Fields
      s.previousResult.Tags with ⟨r, e1⟩
    rw [hx] at h
    simp only at h
    subst h
    exact ⟨rfl, rfl⟩
  · intro err h
    unfold loopBody
    simp only
    rcases hx : s.e.eval fs (s.Points.getD s.i ⟨Time.zero, [], []⟩).Time group
      (s.Points.getD s.i ⟨Time.zero, [], []⟩).Fields
      (s.Points.getD s.i ⟨Time.zero, [], []⟩).Tags s.previousResult.Fields
      s.previousResult.Tags with ⟨r, e1⟩
    rw [hx] at h
    simp only at h
    subst h
    exact ⟨rfl, rfl⟩

/-- The error counter and the log of a node have no part in what `eval` returns and does to
the table of groups. -/
theorem ReduceNode.eval_congr {σ : Type} (fs : FillScope) (e e' : ReduceNode σ)
    (hs : e.sameSetup e') (ht : e'.expressionsByGroup = e.expressionsByGroup) (now : Time)
    (group : String) (fields : Fields) (tags : Tags) (pf : Fields) (pt : Tags) :
    (e'.eval fs now group fields tags pf pt).1 = (e.eval fs now group fields tags pf pt).1 ∧
    (e'.eval fs now group fields tags pf pt).2.expressionsByGroup
      = (e.eval fs now group fields tags pf pt).2.expressionsByGroup ∧
    (e.eval fs now group fields tags pf pt).2.sameSetup
      (e'.eval fs now group fields tags pf pt).2 := by
  obtain ⟨c, xs, tb, rv, sp, tg, iv, ec, lg⟩ := e
  obtain ⟨c', xs', tb', rv', sp', tg', iv', ec', lg'⟩ := e'
  obtain ⟨h1, h2, h3, h4, h5, h6⟩ := hs
  simp only at h1 h2 h3 h4 h5 h6 ht
  subst h1 h2 h3 h4 h5 h6 ht
  simp only [ReduceNode.eval_eq]
  refine ⟨?_, ?_, ?_⟩
  · rfl
  · rfl
  · exact ⟨rfl, rfl, rfl, rfl, rfl, rfl⟩

theorem ReduceNode.afterEvals_congr {σ : Type} (fs : FillScope) (calls : List EvalCall)
    (e e' : ReduceNode σ) (hs : e.sameSetup e')
    (ht : e'.expressionsByGroup = e.expressionsByGroup) :
    (e'.afterEvals fs calls).expressionsByGroup = (e.afterEvals fs calls).expressionsByGroup := by
  induction calls generalizing e e' with
  | nil => exact ht
  | cons c rest ih =>
    simp only [ReduceNode.afterEvals, ReduceNode.afterEval]
    obtain ⟨-, h2, h3⟩ := ReduceNode.eval_congr fs e e' hs ht c.now c.group c.fields c.tags
      c.previousFields c.previousTags
    exact ih _ _ h3 h2

/-- The expression instances of every group are, after the loop, in the states that the
calls of `eval` listed by `evalCalls` leave them in, one after the other. -/
theorem reduceLoop_table {σ : Type} (fs : FillScope) (group : String) (fuel : Nat)
    (s : ReduceLoop σ) :
    (reduceLoop fs group fuel s).e.expressionsByGroup
      = (s.e.afterEvals fs (evalCalls fs group fuel s)).expressionsByGroup := by
  induction fuel generalizing s with
  | zero => rfl
  | succ fuel ih =>
    simp only [reduceLoop, evalCalls]
    split_ifs with hlt
    · rw [ih (loopBody fs group s)]
      simp only [ReduceNode.afterEvals]
      obtain ⟨hok, herr⟩ := loopBody_node fs group s _ rfl
      apply ReduceNode.afterEvals_congr
      · cases hr : (s.e.eval fs (s.Points.getD s.i ⟨Time.zero, [], []⟩).Time group
            (s.Points.getD s.i ⟨Time.zero, [], []⟩).Fields
            (s.Points.getD s.i ⟨Time.zero, [], []⟩).Tags s.previousResult.Fields
            s.previousResult.Tags).1 with
        | error err =>
          rw [(herr err hr).1]
          split_ifs <;> exact ⟨rfl, rfl, rfl, rfl, rfl, rfl⟩
        | ok ft =>
          rw [(hok ft.1 ft.2 hr).1]
          exact ⟨rfl, rfl, rfl, rfl, rfl, rfl⟩
      · cases hr : (s.e.eval fs (s.Points.getD s.i ⟨Time.zero, [], []⟩).Time group
            (s.Points.getD s.i ⟨Time.zero, [], []⟩).Fields
            (s.Points.getD s.i ⟨Time.zero, [], []⟩).Tags s.previousResult.Fields
            s.previousResult.Tags).1 with
        | error err =>
          rw [(herr err hr).1]
          split_ifs <;> rfl
        | ok ft =>
          rw [(hok ft.1 ft.2 hr).1]
    · rfl

/-- For every input batch the batch sent downstream keeps the group and contains exactly one
point; for a non-empty batch that point carries the time of the last point of the input batch
and what the loop left in `previousResult`: the fields and tags returned by the last
evaluation, or no fields and no tags when the last evaluation failed. -/
theorem runReduceBatch_output_shape {σ : Type} (fs : FillScope) (e : ReduceNode σ) (b : Batch) :
    (e.runReduceBatch fs b).1.Points.length = 1 ∧
    (e.runReduceBatch fs b).1.Group = b.Group ∧
    ∀ hne : b.Points ≠ [],
      ∃ pt, (e.runReduceBatch fs b).1.Points = [pt] ∧
        pt.Time = (b.Points.getLast hne).Time ∧
        ((∃ err, (e.evalResults fs b).getLast? = some (Except.error err) ∧
            pt.Fields = [] ∧ pt.Tags = []) ∨
          (∃ f t, (e.evalResults fs b).getLast? = some (Except.ok (f, t)) ∧
            pt.Fields = f ∧ pt.Tags = t)) := by
  rw [runReduceBatch_eq_foldPoints]
  refine ⟨rfl, rfl, ?_⟩
  intro hne
  obtain ⟨h1, h2⟩ := foldPoints_last fs b.Group e (initialResult e b.Points) b.Points hne
  exact ⟨_, rfl, h1, h2⟩

/-! ## Lemmas on two calls of `eval` in progress -/

theorem EvalPair.invariant_start {σ : Type} (e : ReduceNode σ)
    (sets0 : List (List (Expression σ))) (table0 : GoMap Nat) (group : String)
    (hnew : GoMap.lookup table0 group = none) :
    EvalPair.invariant e sets0 table0 group (EvalPair.start sets0 table0 group) := by
  simp [EvalPair.invariant, EvalPair.start, EvalThread.group, EvalThread.created,
    EvalThread.inserted, EvalThread.found, hnew]

theorem EvalPair.invariant_step_first {σ : Type} (e : ReduceNode σ)
    (sets0 : List (List (Expression σ))) (table0 : GoMap Nat) (group : String)
    (s : EvalPair σ) (h : EvalPair.invariant e sets0 table0 group s) :
    EvalPair.invariant e sets0 table0 group (s.step e false) := by
  obtain ⟨sets, table, first, second⟩ := s
  unfold EvalPair.invariant at h ⊢
  simp only [EvalPair.step, Bool.false_eq_true, if_false] at h ⊢
  generalize second.created = c2 at h ⊢
  generalize second.inserted = i2 at h ⊢
  generalize second.found = f2 at h ⊢
  generalize second.group = g2 at h ⊢
  cases first with
  | atLookup g =>
    cases hl : GoMap.lookup table g <;> cases c2 <;> cases i2 <;>
      simp_all [EvalThread.step, EvalThread.group, EvalThread.created, EvalThread.inserted,
        EvalThread.found]
  | atCreate g =>
    cases c2 <;> cases i2 <;>
      simp_all [EvalThread.step, EvalThread.group, EvalThread.created, EvalThread.inserted,
        EvalThread.found]
  | atInsert g a =>
    cases c2 <;> cases i2 <;>
      simp_all [EvalThread.step, EvalThread.group, EvalThread.created, EvalThread.inserted,
        EvalThread.found, GoMap.lookup_set]
  | atLoop g ok a =>
    simpa [EvalThread.step] using h

theorem EvalPair.invariant_step_second {σ : Type} (e : ReduceNode σ)
    (sets0 : List (List (Expression σ))) (table0 : GoMap Nat) (group : String)
    (s : EvalPair σ) (h : EvalPair.invariant e sets0 table0 group s) :
    EvalPair.invariant e sets0 table0 group (s.step e true) := by
  obtain ⟨sets, table, first, second⟩ := s
  unfold EvalPair.invariant at h ⊢
  simp only [EvalPair.step, if_true] at h ⊢
  generalize first.created = c1 at h ⊢
  generalize first.inserted = i1 at h ⊢
  generalize first.found = f1 at h ⊢
  generalize first.group = g1 at h ⊢
  cases second with
  | atLookup g =>
    cases hl : GoMap.lookup table g <;> cases c1 <;> cases i1 <;>
      simp_all [EvalThread.step, EvalThread.group, EvalThread.created, EvalThread.inserted,
        EvalThread.found]
  | atCreate g =>
    cases c1 <;> cases i1 <;>
      simp_all [EvalThread.step, EvalThread.group, EvalThread.created, EvalThread.inserted,
        EvalThread.found]
  | atInsert g a =>
    cases c1 <;> cases i1 <;>
      simp_all [EvalThread.step, EvalThread.group, EvalThread.created, EvalThread.inserted,
        EvalThread.found, GoMap.lookup_set]
  | atLoop g ok a =>
    simpa [EvalThread.step] using h

/-- The invariant holds after every schedule. -/
theorem EvalPair.invariant_run {σ : Type} (e : ReduceNode σ)
    (sets0 : List (List (Expression σ))) (table0 : GoMap Nat) (group : String)
    (schedule : List Bool) (s : EvalPair σ)
    (h : EvalPair.invariant e sets0 table0 group s) :
    EvalPair.invariant e sets0 table0 group (EvalPair.run e schedule s) := by
  induction schedule generalizing s with
  | nil => exact h
  | cons t rest ih =>
    simp only [EvalPair.run]
    apply ih
    cases t
    · exact EvalPair.invariant_step_first e sets0 table0 group s h
    · exact EvalPair.invariant_step_second e sets0 table0 group s h

theorem EvalThread.stepsLeft_step {σ : Type} (e : ReduceNode σ)
    (sets : List (List (Expression σ))) (table : GoMap Nat) (t : EvalThread) :
    (t.step e sets table).2.2.stepsLeft ≤ t.stepsLeft - 1 := by
  cases t with
  | atLookup g =>
    simp only [EvalThread.step]
    split <;> simp [EvalThread.stepsLeft]
  | atCreate g => simp [EvalThread.step, EvalThread.stepsLeft]
  | atInsert g a => simp [EvalThread.step, EvalThread.stepsLeft]
  | atLoop g ok a => simp [EvalThread.step, EvalThread.stepsLeft]

theorem EvalThread.stepsLeft_eq_zero (t : EvalThread) (h : t.stepsLeft = 0) :
    ∃ ok a, t = EvalThread.atLoop t.group ok a := by
  cases t with
  | atLookup g => simp [EvalThread.stepsLeft] at h
  | atCreate g => simp [EvalThread.stepsLeft] at h
  | atInsert g a => simp [EvalThread.stepsLeft] at h
  | atLoop g ok a => exact ⟨ok, a, rfl⟩

/-- Every step of a call brings it closer to the loop over its expressions, and the steps of
the other call do not hold it up. -/
theorem EvalPair.stepsLeft_run {σ : Type} (e : ReduceNode σ) (schedule : List Bool)
    (s : EvalPair σ) :
    (EvalPair.run e schedule s).first.stepsLeft ≤ s.first.stepsLeft - schedule.count false ∧
      (EvalPair.run e schedule s).second.stepsLeft
        ≤ s.second.stepsLeft - schedule.count true := by
  induction schedule generalizing s with
  | nil => simp [EvalPair.run]
  | cons t rest ih =>
    simp only [EvalPair.run]
    obtain ⟨h1, h2⟩ := ih (s.step e t)
    cases t with
    | false =>
      have hs := EvalThread.stepsLeft_step e s.sets s.expressionsByGroup s.first
      have hf : (s.step e false).first = (s.first.step e s.sets s.expressionsByGroup).2.2 := by
        simp [EvalPair.step]
      have hg : (s.step e false).second = s.second := by simp [EvalPair.step]
      rw [hf] at h1
      rw [hg] at h2
      simp only [List.count_cons_self, List.count_cons_of_ne (by decide : true ≠ false)]
      omega
    | true =>
      have hs := EvalThread.stepsLeft_step e s.sets s.expressionsByGroup s.second
      have hf : (s.step e true).second = (s.second.step e s.sets s.expressionsByGroup).2.2 := by
        simp [EvalPair.step]
      have hg : (s.step e true).first = s.first := by simp [EvalPair.step]
      rw [hg] at h1
      rw [hf] at h2
      simp only [List.count_cons_self, List.count_cons_of_ne (by decide : false ≠ true)]
      omega

/-- Once both calls are at the loop over their expressions, no step changes anything. -/
theorem EvalPair.run_atLoop {σ : Type} (e : ReduceNode σ) (schedule : List Bool)
    (s : EvalPair σ) (g1 g2 : String) (ok1 ok2 : Bool) (a b : Nat)
    (h1 : s.first = EvalThread.atLoop g1 ok1 a) (h2 : s.second = EvalThread.atLoop g2 ok2 b) :
    EvalPair.run e schedule s = s := by
  induction schedule with
  | nil => rfl
  | cons t rest ih =>
    have hs : s.step e t = s := by
      obtain ⟨sets, table, first, second⟩ := s
      simp only at h1 h2
      subst h1 h2
      cases t <;> simp [EvalPair.step, EvalThread.step]
    simp only [EvalPair.run, hs, ih]

theorem EvalThread.found_none_step {σ : Type} (e : ReduceNode σ)
    (sets : List (List (Expression σ))) (table : GoMap Nat) (t : EvalThread)
    (hl : t.stepsLeft < 3) (hf : t.found = none) :
    (t.step e sets table).2.2.stepsLeft < 3 ∧ (t.step e sets table).2.2.found = none := by
  cases t with
  | atLookup g => simp [EvalThread.stepsLeft] at hl
  | atCreate g => simp [EvalThread.step, EvalThread.stepsLeft, EvalThread.found]
  | atInsert g a => simp [EvalThread.step, EvalThread.stepsLeft, EvalThread.found]
  | atLoop g ok a => exact ⟨hl, hf⟩

/-- A call whose lookup has missed never finds a set afterwards. -/
theorem EvalPair.found_none_run {σ : Type} (e : ReduceNode σ) (schedule : List Bool)
    (s : EvalPair σ) :
    (s.first.stepsLeft < 3 → s.first.found = none →
      (EvalPair.run e schedule s).first.found = none) ∧
    (s.second.stepsLeft < 3 → s.second.found = none →
      (EvalPair.run e schedule s).second.found = none) := by
  induction schedule generalizing s with
  | nil => exact ⟨fun _ h => h, fun _ h => h⟩
  | cons t rest ih =>
    simp only [EvalPair.run]
    obtain ⟨h1, h2⟩ := ih (s.step e t)
    cases t with
    | false =>
      have hf : (s.step e false).first = (s.first.step e s.sets s.expressionsByGroup).2.2 := by
        simp [EvalPair.step]
      have hg : (s.step e false).second = s.second := by simp [EvalPair.step]
      rw [hf] at h1
      rw [hg] at h2
      refine ⟨fun hl hn => ?_, h2⟩
      obtain ⟨a, b⟩ := EvalThread.found_none_step e s.sets s.expressionsByGroup s.first hl hn
      exact h1 a b
    | true =>
      have hf : (s.step e true).second = (s.second.step e s.sets s.expressionsByGroup).2.2 := by
        simp [EvalPair.step]
      have hg : (s.step e true).first = s.first := by simp [EvalPair.step]
      rw [hg] at h1
      rw [hf] at h2
      refine ⟨h1, fun hl hn => ?_⟩
      obtain ⟨a, b⟩ := EvalThread.found_none_step e s.sets s.expressionsByGroup s.second hl hn
      exact h2 a b

theorem EvalPair.run_append {σ : Type} (e : ReduceNode σ) (pre post : List Bool)
    (s : EvalPair σ) :
    EvalPair.run e (pre ++ post) s = EvalPair.run e post (EvalPair.run e pre s) := by
  induction pre generalizing s with
  | nil => rfl
  | cons t rest ih =>
    simp only [List.cons_append, EvalPair.run]
    exact ih _

theorem GoMap.lookup_map_values {α β : Type} (f : α → β) (m : GoMap α) (k : String) :
    GoMap.lookup (m.map (fun kv => (kv.1, f kv.2))) k = (GoMap.lookup m k).map f := by
  induction m with
  | nil => rfl
  | cons kv rest ih =>
    obtain ⟨k0, v0⟩ := kv
    simp only [List.map_cons, GoMap.lookup, ih]
    split_ifs <;> rfl

theorem GoMap.set_map_values {α β : Type} (f : α → β) (m : GoMap α) (k : String) (v : α) :
    (GoMap.set m k v).map (fun kv => (kv.1, f kv.2))
      = GoMap.set (m.map (fun kv => (kv.1, f kv.2))) k (f v) := by
  induction m with
  | nil => rfl
  | cons kv rest ih =>
    obtain ⟨k0, v0⟩ := kv
    simp only [GoMap.set, List.map_cons]
    split_ifs
    · rfl
    · simp only [List.map_cons, ih]

/-- One call of `eval` stepping alone does to the table what `eval` does to
`expressionsByGroup` before it evaluates (lines 126-149), and the set it reaches the loop with
has the instances that `eval` evaluates. -/
theorem EvalPair.solo_refines {σ : Type} (e : ReduceNode σ) (s : EvalPair σ) (group : String)
    (hfirst : s.first = EvalThread.atLookup group)
    (htable : e.expressionsByGroup = s.table)
    (hvalid : ∀ ga, ga ∈ s.expressionsByGroup → ga.2 < s.sets.length) :
    (EvalPair.run e [false, false, false] s).second = s.second ∧
    (∃ ok a, (EvalPair.run e [false, false, false] s).first = EvalThread.atLoop group ok a ∧
      (EvalPair.run e [false, false, false] s).sets.getD a [] = e.groupExpressions group ∧
      ok = (GoMap.lookup e.expressionsByGroup group).isSome) ∧
    (EvalPair.run e [false, false, false] s).table
      = (match GoMap.lookup e.expressionsByGroup group with
          | some _ => e
          | none => e.setGroup group (e.expressions.map Expression.CopyReset)).expressionsByGroup
    := by
  obtain ⟨sets, table, first, second⟩ := s
  simp only at hfirst hvalid
  subst hfirst
  have hl : GoMap.lookup e.expressionsByGroup group
      = (GoMap.lookup table group).map (fun a => sets.getD a []) := by
    rw [htable]
    exact GoMap.lookup_map_values (fun a => sets.getD a []) table group
  cases hq : GoMap.lookup table group with
  | some a =>
    rw [hq] at hl
    simp only [Option.map_some'] at hl
    have hrun : EvalPair.run e [false, false, false]
        ⟨sets, table, EvalThread.atLookup group, second⟩
        = ⟨sets, table, EvalThread.atLoop group true a, second⟩ := by
      simp [EvalPair.run, EvalPair.step, EvalThread.step, hq]
    rw [hrun, hl]
    refine ⟨rfl, ⟨true, a, rfl, ?_, rfl⟩, ?_⟩
    · simp [ReduceNode.groupExpressions, hl]
    · simp only
      exact htable.symm
  | none =>
    rw [hq] at hl
    simp only [Option.map_none'] at hl
    have hrun : EvalPair.run e [false, false, false]
        ⟨sets, table, EvalThread.atLookup group, second⟩
        = ⟨sets ++ [e.expressions.map Expression.CopyReset],
            GoMap.set table group sets.length, EvalThread.atLoop group false sets.length,
            second⟩ := by
      simp [EvalPair.run, EvalPair.step, EvalThread.step, hq]
    rw [hrun, hl]
    refine ⟨rfl, ⟨false, sets.length, rfl, ?_, rfl⟩, ?_⟩
    · simp [ReduceNode.groupExpressions, hl, List.getD_eq_getElem?_getD]
    · simp only [EvalPair.table, ReduceNode.setGroup]
      rw [GoMap.set_map_values (fun a => (sets ++ [e.expressions.map Expression.CopyReset]).getD
        a []) table group sets.length, htable]
      have hold : table.map (fun ga =>
            (ga.1, (sets ++ [e.expressions.map Expression.CopyReset]).getD ga.2 []))
          = table.map (fun ga => (ga.1, sets.getD ga.2 [])) := by
        apply List.map_congr_left
        intro ga hga
        have hlt := hvalid ga hga
        simp [List.getD_eq_getElem?_getD, List.getElem?_append_left hlt]
      simp only [EvalPair.table]
      rw [hold]
      simp [List.getD_eq_getElem?_getD]

/-! ## Lemmas on the BigPanda payload -/

theorem GoMap.lookup_copy_of_missing {α : Type} (l : List (String × α)) (m0 : GoMap α)
    (k : String) (h : GoMap.lookup l k = none) :
    GoMap.lookup (l.foldl (fun m kv => GoMap.set m kv.1 kv.2) m0) k = GoMap.lookup m0 k := by
  induction l generalizing m0 with
  | nil => rfl
  | cons e rest ih =>
    obtain ⟨k0, v0⟩ := e
    simp only [GoMap.lookup] at h
    split_ifs at h with hk
    simp only [List.foldl_cons]
    rw [ih _ h, GoMap.lookup_set]
    have hne : ¬ k = k0 := fun e => hk e.symm
    simp [hne]

theorem bigpanda.status_by_level (lv : bigpanda.Levels) (hd : lv.distinct)
    (level : bigpanda.Level) :
    ((level = lv.OK ∨ level = lv.Info) → bigpanda.status lv level = "ok") ∧
    (level = lv.Warning → bigpanda.status lv level = "warning") ∧
    ((level = lv.Critical ∨ (level ≠ lv.OK ∧ level ≠ lv.Info ∧ level ≠ lv.Warning)) →
      bigpanda.status lv level = "critical") ∧
    bigpanda.status lv level ∈ bigpanda.documentedStatuses := by
  simp only [bigpanda.Levels.distinct, List.nodup_cons, List.mem_cons, List.mem_singleton,
    List.not_mem_nil, not_or, List.nodup_nil, or_false, and_true, not_false_eq_true] at hd
  obtain ⟨⟨h1, h2, h3⟩, ⟨h4, h5⟩, h6⟩ := hd
  refine ⟨?_, ?_, ?_, ?_⟩
  · rintro (h | h)
    · simp [bigpanda.status, h]
    · subst h
      simp [bigpanda.status, Ne.symm h3, Ne.symm h5, Ne.symm h6]
  · intro h
    subst h
    simp [bigpanda.status, Ne.symm h1]
  · rintro (h | ⟨a, b, c⟩)
    · subst h
      simp [bigpanda.status, Ne.symm h2, Ne.symm h4]
    · unfold bigpanda.status
      simp only [a, c, if_false]
      split_ifs <;> rfl
  · unfold bigpanda.status bigpanda.documentedStatuses
    split_ifs <;> simp

/-- Copying the entries of a map with unique keys into another map: the entries of the copied
map win. -/
theorem GoMap.lookup_copy {α : Type} (l : GoMap α) (m0 : GoMap α) (k : String)
    (hnd : (GoMap.keys l).Nodup) :
    GoMap.lookup (l.foldl (fun m kv => GoMap.set m kv.1 kv.2) m0) k
      = match GoMap.lookup l k with
        | some v => some v
        | none => GoMap.lookup m0 k := by
  induction l generalizing m0 with
  | nil => rfl
  | cons e rest ih =>
    obtain ⟨k0, v0⟩ := e
    simp only [GoMap.keys, List.map_cons, List.nodup_cons] at hnd
    obtain ⟨hk0, hrest⟩ := hnd
    simp only [List.foldl_cons]
    rw [ih _ hrest, GoMap.lookup_set]
    by_cases hk : k0 = k
    · subst hk
      have hnone : GoMap.lookup rest k0 = none := by
        by_contra hne
        exact hk0 ((GoMap.mem_keys_iff rest k0).mpr hne)
      simp [GoMap.lookup, hnone]
    · have hk' : ¬ k = k0 := fun e => hk e.symm
      simp [GoMap.lookup, hk, hk']

/-- The payload of `preparePost` holds every tag of the event under its key, whatever was
stored under that key before. -/
theorem bigpanda.bpData_tag {lib : bigpanda.Library} {lv : bigpanda.Levels}
    {c : bigpanda.Config} {appKey message : String} {level : bigpanda.Level} {timestamp : Time}
    {data : bigpanda.EventData} (hnd : (GoMap.keys data.Tags).Nodup) (k v : String)
    (hk : GoMap.lookup data.Tags k = some v) :
    GoMap.lookup (bigpanda.bpData lib lv c appKey message level timestamp data) k = some v := by
  unfold bigpanda.bpData
  simp only
  have hlen : data.Tags.length > 0 := by
    cases hT : data.Tags with
    | nil => rw [hT] at hk; simp [GoMap.lookup] at hk
    | cons e rest => simp
  rw [if_pos hlen, GoMap.lookup_copy _ _ _ hnd, hk]

/-- For every configuration, level and event data, the status computed by `preparePost` is
determined by the level alone (OK and Info give ok, Warning gives warning, Critical and any
other level give critical) and is one of the documented statuses; it is the status entry of
the payload when the tags of the event have no key status; the app_key entry is the given
appKey when it is non-empty and the configured AppKey otherwise, when the tags have no key
app_key. With an enabled configuration `preparePost` returns the request built from the
encoded payload whenever encoding, parsing the URL and building the request succeed, and
returns a request in no other case. When the configuration is not enabled, `preparePost`
returns the error service is not enabled and no request. -/
theorem bigpanda.preparePost_payload (lib : bigpanda.Library) (lv : bigpanda.Levels)
    (hd : lv.distinct) (s : bigpanda.Service) (appKey alertTopic alertID message : String)
    (level : bigpanda.Level) (timestamp : Time) (data : bigpanda.EventData) :
    ((level = lv.OK ∨ level = lv.Info) → bigpanda.status lv level = "ok") ∧
    (level = lv.Warning → bigpanda.status lv level = "warning") ∧
    ((level = lv.Critical ∨ (level ≠ lv.OK ∧ level ≠ lv.Info ∧ level ≠ lv.Warning)) →
      bigpanda.status lv level = "critical") ∧
    bigpanda.status lv level ∈ bigpanda.documentedStatuses ∧
    (GoMap.lookup data.Tags "status" = none →
      GoMap.lookup (bigpanda.bpData lib lv s.config appKey message level timestamp data)
        "status" = some (bigpanda.status lv level)) ∧
    (GoMap.lookup data.Tags "app_key" = none →
      GoMap.lookup (bigpanda.bpData lib lv s.config appKey message level timestamp data)
        "app_key" = some (if appKey = "" then s.config.AppKey else appKey)) ∧
    (s.config.Enabled = true →
      ∀ post alertUrl req,
        lib.Encode (bigpanda.bpData lib lv s.config appKey message level timestamp data)
          = Except.ok post →
        lib.Parse s.config.Url = Except.ok alertUrl →
        lib.NewRequest "POST" alertUrl post = Except.ok req →
        s.preparePost lib lv appKey alertTopic alertID message level timestamp data
          = bigpanda.PostResult.request
              ((req.HeaderAdd "Authorization"
                (bigpanda.defaultTokenPrefix ++ " " ++ s.config.Token)).HeaderAdd
                "Content-Type" "application/json")) ∧
    (∀ out,
      s.preparePost lib lv appKey alertTopic alertID message level timestamp data
        = bigpanda.PostResult.request out →
      s.config.Enabled = true ∧
      ∃ post alertUrl req,
        lib.Encode (bigpanda.bpData lib lv s.config appKey message level timestamp data)
          = Except.ok post ∧
        lib.Parse s.config.Url = Except.ok alertUrl ∧
        lib.NewRequest "POST" alertUrl post = Except.ok req ∧
        out = (req.HeaderAdd "Authorization"
          (bigpanda.defaultTokenPrefix ++ " " ++ s.config.Token)).HeaderAdd
          "Content-Type" "application/json") ∧
    (s.config.Enabled = false →
      s.preparePost lib lv appKey alertTopic alertID message level timestamp data
        = bigpanda.PostResult.error "service is not enabled") := by
  obtain ⟨h1, h2, h3, h4⟩ := bigpanda.status_by_level lv hd level
  refine ⟨h1, h2, h3, h4, ?_, ?_, ?_, ?_, ?_⟩
  · intro hnone
    have hne : ¬ ("status" = "app_key") := by decide
    have hbase : ∀ k : String, GoMap.lookup
        (GoMap.set (GoMap.set (GoMap.set (GoMap.set ([] : GoMap String) "check" message)
          "timestamp" (lib.Format timestamp "2006-01-02T15:04:05.000000000Z07:00"))
          "status" (bigpanda.status lv level)) "app_key" k) "status"
        = some (bigpanda.status lv level) := by
      intro k
      rw [GoMap.lookup_set, if_neg hne, GoMap.lookup_set, if_pos rfl]
    unfold bigpanda.bpData
    simp only
    by_cases hlen : data.Tags.length > 0
    · rw [if_pos hlen, GoMap.lookup_copy_of_missing _ _ _ hnone]
      exact hbase _
    · rw [if_neg hlen]
      exact hbase _
  · intro hnone
    have hbase : ∀ k : String, GoMap.lookup
        (GoMap.set (GoMap.set (GoMap.set (GoMap.set ([] : GoMap String) "check" message)
          "timestamp" (lib.Format timestamp "2006-01-02T15:04:05.000000000Z07:00"))
          "status" (bigpanda.status lv level)) "app_key" k) "app_key" = some k := by
      intro k
      rw [GoMap.lookup_set, if_pos rfl]
    unfold bigpanda.bpData
    simp only
    by_cases hlen : data.Tags.length > 0
    · rw [if_pos hlen, GoMap.lookup_copy_of_missing _ _ _ hnone]
      exact hbase _
    · rw [if_neg hlen]
      exact hbase _
  · intro hen post alertUrl req hpost hurl hreq
    simp [bigpanda.Service.preparePost, hen, hpost, hurl, hreq]
  · intro out hout
    unfold bigpanda.Service.preparePost at hout
    simp only at hout
    cases hen : s.config.Enabled with
    | false => simp [hen] at hout
    | true =>
      refine ⟨rfl, ?_⟩
      simp only [hen, Bool.not_true, Bool.false_eq_true, if_false] at hout
      cases hpost : lib.Encode
          (bigpanda.bpData lib lv s.config appKey message level timestamp data) with
      | error err => simp [hpost] at hout
      | ok post =>
        cases hurl : lib.Parse s.config.Url with
        | error err => simp [hpost, hurl] at hout
        | ok alertUrl =>
          cases hreq : lib.NewRequest "POST" alertUrl post with
          | error err => simp [hpost, hurl, hreq] at hout
          | ok req =>
            simp only [hpost, hurl, hreq, bigpanda.PostResult.request.injEq] at hout
            exact ⟨post, alertUrl, req, rfl, rfl, hreq, hout.symm⟩
  · intro hen
    simp [bigpanda.Service.preparePost, hen]

/-! ## The claims -/

/-- C1, as the code has it: in the batch x = 1, x = "n/a", x = 5 the second evaluation fails and
the assignment from its results sets the accumulator to nil, so the third point is folded
onto nothing and the output is total = 5, while the fold over the batch without the failing
point gives total = 6; and when the failing point is the last one (x = 1, x = "n/a") the output
point has no fields and no tags and the time of the failed point, not total = 1. -/
theorem C1_failed_point_resets_accumulator :
    newReduceNode exReduceConfig = Except.ok exReduce ∧
    (exReduce.runReduceBatch fillScope ⟨"host=a", [exPoint1, exPointBad, exPoint3]⟩).1
      = ⟨"host=a", [⟨⟨3000000000⟩, [("total", Value.int 5)], [("host", "a")]⟩]⟩ ∧
    (exReduce.runReduceBatch fillScope ⟨"host=a", [exPoint1, exPointBad, exPoint3]⟩).2.errorCount
      = 1 ∧
    (exReduce.runReduceBatch fillScope ⟨"host=a", [exPoint1, exPoint3]⟩).1
      = ⟨"host=a", [⟨⟨3000000000⟩, [("total", Value.int 6)], [("host", "a")]⟩]⟩ ∧
    (exReduce.runReduceBatch fillScope ⟨"host=a", [exPoint1, exPointBad]⟩).1
      = ⟨"host=a", [⟨⟨2000000000⟩, [], []⟩]⟩ ∧
    (exReduce.runReduceBatch fillScope ⟨"host=a", [exPoint1]⟩).1
      = ⟨"host=a", [⟨⟨1000000000⟩, [("total", Value.int 1)], [("host", "a")]⟩]⟩ := by
  refine ⟨rfl, ?_, ?_, ?_, ?_, ?_⟩ <;> decide

/-- C2, as the code has it: handing a point whose timestamp is the zero time to a fresh group
emits nothing and returns no error, but the elapsed time is then zero and the error counter
is incremented. -/
theorem C2_zero_time_counts_an_error :
    (exDerivative.newGroup.Point exHeap ⟨0, [], Time.zero⟩).msg = none ∧
    (exDerivative.newGroup.Point exHeap ⟨0, [], Time.zero⟩).err = none ∧
    exDerivative.errorCount = 0 ∧
    (exDerivative.newGroup.Point exHeap ⟨0, [], Time.zero⟩).g.n.errorCount = 1 ∧
    (exDerivative.newGroup.BatchPoint exHeap ⟨0, [], Time.zero⟩).g.n.errorCount = 1 := by
  decide

/-- C2, amended: for every point p whose timestamp is not the zero time, handing p as the first
Point or BatchPoint message to a group whose previous is none returns no message and no error,
leaves the node (error counter and log) and the heap as they were, and retains p as previous. -/
theorem C2_fresh_group_first_point (n : DerivativeNode) (h : Heap) (p : Message)
    (hp : p.time ≠ Time.zero) :
    n.newGroup.Point h p = ⟨none, none, ⟨n, some p⟩, h⟩ ∧
    n.newGroup.BatchPoint h p = ⟨none, none, ⟨n, some p⟩, h⟩ := by
  simp [derivativeGroup.Point, derivativeGroup.BatchPoint,
    derivativeGroup.doDerivative_fresh n h p _ hp]

/-- C2, at a concrete input: a first point one second after the zero time. -/
theorem C2_fresh_group_first_point_witness :
    exDerivative.newGroup.Point exHeap ⟨0, [("host", "a")], ⟨1000000000⟩⟩
      = ⟨none, none, ⟨exDerivative, some ⟨0, [("host", "a")], ⟨1000000000⟩⟩⟩, exHeap⟩ ∧
    exDerivative.newGroup.BatchPoint exHeap ⟨0, [("host", "a")], ⟨1000000000⟩⟩
      = ⟨none, none, ⟨exDerivative, some ⟨0, [("host", "a")], ⟨1000000000⟩⟩⟩, exHeap⟩ :=
  C2_fresh_group_first_point exDerivative exHeap ⟨0, [("host", "a")], ⟨1000000000⟩⟩ (by decide)

/-- C3: for all field maps prev and curr and equal times, derivative does not emit, returns
store = true and increments the error counter by exactly one. -/
theorem C3_zero_elapsed_time (n : DerivativeNode) (prev curr : Fields) (t : Time) :
    (n.derivative prev curr t t).emit = false ∧
    (n.derivative prev curr t t).store = true ∧
    (n.derivative prev curr t t).n.errorCount = n.errorCount + 1 := by
  have hz : F64.eq (F64.ofInt (t.Sub t)) F64.zero = true := by
    rw [F64.ofInt_eq_zero_iff, Time.Sub_eq_zero_iff]
  simp [DerivativeNode.derivative_eq, hz, DerivativeNode.incrementErrorCount,
    DerivativeNode.logPrintf]

/-- C4, as the code has it: with NonNegativeFlag set, previous value 9007199254740993 and current
value 9007199254740992 (both int64, the current one smaller), both promote to the same float64,
the difference is 0 and the point is emitted. -/
theorem C4_large_integers_emit :
    (9007199254740992 : Int) < 9007199254740993 ∧
    exNonNegative.d.NonNegativeFlag = true ∧
    (exNonNegative.derivative [("value", Value.int 9007199254740993)]
      [("value", Value.int 9007199254740992)] ⟨1000000000⟩ ⟨2000000000⟩).emit = true := by
  decide

/-- C4, amended: with NonNegativeFlag set, for every pair of numeric values f0 = prev[Field] and
f1 = curr[Field] whose promotions to float64 satisfy n1 < n0, derivative returns emit = false
and store = true, and doDerivative on a group with these previous and current fields emits
nothing, leaves the heap as it was and retains the current point, whose fields and time the
next call hands to derivative as previous. -/
theorem C4_non_negative_filter (n : DerivativeNode) (prev curr : Fields) (pt ct : Time)
    (hflag : n.d.NonNegativeFlag = true)
    (h0 : (Fields.get prev n.d.Field).isNumeric = true)
    (h1 : (Fields.get curr n.d.Field).isNumeric = true)
    (hlt : F64.lt (numToFloat (Fields.get curr n.d.Field)).1
      (numToFloat (Fields.get prev n.d.Field)).1 = true) :
    (n.derivative prev curr pt ct).emit = false ∧
    (n.derivative prev curr pt ct).store = true ∧
    ∀ (g : derivativeGroup) (h : Heap) (p np : Message),
      g.n = n → g.prevArgs h = (prev, pt) → h.read p.fields = curr → p.time = ct →
      (g.doDerivative h p np).emit = false ∧
      (g.doDerivative h p np).g.previous = some p ∧
      (g.doDerivative h p np).heap = h ∧
      (g.doDerivative h p np).g.prevArgs (g.doDerivative h p np).heap = (curr, ct) := by
  have hd : diffFunc (Fields.get prev n.d.Field) (Fields.get curr n.d.Field)
      = (F64.sub (numToFloat (Fields.get curr n.d.Field)).1
          (numToFloat (Fields.get prev n.d.Field)).1, true) := by
    unfold Value.isNumeric at h0 h1
    simp [diffFunc, h0, h1]
  have hneg := F64.sub_neg_of_lt _ _ hlt
  have hemit : (n.derivative prev curr pt ct).emit = false := by
    rw [DerivativeNode.derivative_eq]
    split_ifs with a b c
    · rfl
    · rfl
    · rfl
    · exact absurd ⟨hflag, by rw [hd]; exact hneg⟩ c
  refine ⟨hemit, DerivativeNode.derivative_store _ _ _ _ _, ?_⟩
  intro g h p np hg hprev hcurr htime
  subst hg
  have hst := DerivativeNode.derivative_store g.n prev curr pt ct
  rw [derivativeGroup.doDerivative_eq, hprev, hcurr, htime]
  simp [hemit, derivativeGroup.prevArgs, hcurr, htime]

/-- C4, at a concrete input: previous value 10, current value 4. -/
theorem C4_non_negative_filter_witness :
    (exNonNegative.derivative (exHeap.read 0) (exHeap.read 1) ⟨1000000000⟩ ⟨2000000000⟩).emit
      = false ∧
    (exNonNegative.derivative (exHeap.read 0) (exHeap.read 1) ⟨1000000000⟩ ⟨2000000000⟩).store
      = true ∧
    ∀ (g : derivativeGroup) (h : Heap) (p np : Message),
      g.n = exNonNegative → g.prevArgs h = (exHeap.read 0, ⟨1000000000⟩) →
      h.read p.fields = exHeap.read 1 → p.time = ⟨2000000000⟩ →
      (g.doDerivative h p np).emit = false ∧
      (g.doDerivative h p np).g.previous = some p ∧
      (g.doDerivative h p np).heap = h ∧
      (g.doDerivative h p np).g.prevArgs (g.doDerivative h p np).heap
        = (exHeap.read 1, ⟨2000000000⟩) :=
  C4_non_negative_filter exNonNegative (exHeap.read 0) (exHeap.read 1) ⟨1000000000⟩
    ⟨2000000000⟩ (by decide) (by decide) (by decide) (by decide)

/-- C5: derivative emits if and only if the two times differ, prev[Field] and curr[Field] are both
numeric (each an integer or a float) or both strings, and not (NonNegativeFlag is set and
diff < 0); a missing previous value, a number against a string and a boolean never emit. -/
theorem C5_emit_characterisation (n : DerivativeNode) (prev curr : Fields) (pt ct : Time) :
    ((n.derivative prev curr pt ct).emit = true ↔
      ct ≠ pt ∧
      (((Fields.get prev n.d.Field).isNumeric = true ∧
          (Fields.get curr n.d.Field).isNumeric = true) ∨
        ((Fields.get prev n.d.Field).isString = true ∧
          (Fields.get curr n.d.Field).isString = true)) ∧
      ¬ (n.d.NonNegativeFlag = true ∧
        F64.lt (diffFunc (Fields.get prev n.d.Field) (Fields.get curr n.d.Field)).1 F64.zero
          = true)) ∧
    (GoMap.lookup prev n.d.Field = none → (n.derivative prev curr pt ct).emit = false) ∧
    (((Fields.get prev n.d.Field).isNumeric = true ∧
        (Fields.get curr n.d.Field).isString = true) ∨
      ((Fields.get prev n.d.Field).isString = true ∧
        (Fields.get curr n.d.Field).isNumeric = true) →
      (n.derivative prev curr pt ct).emit = false) ∧
    ((∃ b, Fields.get prev n.d.Field = Value.bool b) ∨
      (∃ b, Fields.get curr n.d.Field = Value.bool b) →
      (n.derivative prev curr pt ct).emit = false) := by
  have key := DerivativeNode.derivative_emit_iff n prev curr pt ct
  rw [diffFunc_ok_iff] at key
  have off : ∀ {b : Bool}, ¬ (b = true) → b = false := by
    intro b hb
    cases b
    · rfl
    · exact absurd rfl hb
  refine ⟨key, ?_, ?_, ?_⟩
  · intro hmiss
    apply off
    rw [key]
    rintro ⟨_, hk, _⟩
    simp [Fields.get, hmiss, Value.isNumeric, Value.isString, numToFloat, assertString] at hk
  · intro hmix
    apply off
    rw [key]
    rintro ⟨_, hk, _⟩
    generalize Fields.get prev n.d.Field = f0 at hmix hk
    generalize Fields.get curr n.d.Field = f1 at hmix hk
    cases f0 <;> cases f1 <;>
      simp [Value.isNumeric, Value.isString, numToFloat, assertString] at hmix hk
  · intro hbool
    apply off
    rw [key]
    rintro ⟨_, hk, _⟩
    rcases hbool with ⟨b, hb⟩ | ⟨b, hb⟩ <;> rw [hb] at hk <;>
      simp [Value.isNumeric, Value.isString, numToFloat, assertString] at hk

/-- C5, at concrete inputs: a float against an integer emits, a number against a string and a
missing previous value do not. -/
theorem C5_emit_characterisation_witness :
    (exDerivative.derivative [("value", Value.float (F64.ofInt 2))] [("value", Value.int 5)]
      ⟨1000000000⟩ ⟨3000000000⟩).emit = true ∧
    (exDerivative.derivative [("value", Value.int 2)] [("value", Value.str "5")]
      ⟨1000000000⟩ ⟨3000000000⟩).emit = false ∧
    (exDerivative.derivative [("load", Value.int 2)] [("value", Value.int 5)]
      ⟨1000000000⟩ ⟨3000000000⟩).emit = false :=
  ⟨(C5_emit_characterisation exDerivative [("value", Value.float (F64.ofInt 2))]
      [("value", Value.int 5)] ⟨1000000000⟩ ⟨3000000000⟩).1.mpr (by decide),
    (C5_emit_characterisation exDerivative [("value", Value.int 2)] [("value", Value.str "5")]
      ⟨1000000000⟩ ⟨3000000000⟩).2.2.1 (by decide),
    (C5_emit_characterisation exDerivative [("load", Value.int 2)] [("value", Value.int 5)]
      ⟨1000000000⟩ ⟨3000000000⟩).2.1 (by decide)⟩

/-- C6, as the code has it: with the unit -1s, previous value 1 and current value 3 one second
later, the emitted value is -2: negative, although f1 - f0 and elapsed are both positive. -/
theorem C6_negative_unit_flips_sign :
    (exNegativeUnit.derivative [("value", Value.int 1)] [("value", Value.int 3)]
      ⟨1000000000⟩ ⟨2000000000⟩).emit = true ∧
    (exNegativeUnit.derivative [("value", Value.int 1)] [("value", Value.int 3)]
      ⟨1000000000⟩ ⟨2000000000⟩).value = F64.ofInt (-2) ∧
    F64.sign (exNegativeUnit.derivative [("value", Value.int 1)] [("value", Value.int 3)]
      ⟨1000000000⟩ ⟨2000000000⟩).value = -1 ∧
    F64.sign (F64.sub (F64.ofInt 3) (F64.ofInt 1))
      * Int.sign ((⟨2000000000⟩ : Time).Sub ⟨1000000000⟩) = 1 := by
  decide

/-- C6, amended: whenever derivative emits for numeric values f0 = prev[Field] and
f1 = curr[Field], the returned value is (n1 - n0) / (elapsed / unit) in float64 arithmetic, with
n0 and n1 the promotions of f0 and f1, elapsed = currTime.Sub(prevTime) and unit the configured
Unit, both converted to float64; and when that value is a non-zero number its sign is the sign of
(n1 - n0) times the sign of elapsed times the sign of Unit, which for a positive Unit is the sign
of (n1 - n0) times the sign of elapsed. -/
theorem C6_derivative_value (n : DerivativeNode) (prev curr : Fields) (pt ct : Time)
    (hemit : (n.derivative prev curr pt ct).emit = true)
    (h0 : (Fields.get prev n.d.Field).isNumeric = true)
    (h1 : (Fields.get curr n.d.Field).isNumeric = true) :
    (n.derivative prev curr pt ct).value
      = F64.div
          (F64.sub (numToFloat (Fields.get curr n.d.Field)).1
            (numToFloat (Fields.get prev n.d.Field)).1)
          (F64.div (F64.ofInt (ct.Sub pt)) (F64.ofInt n.d.Unit)) ∧
    (F64.sign (n.derivative prev curr pt ct).value ≠ 0 →
      F64.sign (n.derivative prev curr pt ct).value
        = F64.sign (F64.sub (numToFloat (Fields.get curr n.d.Field)).1
            (numToFloat (Fields.get prev n.d.Field)).1)
          * Int.sign (ct.Sub pt) * Int.sign n.d.Unit) ∧
    (0 < n.d.Unit → F64.sign (n.derivative prev curr pt ct).value ≠ 0 →
      F64.sign (n.derivative prev curr pt ct).value
        = F64.sign (F64.sub (numToFloat (Fields.get curr n.d.Field)).1
            (numToFloat (Fields.get prev n.d.Field)).1)
          * Int.sign (ct.Sub pt)) := by
  have hd : diffFunc (Fields.get prev n.d.Field) (Fields.get curr n.d.Field)
      = (F64.sub (numToFloat (Fields.get curr n.d.Field)).1
          (numToFloat (Fields.get prev n.d.Field)).1, true) := by
    unfold Value.isNumeric at h0 h1
    simp [diffFunc, h0, h1]
  have he : ct.Sub pt ≠ 0 := by
    rw [Ne, Time.Sub_eq_zero_iff]
    exact ((DerivativeNode.derivative_emit_iff n prev curr pt ct).mp hemit).1
  have hv : (n.derivative prev curr pt ct).value
      = F64.div
          (F64.sub (numToFloat (Fields.get curr n.d.Field)).1
            (numToFloat (Fields.get prev n.d.Field)).1)
          (F64.div (F64.ofInt (ct.Sub pt)) (F64.ofInt n.d.Unit)) := by
    rw [DerivativeNode.derivative_eq] at hemit ⊢
    split_ifs at hemit ⊢ with a b c
    all_goals first
      | exact absurd hemit (by decide)
      | rw [hd]
  refine ⟨hv, ?_, ?_⟩
  · rw [hv]
    exact F64.sign_rate _ _ _ he
  · intro hu hs
    rw [hv] at hs ⊢
    rw [F64.sign_rate _ _ _ he hs, Int.sign_eq_one_of_pos hu, mul_one]

/-- C6, at a concrete input: previous value 10, current value 4 two seconds later, unit 1s. -/
theorem C6_derivative_value_witness :
    (exDerivative.derivative (exHeap.read 0) (exHeap.read 1) ⟨1000000000⟩ ⟨3000000000⟩).value
      = F64.ofInt (-3) ∧
    F64.sign (exDerivative.derivative (exHeap.read 0) (exHeap.read 1) ⟨1000000000⟩
      ⟨3000000000⟩).value = -1 * 1 :=
  ⟨(C6_derivative_value exDerivative (exHeap.read 0) (exHeap.read 1) ⟨1000000000⟩
      ⟨3000000000⟩ (by decide) (by decide) (by decide)).1.trans (by decide),
    ((C6_derivative_value exDerivative (exHeap.read 0) (exHeap.read 1) ⟨1000000000⟩
      ⟨3000000000⟩ (by decide) (by decide) (by decide)).2.2 (by decide) (by decide)).trans
      (by decide)⟩

/-- C7: for all strings s0 (previous) and s1 (current), diffFunc returns (c, true) where c is
the three-way lexicographic comparison of s1 against s0 as a float: c = 1 iff s1 > s0, c = 0 iff
s1 = s0, c = -1 iff s1 < s0, so c is always one of -1, 0 and 1. -/
theorem C7_diffFunc_strings (s0 s1 : String) :
    ∃ c : F64, diffFunc (Value.str s0) (Value.str s1) = (c, true) ∧
      (c = F64.ofInt 1 ↔ s1 > s0) ∧
      (c = F64.ofInt 0 ↔ s1 = s0) ∧
      (c = F64.ofInt (-1) ↔ s1 < s0) ∧
      (c = F64.ofInt (-1) ∨ c = F64.ofInt 0 ∨ c = F64.ofInt 1) := by
  refine ⟨F64.ofInt (stringsCompare s1 s0), by simp [diffFunc, numToFloat, assertString], ?_⟩
  have d10 : F64.ofInt 1 ≠ F64.ofInt 0 := by decide
  have d1m : F64.ofInt 1 ≠ F64.ofInt (-1) := by decide
  have d0m : F64.ofInt 0 ≠ F64.ofInt (-1) := by decide
  rcases stringsCompare_cases s1 s0 with ⟨he, hc⟩ | ⟨hl, hc⟩ | ⟨hg, hc⟩
  · rw [hc]
    subst he
    exact ⟨⟨fun e => absurd e.symm d10, fun h => absurd h (lt_irrefl _)⟩,
      ⟨fun _ => rfl, fun _ => rfl⟩,
      ⟨fun e => absurd e d0m, fun h => absurd h (lt_irrefl _)⟩, Or.inr (Or.inl rfl)⟩
  · rw [hc]
    exact ⟨⟨fun e => absurd e.symm d1m, fun h => absurd h (lt_asymm hl)⟩,
      ⟨fun e => absurd e.symm d0m, fun h => absurd h (ne_of_lt hl)⟩,
      ⟨fun _ => hl, fun _ => rfl⟩, Or.inl rfl⟩
  · rw [hc]
    exact ⟨⟨fun _ => hg, fun _ => rfl⟩,
      ⟨fun e => absurd e d10, fun h => absurd h (ne_of_gt hg)⟩,
      ⟨fun e => absurd e d1m, fun h => absurd h (lt_asymm hg)⟩, Or.inr (Or.inr rfl)⟩

/-- C8, as the code has it: with a previous value that is missing, or that is a boolean, and
different times, derivative does not emit and stores the current point, but the error counter
stays at 0. -/
theorem C8_missing_previous_is_not_counted :
    (exDerivative.derivative [] (exHeap.read 1) ⟨1000000000⟩ ⟨2000000000⟩).emit = false ∧
    (exDerivative.derivative [] (exHeap.read 1) ⟨1000000000⟩ ⟨2000000000⟩).store = true ∧
    exDerivative.errorCount = 0 ∧
    (exDerivative.derivative [] (exHeap.read 1) ⟨1000000000⟩ ⟨2000000000⟩).n.errorCount = 0 ∧
    (exDerivative.derivative (exHeap.read 2) (exHeap.read 1) ⟨1000000000⟩
      ⟨2000000000⟩).n.errorCount = 0 := by
  decide

/-- C8, amended: zero elapsed time, a previous value that is missing or does not parse, and a
negative difference filtered by NonNegativeFlag all return store = true and emit = false.
Zero elapsed time is tested first: it increments the error counter by one and logs one line
whatever the previous value is, also when it is missing. When the elapsed time is not zero, a
previous value that is missing or does not parse (any pair of values on which diffFunc fails)
and a filtered negative difference leave the node, its error counter and its log as they
were. So the error counter is incremented, by one, exactly when the elapsed time is zero. -/
theorem C8_degenerate_cases (n : DerivativeNode) (prev curr : Fields) (pt ct : Time) :
    (ct = pt →
      (n.derivative prev curr pt ct).emit = false ∧
      (n.derivative prev curr pt ct).store = true ∧
      (n.derivative prev curr pt ct).n.errorCount = n.errorCount + 1) ∧
    (ct ≠ pt →
      (Fields.get prev n.d.Field).isNumeric = false ∧
        (Fields.get prev n.d.Field).isString = false →
      (n.derivative prev curr pt ct).emit = false ∧
      (n.derivative prev curr pt ct).store = true ∧
      (n.derivative prev curr pt ct).n = n) ∧
    (ct ≠ pt →
      (diffFunc (Fields.get prev n.d.Field) (Fields.get curr n.d.Field)).2 = true →
      n.d.NonNegativeFlag = true →
      F64.lt (diffFunc (Fields.get prev n.d.Field) (Fields.get curr n.d.Field)).1 F64.zero
        = true →
      (n.derivative prev curr pt ct).emit = false ∧
      (n.derivative prev curr pt ct).store = true ∧
      (n.derivative prev curr pt ct).n = n) ∧
    (ct = pt →
      (n.derivative prev curr pt ct).n
        = n.incrementErrorCount.logPrintf "E! cannot perform derivative elapsed time was 0") ∧
    (ct = pt → Fields.get prev n.d.Field = Value.nil →
      (n.derivative prev curr pt ct).n.errorCount = n.errorCount + 1) ∧
    (ct ≠ pt →
      (diffFunc (Fields.get prev n.d.Field) (Fields.get curr n.d.Field)).2 = false →
      (n.derivative prev curr pt ct).emit = false ∧
      (n.derivative prev curr pt ct).store = true ∧
      (n.derivative prev curr pt ct).n = n) ∧
    (n.derivative prev curr pt ct).n.errorCount
      = n.errorCount + (if ct = pt then 1 else 0) ∧
    (n.derivative prev curr pt ct).store = true := by
  have hz : F64.eq (F64.ofInt (ct.Sub pt)) F64.zero = true ↔ ct = pt := by
    rw [F64.ofInt_eq_zero_iff, Time.Sub_eq_zero_iff]
  have hzero : ct = pt →
      (n.derivative prev curr pt ct).n
        = n.incrementErrorCount.logPrintf "E! cannot perform derivative elapsed time was 0" := by
    intro h
    rw [DerivativeNode.derivative_eq, if_pos (hz.mpr h)]
  have hother : ct ≠ pt → (n.derivative prev curr pt ct).n = n := by
    intro h
    rw [DerivativeNode.derivative_eq, if_neg (fun e => h (hz.mp e))]
    split_ifs <;> rfl
  refine ⟨?_, ?_, ?_, hzero, ?_, ?_, ?_, (DerivativeNode.derivative_store n prev curr pt ct)⟩
  rotate_left 3
  · intro h _
    rw [hzero h]
    rfl
  · intro h hf
    rw [DerivativeNode.derivative_eq, if_neg (fun e => h (hz.mp e)), if_pos hf]
    exact ⟨rfl, rfl, rfl⟩
  · by_cases h : ct = pt
    · rw [hzero h, if_pos h]
      rfl
    · rw [hother h, if_neg h]
      rfl
  · intro h
    rw [DerivativeNode.derivative_eq, if_pos (hz.mpr h)]
    exact ⟨rfl, rfl, rfl⟩
  · rintro h ⟨hn, hs⟩
    have hf : (diffFunc (Fields.get prev n.d.Field) (Fields.get curr n.d.Field)).2 = false := by
      cases hk : (diffFunc (Fields.get prev n.d.Field) (Fields.get curr n.d.Field)).2
      · rfl
      · rw [diffFunc_ok_iff, hn, hs] at hk
        simp at hk
    rw [DerivativeNode.derivative_eq, if_neg (fun e => h (hz.mp e)), if_pos hf]
    exact ⟨rfl, rfl, rfl⟩
  · intro h hok hflag hlt
    have hf : ¬ (diffFunc (Fields.get prev n.d.Field) (Fields.get curr n.d.Field)).2 = false := by
      rw [hok]
      decide
    rw [DerivativeNode.derivative_eq, if_neg (fun e => h (hz.mp e)), if_neg hf,
      if_pos ⟨hflag, hlt⟩]
    exact ⟨rfl, rfl, rfl⟩

/-- C8, at concrete inputs: equal times are counted; a boolean previous value and a filtered
negative difference (10 to 4) are not; a missing previous value is counted at equal times and
not counted at different times. -/
theorem C8_degenerate_cases_witness :
    (exDerivative.derivative (exHeap.read 0) (exHeap.read 1) ⟨1000000000⟩
      ⟨1000000000⟩).n.errorCount = exDerivative.errorCount + 1 ∧
    (exDerivative.derivative (exHeap.read 2) (exHeap.read 1) ⟨1000000000⟩ ⟨2000000000⟩).n
      = exDerivative ∧
    (exNonNegative.derivative (exHeap.read 0) (exHeap.read 1) ⟨1000000000⟩ ⟨2000000000⟩).emit
      = false ∧
    (exDerivative.derivative [] (exHeap.read 1) ⟨1000000000⟩ ⟨1000000000⟩).n.errorCount
      = exDerivative.errorCount + 1 ∧
    (exDerivative.derivative [] (exHeap.read 1) ⟨1000000000⟩ ⟨2000000000⟩).n
      = exDerivative :=
  ⟨((C8_degenerate_cases exDerivative (exHeap.read 0) (exHeap.read 1) ⟨1000000000⟩
      ⟨1000000000⟩).1 rfl).2.2,
    ((C8_degenerate_cases exDerivative (exHeap.read 2) (exHeap.read 1) ⟨1000000000⟩
      ⟨2000000000⟩).2.1 (by decide) (by decide)).2.2,
    ((C8_degenerate_cases exNonNegative (exHeap.read 0) (exHeap.read 1) ⟨1000000000⟩
      ⟨2000000000⟩).2.2.1 (by decide) (by decide) (by decide) (by decide)).1,
    (C8_degenerate_cases exDerivative [] (exHeap.read 1) ⟨1000000000⟩
      ⟨1000000000⟩).2.2.2.2.1 rfl (by decide),
    ((C8_degenerate_cases exDerivative [] (exHeap.read 1) ⟨1000000000⟩
      ⟨2000000000⟩).2.2.2.2.2.1 (by decide) (by decide)).2.2⟩

/-- C9, as the code has it: a first point whose Field value is a boolean (it does not parse)
is stored as previous, because derivative returns store = true on every path; diffFunc then
fails on the next point although there is a previous point, and nothing is emitted. -/
theorem C9_unparseable_point_is_stored :
    (exDerivative.derivative [] (exHeap.read 2) Time.zero ⟨1000000000⟩).store = true ∧
    (Fields.get (exHeap.read 2) exDerivative.d.Field).isNumeric = false ∧
    (Fields.get (exHeap.read 2) exDerivative.d.Field).isString = false ∧
    (exDerivative.newGroup.Point exHeap ⟨2, [], ⟨1000000000⟩⟩).g.previous
      = some ⟨2, [], ⟨1000000000⟩⟩ ∧
    diffFunc (Fields.get (exHeap.read 2) exDerivative.d.Field)
      (Fields.get (exHeap.read 1) exDerivative.d.Field) = (F64.zero, false) ∧
    ((exDerivative.newGroup.Point exHeap ⟨2, [], ⟨1000000000⟩⟩).g.Point
      (exDerivative.newGroup.Point exHeap ⟨2, [], ⟨1000000000⟩⟩).heap
      ⟨1, [], ⟨2000000000⟩⟩).msg = none := by
  decide

/-- C10: whenever Point emits a message m for the input p (whose fields map is allocated), and
BatchPoint does the same, m has p's tags and time, its fields map is a new map equal to p's
fields with the key As bound to the derivative value and every other key bound as in p, every
map that existed before (p's own among them) holds what it held, and the point retained as
previous is p, not the emitted copy. -/
theorem C10_output_frame (g : derivativeGroup) (h : Heap) (p m : Message)
    (hp : p.fields < h.cells.length) (hm : (g.Point h p).msg = some m) :
    g.BatchPoint h p = g.Point h p ∧
    (g.Point h p).err = none ∧
    m.tags = p.tags ∧ m.time = p.time ∧
    (∀ k, GoMap.lookup ((g.Point h p).heap.read m.fields) k =
      if k = g.n.d.As then
        some (Value.float
          (g.n.derivative (g.prevArgs h).1 (h.read p.fields) (g.prevArgs h).2 p.time).value)
      else GoMap.lookup (h.read p.fields) k) ∧
    (∀ r, r < h.cells.length → (g.Point h p).heap.read r = h.read r) ∧
    (g.Point h p).g.previous = some p ∧
    m.fields ≠ p.fields := by
  refine ⟨rfl, ?_⟩
  by_cases he : (g.n.derivative (g.prevArgs h).1 (h.read p.fields) (g.prevArgs h).2
      p.time).emit = true
  · have hP : g.Point h p =
        ⟨some (p.ShallowCopy.SetFields (h.Copy p.ShallowCopy.fields).1), none,
          ⟨(g.n.derivative (g.prevArgs h).1 (h.read p.fields) (g.prevArgs h).2 p.time).n,
            some p⟩,
          (h.Copy p.ShallowCopy.fields).2.assign (h.Copy p.ShallowCopy.fields).1 g.n.d.As
            (Value.float
              (g.n.derivative (g.prevArgs h).1 (h.read p.fields) (g.prevArgs h).2
                p.time).value)⟩ := by
      unfold derivativeGroup.Point
      simp only [derivativeGroup.doDerivative_eq, he, if_true]
    rw [hP] at hm ⊢
    have hm' : p.ShallowCopy.SetFields (h.Copy p.ShallowCopy.fields).1 = m :=
      Option.some.inj hm
    subst hm'
    refine ⟨rfl, rfl, rfl, ?_, ?_, rfl, ?_⟩
    · intro k
      show GoMap.lookup (((h.Copy p.fields).2.assign (h.Copy p.fields).1 g.n.d.As _).read
        (h.Copy p.fields).1) k = _
      rw [Heap.read_assign_new, GoMap.lookup_set]
    · intro r hr
      exact Heap.read_assign_old _ _ _ _ _ hr
    · show h.cells.length ≠ p.fields
      omega
  · have hP : (g.Point h p).msg = none := by
      unfold derivativeGroup.Point
      simp only [derivativeGroup.doDerivative_eq, he, if_false]
      rfl
    rw [hP] at hm
    exact absurd hm (by simp)

/-- C10, at a concrete input: previous value 10 (map 0), current value 4 (map 1) one second
later; the emitted message refers to the new map 3. -/
theorem C10_output_frame_witness :
    (GoMap.lookup (((⟨exDerivative, some ⟨0, [], ⟨1000000000⟩⟩⟩ : derivativeGroup).Point exHeap
        ⟨1, [("host", "a")], ⟨2000000000⟩⟩).heap.read 3) "rate" = some (Value.float (F64.ofInt (-6)))) ∧
    ((⟨exDerivative, some ⟨0, [], ⟨1000000000⟩⟩⟩ : derivativeGroup).Point exHeap
      ⟨1, [("host", "a")], ⟨2000000000⟩⟩).heap.read 1 = exHeap.read 1 :=
  ⟨((C10_output_frame ⟨exDerivative, some ⟨0, [], ⟨1000000000⟩⟩⟩ exHeap
      ⟨1, [("host", "a")], ⟨2000000000⟩⟩ ⟨3, [("host", "a")], ⟨2000000000⟩⟩ (by decide)
      (by decide)).2.2.2.2.1 "rate").trans (by decide),
    (C10_output_frame ⟨exDerivative, some ⟨0, [], ⟨1000000000⟩⟩⟩ exHeap
      ⟨1, [("host", "a")], ⟨2000000000⟩⟩ ⟨3, [("host", "a")], ⟨2000000000⟩⟩ (by decide)
      (by decide)).2.2.2.2.2.1 1 (by decide)⟩

/-- C11, as the code has it: a begin-batch message with size hint 0 is forwarded as it is, with
size hint 0 and not -1 (the hint is decremented only when it is positive). -/
theorem C11_zero_size_hint_is_kept :
    (exBegin.read 1).sizeHint = 0 ∧
    ((⟨exDerivative, none⟩ : derivativeGroup).BeginBatch exBegin 1).msg = 1 ∧
    ((⟨exDerivative, none⟩ : derivativeGroup).BeginBatch exBegin 1).store = exBegin ∧
    ((((⟨exDerivative, none⟩ : derivativeGroup).BeginBatch exBegin 1).store.read
      ((⟨exDerivative, none⟩ : derivativeGroup).BeginBatch exBegin 1).msg).sizeHint = 0) := by
  decide

/-- C11, amended: for every begin-batch message with size hint s, BeginBatch forwards a message
whose size hint is s - 1 when s is positive and s otherwise, with the name and tags of the
received message; it leaves the received message (and every other message) as it was, returns
no error and resets the group's previous to none, so that the first batch point after it is
never emitted, whatever the group saw before. -/
theorem C11_begin_batch (g : derivativeGroup) (st : BeginStore) (begin : Nat)
    (hb : begin < st.cells.length) :
    ((g.BeginBatch st begin).store.read (g.BeginBatch st begin).msg).sizeHint
      = (if (st.read begin).sizeHint > 0 then (st.read begin).sizeHint - 1
          else (st.read begin).sizeHint) ∧
    ((g.BeginBatch st begin).store.read (g.BeginBatch st begin).msg).name
      = (st.read begin).name ∧
    ((g.BeginBatch st begin).store.read (g.BeginBatch st begin).msg).tags
      = (st.read begin).tags ∧
    (g.BeginBatch st begin).store.read begin = st.read begin ∧
    (∀ a, a < st.cells.length → (g.BeginBatch st begin).store.read a = st.read a) ∧
    (g.BeginBatch st begin).err = none ∧
    (g.BeginBatch st begin).g.previous = none ∧
    (g.BeginBatch st begin).g.n = g.n ∧
    ∀ (h : Heap) (bp : Message), ((g.BeginBatch st begin).g.BatchPoint h bp).msg = none := by
  have hprev : (g.BeginBatch st begin).g.previous = none := by
    unfold derivativeGroup.BeginBatch
    simp only
    split_ifs <;> rfl
  have hframe : ∀ a, a < st.cells.length → (g.BeginBatch st begin).store.read a = st.read a := by
    intro a ha
    unfold derivativeGroup.BeginBatch
    simp only
    split_ifs with hs
    · exact BeginStore.read_SetSizeHint_old _ _ _ _ ha
    · rfl
  refine ⟨?_, ?_, ?_, hframe begin hb, hframe, ?_, hprev, ?_, ?_⟩
  · unfold derivativeGroup.BeginBatch
    simp only
    split_ifs with hs
    · rw [BeginStore.read_SetSizeHint_new]
    · rfl
  · unfold derivativeGroup.BeginBatch
    simp only
    split_ifs with hs
    · rw [BeginStore.read_SetSizeHint_new]
    · rfl
  · unfold derivativeGroup.BeginBatch
    simp only
    split_ifs with hs
    · rw [BeginStore.read_SetSizeHint_new]
    · rfl
  · unfold derivativeGroup.BeginBatch
    simp only
    split_ifs <;> rfl
  · unfold derivativeGroup.BeginBatch
    simp only
    split_ifs <;> rfl
  · intro h bp
    exact derivativeGroup.BatchPoint_no_previous _ h bp hprev

/-- C11, at a concrete input: a message with size hint 3 received by a group that holds a
previous point; the forwarded message is the new message at address 2, with size hint 2. -/
theorem C11_begin_batch_witness :
    (((⟨exDerivative, some ⟨0, [], ⟨1000000000⟩⟩⟩ : derivativeGroup).BeginBatch exBegin
      0).store.read ((⟨exDerivative, some ⟨0, [], ⟨1000000000⟩⟩⟩ : derivativeGroup).BeginBatch
      exBegin 0).msg).sizeHint = 2 ∧
    (((⟨exDerivative, some ⟨0, [], ⟨1000000000⟩⟩⟩ : derivativeGroup).BeginBatch exBegin
      0).g.BatchPoint exHeap ⟨1, [], ⟨2000000000⟩⟩).msg = none :=
  ⟨(C11_begin_batch ⟨exDerivative, some ⟨0, [], ⟨1000000000⟩⟩⟩ exBegin 0 (by decide)).1.trans
      (by decide),
    (C11_begin_batch ⟨exDerivative, some ⟨0, [], ⟨1000000000⟩⟩⟩ exBegin 0
      (by decide)).2.2.2.2.2.2.2.2 exHeap ⟨1, [], ⟨2000000000⟩⟩⟩

/-- C12: for every configuration with len(AsList) ≠ len(Lambdas), newReduceNode returns the
error about the names and no node, whatever the lambdas compile to; for every configuration
with equal lengths whose expressions all compile (to xs, in order) it returns a node that holds
exactly these len(Lambdas) compiled expressions and len(Lambdas) reference-variable lists, and
an empty table of groups. -/
theorem C12_newReduceNode {σ : Type} (n : PipelineReduceNode σ) :
    (n.AsList.length ≠ n.Lambdas.length →
      newReduceNode n
        = Except.error "must provide one name per expression via the 'As' property") ∧
    (n.AsList.length = n.Lambdas.length →
      ∀ xs : List (Expression σ), n.Lambdas.map Lambda.compiled = xs.map Except.ok →
        ∃ e, newReduceNode n = Except.ok e ∧ e.e = n ∧
          e.expressions = xs ∧ e.expressions.length = n.Lambdas.length ∧
          e.refVarList = n.Lambdas.map Lambda.refVars ∧
          e.refVarList.length = n.Lambdas.length ∧
          e.expressionsByGroup = [] ∧ e.initialValue = n.InitialValue ∧ e.errorCount = 0) := by
  constructor
  · intro h
    simp [newReduceNode, h]
  · intro h xs hxs
    have hlen : xs.length = n.Lambdas.length := by
      have := congrArg List.length hxs
      simpa using this.symm
    refine ⟨{ e := n
              expressions := xs
              expressionsByGroup := []
              refVarList := n.Lambdas.map Lambda.refVars
              scopePool := ((n.Lambdas.map Lambda.refVars).flatten).dedup
              tags := n.TagsList.dedup
              initialValue := n.InitialValue
              errorCount := 0
              logged := [] }, ?_, rfl, rfl, hlen, rfl, by simp, rfl, rfl, rfl⟩
    simp [newReduceNode, h, compileLambdas_ok n.Lambdas xs 0 hxs]

/-- C12, at concrete inputs: two names for one lambda that does not even compile give the
error about the names; one name for one lambda gives the node `exRename`. -/
theorem C12_newReduceNode_witness :
    newReduceNode exMismatchConfig
      = Except.error "must provide one name per expression via the 'As' property" ∧
    ∃ e, newReduceNode exRenameConfig = Except.ok e ∧ e.e = exRenameConfig ∧
      e.expressions = [exRefX] ∧ e.expressions.length = exRenameConfig.Lambdas.length ∧
      e.refVarList = exRenameConfig.Lambdas.map Lambda.refVars ∧
      e.refVarList.length = exRenameConfig.Lambdas.length ∧
      e.expressionsByGroup = [] ∧ e.initialValue = exRenameConfig.InitialValue ∧
      e.errorCount = 0 :=
  ⟨(C12_newReduceNode exMismatchConfig).1 (by decide),
    (C12_newReduceNode exRenameConfig).2 (by decide) [exRefX] rfl⟩

/-- C13: on an empty batch with DefaultPointFlag set, the output batch has exactly one point;
its field map has exactly the names of AsList as keys (each once), each bound to InitialValue;
it has no tags and the zero time; and the node is left as it was (no expression is evaluated,
no group entry is created). -/
theorem C13_default_point {σ : Type} (fs : FillScope) (e : ReduceNode σ) (b : Batch)
    (hinit : e.initialValue = e.e.InitialValue) (hempty : b.Points = [])
    (hflag : e.e.DefaultPointFlag = true) :
    (e.runReduceBatch fs b).2 = e ∧ e.evalResults fs b = [] ∧
    ∃ pt, (e.runReduceBatch fs b).1.Points = [pt] ∧
      (∀ k, GoMap.lookup pt.Fields k
        = if k ∈ e.e.AsList then some e.e.InitialValue else none) ∧
      (∀ k, k ∈ GoMap.keys pt.Fields ↔ k ∈ e.e.AsList) ∧
      (GoMap.keys pt.Fields).Nodup ∧
      pt.Tags = [] ∧ pt.Time = Time.zero := by
  have hrun : e.runReduceBatch fs b
      = (⟨b.Group, [⟨Time.zero,
          e.e.AsList.foldl (fun m asName => GoMap.set m asName e.initialValue) [], []⟩]⟩, e) := by
    simp [ReduceNode.runReduceBatch, hempty, reduceLoop, initialResult, hflag]
  rw [hrun]
  refine ⟨rfl, by simp [ReduceNode.evalResults, hempty, foldPoints], _, rfl, ?_, ?_, ?_, rfl,
    rfl⟩
  · intro k
    simp only [GoMap.lookup_foldl_set, hinit]
    rfl
  · intro k
    rw [GoMap.mem_keys_iff]
    simp only [GoMap.lookup_foldl_set]
    by_cases hk : k ∈ e.e.AsList
    · simp [hk]
    · simp [hk, GoMap.lookup]
  · exact GoMap.keys_foldl_set_nodup _ _ _ (by simp [GoMap.keys])

/-- C13, at a concrete input: the node `exRename` (As `y`, initial value 0) on an empty
batch. -/
theorem C13_default_point_witness :
    (exRename.runReduceBatch fillScope ⟨"host=a", []⟩).2 = exRename ∧
    exRename.evalResults fillScope ⟨"host=a", []⟩ = [] ∧
    ∃ pt, (exRename.runReduceBatch fillScope ⟨"host=a", []⟩).1.Points = [pt] ∧
      (∀ k, GoMap.lookup pt.Fields k
        = if k ∈ exRename.e.AsList then some exRename.e.InitialValue else none) ∧
      (∀ k, k ∈ GoMap.keys pt.Fields ↔ k ∈ exRename.e.AsList) ∧
      (GoMap.keys pt.Fields).Nodup ∧
      pt.Tags = [] ∧ pt.Time = Time.zero :=
  C13_default_point fillScope exRename ⟨"host=a", []⟩ rfl rfl rfl

/-- C14: processing a batch evaluates each of its points once (one result per point) and
increments the error counter by exactly the number of evaluations that return an error,
which is the number of points dropped from the batch: by nothing when every evaluation
succeeds; the counter never decreases, and eval itself never changes it. -/
theorem C14_error_counting {σ : Type} (fs : FillScope) (e : ReduceNode σ) (b : Batch) :
    (e.evalResults fs b).length = b.Points.length ∧
    (e.runReduceBatch fs b).2.errorCount
      = e.errorCount + (e.evalResults fs b).countP isError ∧
    (e.keptPoints fs b).length + (e.evalResults fs b).countP isError = b.Points.length ∧
    ((∀ r ∈ e.evalResults fs b, isError r = false) →
      (e.runReduceBatch fs b).2.errorCount = e.errorCount) ∧
    e.errorCount ≤ (e.runReduceBatch fs b).2.errorCount ∧
    (∀ now group fields tags previousFields previousTags,
      (e.eval fs now group fields tags previousFields previousTags).2.errorCount
        = e.errorCount) := by
  have hcount : (e.runReduceBatch fs b).2.errorCount
      = e.errorCount + (e.evalResults fs b).countP isError := by
    rw [runReduceBatch_eq_foldPoints]
    exact foldPoints_errorCount fs b.Group e (initialResult e b.Points) b.Points
  have hkept := reduceLoop_conserve fs b.Group b.Points.length
    ⟨e, 0, b.Points, initialResult e b.Points⟩
  have hkept2 : (e.keptPoints fs b).length + (e.runReduceBatch fs b).2.errorCount
      = b.Points.length + e.errorCount := hkept
  refine ⟨foldPoints_length fs b.Group e (initialResult e b.Points) b.Points, hcount, ?_, ?_,
    ?_, ?_⟩
  · omega
  · intro hall
    rw [hcount, List.countP_eq_zero.mpr]
    · rfl
    · intro r hr
      rw [hall r hr]
      decide
  · omega
  · intro now group fields tags previousFields previousTags
    exact ReduceNode.eval_errorCount fs e now group fields tags previousFields previousTags

/-- C14, at a concrete input: the batch x = 1, x = "n/a", x = 5 on the running sum; one
evaluation of three fails and the counter goes from 0 to 1. -/
theorem C14_error_counting_witness :
    (exReduce.evalResults fillScope ⟨"host=a", [exPoint1, exPointBad, exPoint3]⟩).length = 3 ∧
    (exReduce.runReduceBatch fillScope
      ⟨"host=a", [exPoint1, exPointBad, exPoint3]⟩).2.errorCount = 0 + 1 ∧
    (exReduce.runReduceBatch fillScope ⟨"host=a", [exPoint1, exPoint3]⟩).2.errorCount = 0 :=
  ⟨(C14_error_counting fillScope exReduce ⟨"host=a", [exPoint1, exPointBad, exPoint3]⟩).1,
    (C14_error_counting fillScope exReduce
      ⟨"host=a", [exPoint1, exPointBad, exPoint3]⟩).2.1.trans (by decide),
    (C14_error_counting fillScope exReduce ⟨"host=a", [exPoint1, exPoint3]⟩).2.2.2.1
      (by decide)⟩

/-- C15, at the failing input: the batch x = 1, x = 5, x = "n/a" on the running sum. The first
two evaluations succeed and accumulate total = 6, which is what the batch x = 1, x = 5 alone
sends downstream; the third evaluation fails, and the single point sent downstream has no
fields and no tags (with the time of the failed point, 4s), not the accumulated total = 6. The
results of the failed evaluation are assigned to previousResult before err is tested: the
defect of C1. -/
theorem C15_failed_last_point_empties_output :
    newReduceNode exReduceConfig = Except.ok exReduce ∧
    (exReduce.runReduceBatch fillScope ⟨"host=a", [exPoint1, exPoint3]⟩).1
      = ⟨"host=a", [⟨⟨3000000000⟩, [("total", Value.int 6)], [("host", "a")]⟩]⟩ ∧
    (exReduce.evalResults fillScope ⟨"host=a", [exPoint1, exPoint3, exPointBadLast]⟩).map
      isError = [false, false, true] ∧
    (exReduce.evalResults fillScope ⟨"host=a", [exPoint1, exPoint3, exPointBadLast]⟩).take 2
      = [Except.ok ([("total", Value.int 1)], [("host", "a")]),
          Except.ok ([("total", Value.int 6)], [("host", "a")])] ∧
    (exReduce.runReduceBatch fillScope ⟨"host=a", [exPoint1, exPoint3, exPointBadLast]⟩).1
      = ⟨"host=a", [⟨⟨4000000000⟩, [], []⟩]⟩ ∧
    (exReduce.runReduceBatch fillScope
      ⟨"host=a", [exPoint1, exPoint3, exPointBadLast]⟩).2.errorCount = 1 := by
  refine ⟨rfl, ?_, ?_, rfl, ?_, ?_⟩ <;> decide

/-- C16: for every successful eval with KeepFlag unset, the returned fields have as keys
exactly the AsList names that are not in TagsList, each bound to the value held in the scope
under that name after all expressions ran; no other field of the point survives. -/
theorem C16_eval_without_keep {σ : Type} (fs : FillScope) (e : ReduceNode σ) (now : Time)
    (group : String) (fields : Fields) (tags : Tags) (previousFields : Fields)
    (previousTags : Tags) (newFields : Fields) (newTags : Tags)
    (hkeep : e.e.KeepFlag = false) (htags : e.tags = e.e.TagsList.dedup)
    (hok : (e.eval fs now group fields tags previousFields previousTags).1
      = Except.ok (newFields, newTags)) :
    ∃ vars1,
      (e.runExpressions fs now group fields tags previousFields previousTags).1
        = Except.ok vars1 ∧
      (∀ k, k ∈ GoMap.keys newFields ↔ k ∈ e.e.AsList ∧ k ∉ e.e.TagsList) ∧
      (∀ k, k ∈ e.e.AsList → k ∉ e.e.TagsList →
        GoMap.lookup vars1 k ≠ none ∧ GoMap.lookup newFields k = GoMap.lookup vars1 k) ∧
      (∀ k, ¬ (k ∈ e.e.AsList ∧ k ∉ e.e.TagsList) → GoMap.lookup newFields k = none) := by
  obtain ⟨vars1, hx, hout⟩ :=
    ReduceNode.eval_ok fs e now group fields tags previousFields previousTags _ _ hok
  have hf := (ReduceNode.outputs_ok e vars1 fields tags _ _ hout).2
  simp only [hkeep, Bool.false_eq_true, if_false] at hf
  obtain ⟨h1, h2⟩ := asListFields_ok vars1 e.tags e.e.AsList [] newFields hf
  have hmem : ∀ k, k ∈ e.tags ↔ k ∈ e.e.TagsList := by
    intro k
    rw [htags, List.mem_dedup]
  refine ⟨vars1, hx, ?_, ?_, ?_⟩
  · intro k
    rw [asListFields_keys vars1 e.tags e.e.AsList [] newFields hf k, hmem]
    simp [GoMap.keys]
  · intro k hk hnt
    have hnt' : k ∉ e.tags := fun h => hnt ((hmem k).mp h)
    refine ⟨h2 k hk hnt', ?_⟩
    rw [h1 k]
    simp [hk, hnt']
  · intro k hk
    rw [h1 k]
    have : ¬ (k ∈ e.e.AsList ∧ k ∉ e.tags) := by
      rw [hmem]
      exact hk
    simp [this, GoMap.lookup]

/-- C16, at the input of the spec: one lambda `"x"` with As = `y` over a point with x = 5
yields exactly the fields y = 5; the original `x` is dropped. -/
theorem C16_eval_without_keep_witness :
    (exRename.eval fillScope ⟨1000000000⟩ "host=a" [("x", Value.int 5)] [("host", "a")] []
      []).1 = Except.ok ([("y", Value.int 5)], [("host", "a")]) ∧
    ∃ vars1,
      (exRename.runExpressions fillScope ⟨1000000000⟩ "host=a" [("x", Value.int 5)]
        [("host", "a")] [] []).1 = Except.ok vars1 ∧
      (∀ k, k ∈ GoMap.keys ([("y", Value.int 5)] : Fields)
        ↔ k ∈ exRename.e.AsList ∧ k ∉ exRename.e.TagsList) ∧
      (∀ k, k ∈ exRename.e.AsList → k ∉ exRename.e.TagsList →
        GoMap.lookup vars1 k ≠ none ∧
          GoMap.lookup ([("y", Value.int 5)] : Fields) k = GoMap.lookup vars1 k) ∧
      (∀ k, ¬ (k ∈ exRename.e.AsList ∧ k ∉ exRename.e.TagsList) →
        GoMap.lookup ([("y", Value.int 5)] : Fields) k = none) :=
  ⟨rfl,
    C16_eval_without_keep fillScope exRename ⟨1000000000⟩ "host=a" [("x", Value.int 5)]
      [("host", "a")] [] [] [("y", Value.int 5)] [("host", "a")] (by decide) (by decide)
      rfl⟩

/-- C17: for every successful eval with KeepFlag set and an empty KeepList, the returned fields
are the point's fields overridden by the As results: the keys are the keys of the point's
fields and the AsList names (tag names included), a name of AsList is bound to its value in the
scope after all expressions ran, every other key to the point's value. With the maps held by
address, the returned fields are a new map, and the point's own fields map (like every map
that existed before) holds what it held. -/
theorem C17_eval_keep_all {σ : Type} (fs : FillScope) (e : ReduceNode σ) (now : Time)
    (group : String) (fields : Fields) (tags : Tags) (previousFields : Fields)
    (previousTags : Tags) (newFields : Fields) (newTags : Tags)
    (hkeep : e.e.KeepFlag = true) (hlist : e.e.KeepList = [])
    (hok : (e.eval fs now group fields tags previousFields previousTags).1
      = Except.ok (newFields, newTags)) :
    ∃ vars1,
      (e.runExpressions fs now group fields tags previousFields previousTags).1
        = Except.ok vars1 ∧
      (∀ k, k ∈ GoMap.keys newFields ↔ k ∈ GoMap.keys fields ∨ k ∈ e.e.AsList) ∧
      (∀ k, k ∈ e.e.AsList →
        GoMap.lookup vars1 k ≠ none ∧ GoMap.lookup newFields k = GoMap.lookup vars1 k) ∧
      (∀ k, k ∉ e.e.AsList → GoMap.lookup newFields k = GoMap.lookup fields k) ∧
      (∀ (hf : MapHeap Value) (ht : MapHeap String) (fieldsAt tagsAt : Nat),
        fieldsAt < hf.cells.length → hf.read fieldsAt = fields → ht.read tagsAt = tags →
        (GoMap.keys fields).Nodup →
        ∃ rf rt, (e.outputsOnHeap vars1 hf ht fieldsAt tagsAt).1 = Except.ok (rf, rt) ∧
          (e.outputsOnHeap vars1 hf ht fieldsAt tagsAt).2.1.read rf = newFields ∧
          rf ≠ fieldsAt ∧
          (e.outputsOnHeap vars1 hf ht fieldsAt tagsAt).2.1.read fieldsAt = fields ∧
          ∀ r, r < hf.cells.length →
            (e.outputsOnHeap vars1 hf ht fieldsAt tagsAt).2.1.read r = hf.read r) := by
  obtain ⟨vars1, hx, hout⟩ :=
    ReduceNode.eval_ok fs e now group fields tags previousFields previousTags _ _ hok
  have hf := (ReduceNode.outputs_ok e vars1 fields tags _ _ hout).2
  simp only [hkeep, if_true, hlist, List.length_nil, ne_eq, not_true_eq_false, if_false] at hf
  obtain ⟨h1, h2⟩ := asListFields_ok vars1 [] e.e.AsList fields newFields hf
  refine ⟨vars1, hx, ?_, ?_, ?_, ?_⟩
  · intro k
    rw [asListFields_keys vars1 [] e.e.AsList fields newFields hf k]
    simp only [List.not_mem_nil, not_false_eq_true, and_true]
    exact Or.comm
  · intro k hk
    refine ⟨h2 k hk (List.not_mem_nil k), ?_⟩
    rw [h1 k]
    simp [hk]
  · intro k hk
    rw [h1 k]
    simp [hk]
  · intro hf' ht' fieldsAt tagsAt hfa hfr htr hnd
    rw [← hfr, ← htr] at hout
    rw [← hfr] at hnd
    obtain ⟨rf, rt, hr, hrf, _⟩ :=
      ReduceNode.outputsOnHeap_of_outputs e vars1 hf' ht' fieldsAt tagsAt _ _ hfa hnd hout
    have hfresh := (ReduceNode.outputsOnHeap_fresh e vars1 hf' ht' fieldsAt tagsAt rf rt hr).1
    have hframe := (ReduceNode.outputsOnHeap_frame e vars1 hf' ht' fieldsAt tagsAt).1
    refine ⟨rf, rt, hr, hrf, by omega, ?_, hframe⟩
    rw [hframe fieldsAt hfa, hfr]

/-- C17, at a concrete input: `"x"` as `y` with KeepFlag set over a point with x = 5 and
load = 2 yields x = 5, load = 2, y = 5. -/
theorem C17_eval_keep_all_witness :
    (exKeepAll.eval fillScope ⟨1000000000⟩ "host=a"
      [("x", Value.int 5), ("load", Value.int 2)] [("host", "a")] [] []).1
      = Except.ok ([("x", Value.int 5), ("load", Value.int 2), ("y", Value.int 5)],
          [("host", "a")]) ∧
    ∃ vars1,
      (exKeepAll.runExpressions fillScope ⟨1000000000⟩ "host=a"
        [("x", Value.int 5), ("load", Value.int 2)] [("host", "a")] [] []).1
        = Except.ok vars1 ∧
      (∀ k, k ∈ GoMap.keys
          ([("x", Value.int 5), ("load", Value.int 2), ("y", Value.int 5)] : Fields)
        ↔ k ∈ GoMap.keys ([("x", Value.int 5), ("load", Value.int 2)] : Fields)
          ∨ k ∈ exKeepAll.e.AsList) ∧
      (∀ k, k ∈ exKeepAll.e.AsList →
        GoMap.lookup vars1 k ≠ none ∧
          GoMap.lookup
            ([("x", Value.int 5), ("load", Value.int 2), ("y", Value.int 5)] : Fields) k
            = GoMap.lookup vars1 k) ∧
      (∀ k, k ∉ exKeepAll.e.AsList →
        GoMap.lookup ([("x", Value.int 5), ("load", Value.int 2), ("y", Value.int 5)] : Fields) k
          = GoMap.lookup ([("x", Value.int 5), ("load", Value.int 2)] : Fields) k) ∧
      (∀ (hf : MapHeap Value) (ht : MapHeap String) (fieldsAt tagsAt : Nat),
        fieldsAt < hf.cells.length →
        hf.read fieldsAt = [("x", Value.int 5), ("load", Value.int 2)] →
        ht.read tagsAt = [("host", "a")] →
        (GoMap.keys ([("x", Value.int 5), ("load", Value.int 2)] : Fields)).Nodup →
        ∃ rf rt, (exKeepAll.outputsOnHeap vars1 hf ht fieldsAt tagsAt).1 = Except.ok (rf, rt) ∧
          (exKeepAll.outputsOnHeap vars1 hf ht fieldsAt tagsAt).2.1.read rf
            = [("x", Value.int 5), ("load", Value.int 2), ("y", Value.int 5)] ∧
          rf ≠ fieldsAt ∧
          (exKeepAll.outputsOnHeap vars1 hf ht fieldsAt tagsAt).2.1.read fieldsAt
            = [("x", Value.int 5), ("load", Value.int 2)] ∧
          ∀ r, r < hf.cells.length →
            (exKeepAll.outputsOnHeap vars1 hf ht fieldsAt tagsAt).2.1.read r = hf.read r) :=
  ⟨rfl,
    C17_eval_keep_all fillScope exKeepAll ⟨1000000000⟩ "host=a"
      [("x", Value.int 5), ("load", Value.int 2)] [("host", "a")] [] []
      [("x", Value.int 5), ("load", Value.int 2), ("y", Value.int 5)] [("host", "a")]
      (by decide) (by decide) rfl⟩

/-- C18: with KeepFlag set and a non-empty KeepList, given that all expressions evaluate (to
the scope vars1) and that the tag outputs are valid (they give newTags), eval fails with the
error 'cannot keep field ..., field does not exist' if and only if some KeepList name is
neither bound in the scope nor a key of the point's fields; otherwise it returns fields whose
keys are exactly the KeepList names, each bound to the scope value when the scope has the name
and to the point's field value otherwise. -/
theorem C18_eval_keep_list {σ : Type} (fs : FillScope) (e : ReduceNode σ) (now : Time)
    (group : String) (fields : Fields) (tags : Tags) (previousFields : Fields)
    (previousTags : Tags) (vars1 : Scope) (newTags : Tags)
    (hkeep : e.e.KeepFlag = true) (hlist : e.e.KeepList ≠ [])
    (hx : (e.runExpressions fs now group fields tags previousFields previousTags).1
      = Except.ok vars1)
    (htag : (if e.tags.length > 0 then tagOutputs vars1 e.tags tags else Except.ok tags)
      = Except.ok newTags) :
    ((∃ f, (e.eval fs now group fields tags previousFields previousTags).1
        = Except.error ("cannot keep field \"" ++ f ++ "\", field does not exist")) ↔
      ∃ f, f ∈ e.e.KeepList ∧ Scope.Has vars1 f = false ∧ GoMap.lookup fields f = none) ∧
    ((¬ ∃ f, f ∈ e.e.KeepList ∧ Scope.Has vars1 f = false ∧ GoMap.lookup fields f = none) →
      ∃ newFields, (e.eval fs now group fields tags previousFields previousTags).1
          = Except.ok (newFields, newTags) ∧
        (∀ k, k ∈ GoMap.keys newFields ↔ k ∈ e.e.KeepList) ∧
        (∀ k, k ∈ e.e.KeepList →
          GoMap.lookup newFields k
            = if Scope.Has vars1 k = true then GoMap.lookup vars1 k
              else GoMap.lookup fields k)) := by
  have hlen : e.e.KeepList.length ≠ 0 := fun h => hlist (List.length_eq_zero.mp h)
  have hfield : (if e.e.KeepFlag = true then
          if e.e.KeepList.length ≠ 0 then keepListFields vars1 fields e.e.KeepList []
          else asListFields vars1 [] e.e.AsList fields
        else asListFields vars1 e.tags e.e.AsList [])
      = keepListFields vars1 fields e.e.KeepList [] := by
    simp only [hkeep, if_true, hlen, ne_eq, not_false_eq_true]
  have heval := ReduceNode.eval_of_scope fs e now group fields tags previousFields
    previousTags vars1 hx
  obtain ⟨k1, k2⟩ := keepListFields_error vars1 fields e.e.KeepList []
  constructor
  · constructor
    · rintro ⟨f, hf⟩
      cases hk : keepListFields vars1 fields e.e.KeepList [] with
      | error err =>
        obtain ⟨g, hg1, hg2, hg3, _⟩ := k1 err hk
        exact ⟨g, hg1, hg2, hg3⟩
      | ok m =>
        rw [heval, ReduceNode.outputs_of_ok e vars1 fields tags m newTags htag
          (hfield.trans hk)] at hf
        simp at hf
    · intro hmiss
      obtain ⟨err, herr⟩ := k2 hmiss
      obtain ⟨g, _, _, _, hmsg⟩ := k1 err herr
      refine ⟨g, ?_⟩
      rw [heval, ReduceNode.outputs_field_error e vars1 fields tags newTags err htag
        (hfield.trans herr), hmsg]
  · intro hnone
    cases hk : keepListFields vars1 fields e.e.KeepList [] with
    | error err =>
      obtain ⟨g, hg1, hg2, hg3, _⟩ := k1 err hk
      exact absurd ⟨g, hg1, hg2, hg3⟩ hnone
    | ok m =>
      obtain ⟨h1, h2⟩ := keepListFields_ok vars1 fields e.e.KeepList [] m hk
      refine ⟨m, ?_, ?_, ?_⟩
      · rw [heval]
        exact ReduceNode.outputs_of_ok e vars1 fields tags m newTags htag (hfield.trans hk)
      · intro k
        rw [GoMap.mem_keys_iff, h1 k]
        by_cases hkl : k ∈ e.e.KeepList
        · simp only [hkl, if_true, iff_true]
          rcases h2 k hkl with hh | hh
          · simp only [hh, if_true]
            exact (Scope.Has_iff vars1 k).mp hh
          · by_cases hh2 : Scope.Has vars1 k = true
            · simp only [hh2, if_true]
              exact (Scope.Has_iff vars1 k).mp hh2
            · simp only [hh2, if_false]
              exact hh
        · simp [hkl, GoMap.lookup]
      · intro k hkl
        rw [h1 k]
        simp [hkl]

/-- C18, at concrete inputs: `"x"` as `y` with KeepList `y`, `load`. Over a point with x = 5
and load = 2 eval returns y = 5 (from the scope) and load = 2 (from the point); over a point
with x = 5 alone it fails, `load` being neither in scope nor a field. -/
theorem C18_eval_keep_list_witness :
    (∃ newFields, (exKeepSome.eval fillScope ⟨1000000000⟩ "host=a"
        [("x", Value.int 5), ("load", Value.int 2)] [("host", "a")] [] []).1
          = Except.ok (newFields, [("host", "a")]) ∧
        (∀ k, k ∈ GoMap.keys newFields ↔ k ∈ exKeepSome.e.KeepList) ∧
        (∀ k, k ∈ exKeepSome.e.KeepList →
          GoMap.lookup newFields k
            = if Scope.Has [("x", Value.int 5), ("y", Value.int 5)] k = true then
                GoMap.lookup ([("x", Value.int 5), ("y", Value.int 5)] : Scope) k
              else GoMap.lookup ([("x", Value.int 5), ("load", Value.int 2)] : Fields) k)) ∧
    ∃ f, (exKeepSome.eval fillScope ⟨1000000000⟩ "host=a" [("x", Value.int 5)]
      [("host", "a")] [] []).1
        = Except.error ("cannot keep field \"" ++ f ++ "\", field does not exist") :=
  ⟨(C18_eval_keep_list fillScope exKeepSome ⟨1000000000⟩ "host=a"
      [("x", Value.int 5), ("load", Value.int 2)] [("host", "a")] [] []
      [("x", Value.int 5), ("y", Value.int 5)] [("host", "a")] (by decide) (by decide) rfl
      rfl).2 (by decide),
    (C18_eval_keep_list fillScope exKeepSome ⟨1000000000⟩ "host=a" [("x", Value.int 5)]
      [("host", "a")] [] [] [("x", Value.int 5), ("y", Value.int 5)] [("host", "a")]
      (by decide) (by decide) rfl rfl).1.mpr ⟨"load", by decide⟩⟩

/-- C19: whenever, after the expressions ran, some TagsList name is not bound to a string in
the scope, eval returns an error (and neither fields nor tags); on success every TagsList name
is bound to a string in the scope and the returned tags bind it to that string, every other
tag is as in the point's tags, and without TagsList the returned tags are the point's tags.
With the maps held by address, the returned tags are a new map when there are tag names and
the point's own map otherwise, and the point's own tag map (like every map that existed
before) holds what it held. -/
theorem C19_tag_outputs {σ : Type} (fs : FillScope) (e : ReduceNode σ) (now : Time)
    (group : String) (fields : Fields) (tags : Tags) (previousFields : Fields)
    (previousTags : Tags) (htags : e.tags = e.e.TagsList.dedup) :
    (∀ vars1,
      (e.runExpressions fs now group fields tags previousFields previousTags).1
        = Except.ok vars1 →
      (∃ k, k ∈ e.e.TagsList ∧ ¬ ∃ s, GoMap.lookup vars1 k = some (Value.str s)) →
      ∃ err, (e.eval fs now group fields tags previousFields previousTags).1
        = Except.error err) ∧
    (∀ newFields newTags,
      (e.eval fs now group fields tags previousFields previousTags).1
        = Except.ok (newFields, newTags) →
      ∃ vars1,
        (e.runExpressions fs now group fields tags previousFields previousTags).1
          = Except.ok vars1 ∧
        (∀ k, k ∈ e.e.TagsList →
          ∃ s, GoMap.lookup vars1 k = some (Value.str s) ∧ GoMap.lookup newTags k = some s) ∧
        (∀ k, k ∉ e.e.TagsList → GoMap.lookup newTags k = GoMap.lookup tags k) ∧
        (e.e.TagsList = [] → newTags = tags) ∧
        (∀ (hf : MapHeap Value) (ht : MapHeap String) (fieldsAt tagsAt : Nat),
          fieldsAt < hf.cells.length → tagsAt < ht.cells.length →
          hf.read fieldsAt = fields → ht.read tagsAt = tags → (GoMap.keys fields).Nodup →
          ∃ rf rt, (e.outputsOnHeap vars1 hf ht fieldsAt tagsAt).1 = Except.ok (rf, rt) ∧
            (e.outputsOnHeap vars1 hf ht fieldsAt tagsAt).2.2.read rt = newTags ∧
            (e.e.TagsList ≠ [] → rt ≠ tagsAt) ∧
            (e.e.TagsList = [] → rt = tagsAt) ∧
            (e.outputsOnHeap vars1 hf ht fieldsAt tagsAt).2.2.read tagsAt = tags ∧
            ∀ r, r < ht.cells.length →
              (e.outputsOnHeap vars1 hf ht fieldsAt tagsAt).2.2.read r = ht.read r)) := by
  have hmem : ∀ k, k ∈ e.tags ↔ k ∈ e.e.TagsList := by
    intro k
    rw [htags, List.mem_dedup]
  have hnil : e.tags = [] ↔ e.e.TagsList = [] := by
    constructor
    · intro h
      apply List.eq_nil_iff_forall_not_mem.mpr
      intro k hk
      have := (hmem k).mpr hk
      rw [h] at this
      exact absurd this (List.not_mem_nil k)
    · intro h
      apply List.eq_nil_iff_forall_not_mem.mpr
      intro k hk
      have := (hmem k).mp hk
      rw [h] at this
      exact absurd this (List.not_mem_nil k)
  constructor
  · intro vars1 hx hbad
    obtain ⟨k, hk, hns⟩ := hbad
    have hk' : k ∈ e.tags := (hmem k).mpr hk
    have hpos : e.tags.length > 0 := List.length_pos.mpr (List.ne_nil_of_mem hk')
    obtain ⟨err, herr⟩ := tagOutputs_error vars1 e.tags tags ⟨k, hk', hns⟩
    refine ⟨err, ?_⟩
    rw [ReduceNode.eval_of_scope fs e now group fields tags previousFields previousTags vars1
      hx]
    apply ReduceNode.outputs_tag_error
    simp only [hpos, if_true]
    exact herr
  · intro newFields newTags hok
    obtain ⟨vars1, hx, hout⟩ :=
      ReduceNode.eval_ok fs e now group fields tags previousFields previousTags _ _ hok
    have ht := (ReduceNode.outputs_ok e vars1 fields tags _ _ hout).1
    have hempty : e.e.TagsList = [] → newTags = tags := by
      intro h
      have h0 : e.tags = [] := hnil.mpr h
      simp only [h0, List.length_nil, gt_iff_lt, lt_self_iff_false, if_false,
        Except.ok.injEq] at ht
      exact ht.symm
    refine ⟨vars1, hx, ?_, ?_, hempty, ?_⟩
    · intro k hk
      have hk' : k ∈ e.tags := (hmem k).mpr hk
      have hpos : e.tags.length > 0 := List.length_pos.mpr (List.ne_nil_of_mem hk')
      simp only [hpos, if_true] at ht
      exact (tagOutputs_ok vars1 e.tags tags newTags ht).1 k hk'
    · intro k hk
      have hk' : k ∉ e.tags := fun h => hk ((hmem k).mp h)
      by_cases hpos : e.tags.length > 0
      · simp only [hpos, if_true] at ht
        exact (tagOutputs_ok vars1 e.tags tags newTags ht).2 k hk'
      · simp only [hpos, if_false, Except.ok.injEq] at ht
        rw [ht]
    · intro hf' ht' fieldsAt tagsAt hfa hta hfr htr hnd
      rw [← hfr, ← htr] at hout
      rw [← hfr] at hnd
      obtain ⟨rf, rt, hr, _, hrt⟩ :=
        ReduceNode.outputsOnHeap_of_outputs e vars1 hf' ht' fieldsAt tagsAt _ _ hfa hnd hout
      have hfresh := (ReduceNode.outputsOnHeap_fresh e vars1 hf' ht' fieldsAt tagsAt rf rt hr).2
      have hframe := (ReduceNode.outputsOnHeap_frame e vars1 hf' ht' fieldsAt tagsAt).2
      refine ⟨rf, rt, hr, hrt, ?_, ?_, ?_, hframe⟩
      · intro hne
        have := hfresh (fun h => hne (hnil.mp h))
        omega
      · intro h
        exact (ReduceNode.outputsOnHeap_no_tags e vars1 hf' ht' fieldsAt tagsAt rf rt
          (hnil.mpr h) hr).1
      · rw [hframe tagsAt hta, htr]

/-- C19, at concrete inputs: `"x"` as the tag `y`. Over a point with x = "db1" eval returns
the tags host = a, y = db1; over a point with x = 5 (not a string) it returns an error. -/
theorem C19_tag_outputs_witness :
    (exTagged.eval fillScope ⟨1000000000⟩ "host=a" [("x", Value.str "db1")] [("host", "a")] []
      []).1 = Except.ok ([], [("host", "a"), ("y", "db1")]) ∧
    (∃ err, (exTagged.eval fillScope ⟨1000000000⟩ "host=a" [("x", Value.int 5)]
      [("host", "a")] [] []).1 = Except.error err) ∧
    ∃ vars1,
      (exTagged.runExpressions fillScope ⟨1000000000⟩ "host=a" [("x", Value.str "db1")]
        [("host", "a")] [] []).1 = Except.ok vars1 ∧
      ∀ k, k ∈ exTagged.e.TagsList →
        ∃ s, GoMap.lookup vars1 k = some (Value.str s) ∧
          GoMap.lookup ([("host", "a"), ("y", "db1")] : Tags) k = some s :=
  ⟨rfl,
    (C19_tag_outputs fillScope exTagged ⟨1000000000⟩ "host=a" [("x", Value.int 5)]
      [("host", "a")] [] [] (by decide)).1 [("x", Value.int 5), ("y", Value.int 5)] rfl
      ⟨"y", by decide, fun ⟨s, hs⟩ => by simp [GoMap.lookup] at hs⟩,
    match (C19_tag_outputs fillScope exTagged ⟨1000000000⟩ "host=a" [("x", Value.str "db1")]
      [("host", "a")] [] [] (by decide)).2 [] [("host", "a"), ("y", "db1")] rfl with
    | ⟨vars1, h1, h2, _⟩ => ⟨vars1, h1, h2⟩⟩

/-- C20: on a node whose table of groups starts empty, after every sequence of eval calls
(sequential run) the size of the table is the number of distinct groups evaluated so far and
its keys are these groups. For a further call c: if its group was not evaluated before, eval
uses one CopyReset copy of each configured expression, in order; otherwise it uses the entry
of the table. After the call (whether or not the evaluation failed) the entry of the group
holds these instances, in the states the call left them in, and they are instances of the
configured expressions, one each, in order; the entries of the other groups are as they were;
the entry stays the same through every later call for another group; and no key of the table
is ever removed by later calls. -/
theorem C20_group_state {σ : Type} (fs : FillScope) (e0 : ReduceNode σ)
    (hfresh : e0.expressionsByGroup = []) (calls : List EvalCall) (c : EvalCall) :
    (e0.afterEvals fs calls).expressionsByGroup.length
      = (calls.map EvalCall.group).toFinset.card ∧
    (∀ g, g ∈ GoMap.keys (e0.afterEvals fs calls).expressionsByGroup
      ↔ g ∈ calls.map EvalCall.group) ∧
    (c.group ∉ calls.map EvalCall.group →
      (e0.afterEvals fs calls).groupExpressions c.group
        = e0.expressions.map Expression.CopyReset) ∧
    (∀ xs, GoMap.lookup (e0.afterEvals fs calls).expressionsByGroup c.group = some xs →
      (e0.afterEvals fs calls).groupExpressions c.group = xs) ∧
    GoMap.lookup ((e0.afterEvals fs calls).afterEval fs c).expressionsByGroup c.group
      = some ((e0.afterEvals fs calls).runExpressions fs c.now c.group c.fields c.tags
          c.previousFields c.previousTags).2 ∧
    List.Forall₂ Expression.sameInstance e0.expressions
      ((e0.afterEvals fs calls).runExpressions fs c.now c.group c.fields c.tags
        c.previousFields c.previousTags).2 ∧
    (∀ g, g ≠ c.group →
      GoMap.lookup ((e0.afterEvals fs calls).afterEval fs c).expressionsByGroup g
        = GoMap.lookup (e0.afterEvals fs calls).expressionsByGroup g) ∧
    (∀ later : List EvalCall, (∀ c', c' ∈ later → c'.group ≠ c.group) →
      GoMap.lookup
          (((e0.afterEvals fs calls).afterEval fs c).afterEvals fs later).expressionsByGroup
          c.group
        = some ((e0.afterEvals fs calls).runExpressions fs c.now c.group c.fields c.tags
            c.previousFields c.previousTags).2) ∧
    (∀ (later : List EvalCall) (g : String),
      g ∈ GoMap.keys (e0.afterEvals fs calls).expressionsByGroup →
      g ∈ GoMap.keys (e0.afterEvals fs (calls ++ later)).expressionsByGroup) := by
  have hnd0 : (GoMap.keys e0.expressionsByGroup).Nodup := by
    rw [hfresh]
    exact List.nodup_nil
  obtain ⟨hnd, hkeys⟩ := ReduceNode.afterEvals_keys fs e0 calls hnd0
  have hkeys' : ∀ g, g ∈ GoMap.keys (e0.afterEvals fs calls).expressionsByGroup
      ↔ g ∈ calls.map EvalCall.group := by
    intro g
    rw [hkeys g, hfresh]
    simp [GoMap.keys]
  have hinst0 : ∀ g xs, GoMap.lookup e0.expressionsByGroup g = some xs →
      List.Forall₂ Expression.sameInstance e0.expressions xs := by
    intro g xs h
    rw [hfresh] at h
    simp [GoMap.lookup] at h
  have hinst := ReduceNode.afterEvals_instances fs e0 calls hinst0
  have hset : GoMap.lookup ((e0.afterEvals fs calls).afterEval fs c).expressionsByGroup c.group
      = some ((e0.afterEvals fs calls).runExpressions fs c.now c.group c.fields c.tags
          c.previousFields c.previousTags).2 := by
    rw [ReduceNode.afterEval_table, GoMap.lookup_set]
    simp
  refine ⟨?_, hkeys', ?_, ?_, hset, ?_, ?_, ?_, ?_⟩
  · have hlen : (e0.afterEvals fs calls).expressionsByGroup.length
        = (GoMap.keys (e0.afterEvals fs calls).expressionsByGroup).length := by
      simp [GoMap.keys]
    rw [hlen, ← List.toFinset_card_of_nodup hnd]
    congr 1
    ext g
    simp only [List.mem_toFinset]
    exact hkeys' g
  · intro hnew
    have hnone : GoMap.lookup (e0.afterEvals fs calls).expressionsByGroup c.group = none := by
      by_contra hne
      exact hnew ((hkeys' c.group).mp ((GoMap.mem_keys_iff _ _).mpr hne))
    unfold ReduceNode.groupExpressions
    rw [hnone, ReduceNode.afterEvals_expressions]
  · intro xs hxs
    unfold ReduceNode.groupExpressions
    rw [hxs]
  · have hstart : List.Forall₂ Expression.sameInstance e0.expressions
        ((e0.afterEvals fs calls).groupExpressions c.group) := by
      unfold ReduceNode.groupExpressions
      cases hq : GoMap.lookup (e0.afterEvals fs calls).expressionsByGroup c.group with
      | none =>
        simp only
        rw [ReduceNode.afterEvals_expressions]
        exact sameInstance_CopyReset _
      | some ys => exact hinst _ _ hq
    exact sameInstance_list_trans hstart (evalExpressions_sameInstance _ _ _ _ _ _ _ _ _)
  · intro g hg
    rw [ReduceNode.afterEval_table, GoMap.lookup_set]
    simp [hg]
  · intro later hlater
    rw [ReduceNode.afterEvals_other_groups fs _ later c.group hlater, hset]
  · intro later g hg
    rw [ReduceNode.afterEvals_append]
    exact ((ReduceNode.afterEvals_keys fs (e0.afterEvals fs calls) later hnd).2 g).mpr
      (Or.inl hg)

/-- C20, at a concrete input: the counter node after a call for group a, a failing call for
group b and another call for group a. The table has two entries; the instance of group a was
evaluated twice, the one of group b once (the failed evaluation), and a later call for group
a leaves the entry of group b as it is. -/
theorem C20_group_state_witness :
    (exCounter.afterEvals fillScope [exCallA, exCallB, exCallA]).expressionsByGroup.length
      = 2 ∧
    (GoMap.lookup (exCounter.afterEvals fillScope
        [exCallA, exCallB, exCallA]).expressionsByGroup "host=a").map
      (List.map Expression.state) = some [2] ∧
    (GoMap.lookup (exCounter.afterEvals fillScope
        [exCallA, exCallB, exCallA]).expressionsByGroup "host=b").map
      (List.map Expression.state) = some [1] ∧
    GoMap.lookup (((exCounter.afterEvals fillScope [exCallA]).afterEval fillScope
        exCallB).afterEvals fillScope [exCallA]).expressionsByGroup exCallB.group
      = some ((exCounter.afterEvals fillScope [exCallA]).runExpressions fillScope exCallB.now
          exCallB.group exCallB.fields exCallB.tags exCallB.previousFields
          exCallB.previousTags).2 :=
  ⟨(C20_group_state fillScope exCounter rfl [exCallA, exCallB, exCallA] exCallA).1.trans
      (by decide),
    by decide, by decide,
    (C20_group_state fillScope exCounter rfl [exCallA] exCallB).2.2.2.2.2.2.2.1 [exCallA]
      (by decide)⟩

/-- C21, as stated, fails: the creation is not double-checked, the insert under the write
lock is not preceded by a second lookup. When two calls of eval for the new group host=a both
look the group up before either inserts, each creates its own set (the sets at the addresses
0 and 1), the second insert replaces the first, and the first call evaluates a set that is
not the one in expressionsByGroup. -/
theorem C21_both_lookups_miss :
    (EvalPair.run exCounter [false, true, false, false, true, true]
        (EvalPair.start [] [] "host=a")).first = EvalThread.atLoop "host=a" false 0 ∧
    (EvalPair.run exCounter [false, true, false, false, true, true]
        (EvalPair.start [] [] "host=a")).second = EvalThread.atLoop "host=a" false 1 ∧
    GoMap.lookup (EvalPair.run exCounter [false, true, false, false, true, true]
        (EvalPair.start [] [] "host=a")).expressionsByGroup "host=a" = some 1 ∧
    (EvalPair.run exCounter [false, true, false, false, true, true]
        (EvalPair.start [] [] "host=a")).sets.length = 2 := by
  refine ⟨by decide, by decide, by decide, by decide⟩

/-- C21, amended: two calls of eval for the same new group, their lookups under the read lock,
their creations and their inserts under the write lock taken in any order. The entries of the
other groups stay as they are. Once both calls have their expressions: if the lookup of one of
them found the group, a single set was created, both calls use it and it is the entry of
expressionsByGroup; if both lookups missed, two sets were created, each call uses its own and
the entry is one of the two. Three steps of each call bring both to that point. When one call
has inserted before the other looks up, as in calls made one after the other, the lookup of
the other finds the set; when both calls look up first, both lookups miss. -/
theorem C21_two_evaluations {σ : Type} (e : ReduceNode σ)
    (sets0 : List (List (Expression σ))) (table0 : GoMap Nat) (group : String)
    (hnew : GoMap.lookup table0 group = none) (schedule : List Bool) :
    (∀ g, g ≠ group →
      GoMap.lookup (EvalPair.run e schedule
        (EvalPair.start sets0 table0 group)).expressionsByGroup g = GoMap.lookup table0 g) ∧
    (∀ g1 ok1 a g2 ok2 b,
      (EvalPair.run e schedule (EvalPair.start sets0 table0 group)).first
        = EvalThread.atLoop g1 ok1 a →
      (EvalPair.run e schedule (EvalPair.start sets0 table0 group)).second
        = EvalThread.atLoop g2 ok2 b →
      g1 = group ∧ g2 = group ∧
      ((ok1 = true ∨ ok2 = true) →
        a = b ∧ a = sets0.length ∧
        (EvalPair.run e schedule (EvalPair.start sets0 table0 group)).sets
          = sets0 ++ [e.expressions.map Expression.CopyReset] ∧
        GoMap.lookup (EvalPair.run e schedule
          (EvalPair.start sets0 table0 group)).expressionsByGroup group = some a) ∧
      ((ok1 = false ∧ ok2 = false) →
        a ≠ b ∧
        (EvalPair.run e schedule (EvalPair.start sets0 table0 group)).sets
          = sets0 ++ [e.expressions.map Expression.CopyReset,
              e.expressions.map Expression.CopyReset] ∧
        ((a = sets0.length ∧ b = sets0.length + 1) ∨
          (a = sets0.length + 1 ∧ b = sets0.length)) ∧
        (GoMap.lookup (EvalPair.run e schedule
            (EvalPair.start sets0 table0 group)).expressionsByGroup group = some a ∨
          GoMap.lookup (EvalPair.run e schedule
            (EvalPair.start sets0 table0 group)).expressionsByGroup group = some b))) ∧
    (3 ≤ schedule.count false → 3 ≤ schedule.count true →
      ∃ ok1 a ok2 b,
        (EvalPair.run e schedule (EvalPair.start sets0 table0 group)).first
          = EvalThread.atLoop group ok1 a ∧
        (EvalPair.run e schedule (EvalPair.start sets0 table0 group)).second
          = EvalThread.atLoop group ok2 b) ∧
    (EvalPair.run e (false :: false :: false :: true :: schedule)
        (EvalPair.start sets0 table0 group)).first
      = EvalThread.atLoop group false sets0.length ∧
    (EvalPair.run e (false :: false :: false :: true :: schedule)
        (EvalPair.start sets0 table0 group)).second
      = EvalThread.atLoop group true sets0.length ∧
    (EvalPair.run e (true :: true :: true :: false :: schedule)
        (EvalPair.start sets0 table0 group)).first
      = EvalThread.atLoop group true sets0.length ∧
    (EvalPair.run e (true :: true :: true :: false :: schedule)
        (EvalPair.start sets0 table0 group)).second
      = EvalThread.atLoop group false sets0.length ∧
    (EvalPair.run e (false :: true :: schedule)
        (EvalPair.start sets0 table0 group)).first.found = none ∧
    (EvalPair.run e (false :: true :: schedule)
        (EvalPair.start sets0 table0 group)).second.found = none ∧
    (EvalPair.run e (true :: false :: schedule)
        (EvalPair.start sets0 table0 group)).first.found = none ∧
    (EvalPair.run e (true :: false :: schedule)
        (EvalPair.start sets0 table0 group)).second.found = none := by
  have hinv := EvalPair.invariant_run e sets0 table0 group schedule
    (EvalPair.start sets0 table0 group) (EvalPair.invariant_start e sets0 table0 group hnew)
  have hsteps := EvalPair.stepsLeft_run e schedule (EvalPair.start sets0 table0 group)
  have hseq1 : EvalPair.run e [false, false, false, true] (EvalPair.start sets0 table0 group)
      = ⟨sets0 ++ [e.expressions.map Expression.CopyReset],
          GoMap.set table0 group sets0.length,
          EvalThread.atLoop group false sets0.length,
          EvalThread.atLoop group true sets0.length⟩ := by
    simp [EvalPair.run, EvalPair.step, EvalPair.start, EvalThread.step, hnew,
      GoMap.lookup_set]
  have hseq2 : EvalPair.run e [true, true, true, false] (EvalPair.start sets0 table0 group)
      = ⟨sets0 ++ [e.expressions.map Expression.CopyReset],
          GoMap.set table0 group sets0.length,
          EvalThread.atLoop group true sets0.length,
          EvalThread.atLoop group false sets0.length⟩ := by
    simp [EvalPair.run, EvalPair.step, EvalPair.start, EvalThread.step, hnew,
      GoMap.lookup_set]
  have hrace1 : EvalPair.run e [false, true] (EvalPair.start sets0 table0 group)
      = ⟨sets0, table0, EvalThread.atCreate group, EvalThread.atCreate group⟩ := by
    simp [EvalPair.run, EvalPair.step, EvalPair.start, EvalThread.step, hnew]
  have hrace2 : EvalPair.run e [true, false] (EvalPair.start sets0 table0 group)
      = ⟨sets0, table0, EvalThread.atCreate group, EvalThread.atCreate group⟩ := by
    simp [EvalPair.run, EvalPair.step, EvalPair.start, EvalThread.step, hnew]
  have happ := EvalPair.run_append e
  refine ⟨hinv.2.2.1, ?_, ?_, ?_, ?_, ?_, ?_, ?_, ?_, ?_, ?_⟩
  · intro g1 ok1 a g2 ok2 b hfirst hsecond
    obtain ⟨i1, i2, -, i4, i5, i6, i7⟩ := hinv
    rw [hfirst] at i1 i4 i5 i6
    rw [hsecond] at i2 i4 i5 i7
    simp only [EvalThread.group] at i1 i2
    refine ⟨i1, i2, ?_, ?_⟩
    · intro hok
      cases ok1 <;> cases ok2 <;>
        simp_all [EvalThread.created, EvalThread.inserted, EvalThread.found]
    · rintro ⟨rfl, rfl⟩
      simp only [EvalThread.created, EvalThread.inserted] at i4 i5
      refine ⟨?_, i4.1, i4.2, i5⟩
      rcases i4.2 with ⟨ha, hb⟩ | ⟨ha, hb⟩ <;> omega
  · intro h1 h2
    obtain ⟨hs1, hs2⟩ := hsteps
    have e1 : (EvalPair.start sets0 table0 group : EvalPair σ).first.stepsLeft = 3 := rfl
    have e2 : (EvalPair.start sets0 table0 group : EvalPair σ).second.stepsLeft = 3 := rfl
    rw [e1] at hs1
    rw [e2] at hs2
    obtain ⟨ok1, a, ha⟩ := EvalThread.stepsLeft_eq_zero _ (by omega :
      (EvalPair.run e schedule (EvalPair.start sets0 table0 group)).first.stepsLeft = 0)
    obtain ⟨ok2, b, hb⟩ := EvalThread.stepsLeft_eq_zero _ (by omega :
      (EvalPair.run e schedule (EvalPair.start sets0 table0 group)).second.stepsLeft = 0)
    rw [hinv.1] at ha
    rw [hinv.2.1] at hb
    exact ⟨ok1, a, ok2, b, ha, hb⟩
  · have h := happ [false, false, false, true] schedule (EvalPair.start sets0 table0 group)
    simp only [List.cons_append, List.nil_append] at h
    rw [h, hseq1, EvalPair.run_atLoop e schedule _ _ _ _ _ _ _ rfl rfl]
  · have h := happ [false, false, false, true] schedule (EvalPair.start sets0 table0 group)
    simp only [List.cons_append, List.nil_append] at h
    rw [h, hseq1, EvalPair.run_atLoop e schedule _ _ _ _ _ _ _ rfl rfl]
  · have h := happ [true, true, true, false] schedule (EvalPair.start sets0 table0 group)
    simp only [List.cons_append, List.nil_append] at h
    rw [h, hseq2, EvalPair.run_atLoop e schedule _ _ _ _ _ _ _ rfl rfl]
  · have h := happ [true, true, true, false] schedule (EvalPair.start sets0 table0 group)
    simp only [List.cons_append, List.nil_append] at h
    rw [h, hseq2, EvalPair.run_atLoop e schedule _ _ _ _ _ _ _ rfl rfl]
  · have h := happ [false, true] schedule (EvalPair.start sets0 table0 group)
    simp only [List.cons_append, List.nil_append] at h
    rw [h, hrace1]
    exact (EvalPair.found_none_run e schedule _).1 (by simp [EvalThread.stepsLeft]) rfl
  · have h := happ [false, true] schedule (EvalPair.start sets0 table0 group)
    simp only [List.cons_append, List.nil_append] at h
    rw [h, hrace1]
    exact (EvalPair.found_none_run e schedule _).2 (by simp [EvalThread.stepsLeft]) rfl
  · have h := happ [true, false] schedule (EvalPair.start sets0 table0 group)
    simp only [List.cons_append, List.nil_append] at h
    rw [h, hrace2]
    exact (EvalPair.found_none_run e schedule _).1 (by simp [EvalThread.stepsLeft]) rfl
  · have h := happ [true, false] schedule (EvalPair.start sets0 table0 group)
    simp only [List.cons_append, List.nil_append] at h
    rw [h, hrace2]
    exact (EvalPair.found_none_run e schedule _).2 (by simp [EvalThread.stepsLeft]) rfl

/-- C21, amended, at a concrete input: two calls for the new group host=a on the counter node,
the second call starting after the first has inserted. One set is created, at the address 0,
and both calls use it. -/
theorem C21_two_evaluations_witness :
    GoMap.lookup ([] : GoMap Nat) "host=a" = none ∧
    (EvalPair.run exCounter [false, false, false, true, true]
        (EvalPair.start [] [] "host=a")).first = EvalThread.atLoop "host=a" false 0 ∧
    (EvalPair.run exCounter [false, false, false, true, true]
        (EvalPair.start [] [] "host=a")).second = EvalThread.atLoop "host=a" true 0 ∧
    GoMap.lookup (EvalPair.run exCounter [false, false, false, true, true]
        (EvalPair.start [] [] "host=a")).expressionsByGroup "host=a" = some 0 :=
  ⟨rfl,
    (C21_two_evaluations exCounter [] [] "host=a" rfl [true]).2.2.2.1,
    (C21_two_evaluations exCounter [] [] "host=a" rfl [true]).2.2.2.2.1,
    ((C21_two_evaluations exCounter [] [] "host=a" rfl [false, false, false, true, true]).2.1
      "host=a" false 0 "host=a" true 0 (by decide) (by decide)).2.2.1 (Or.inr rfl) |>.2.2.2⟩

/-- C22: for every node, every batch of n points and whatever the evaluations return, the loop
of runReduce has evaluated exactly the first k points of the original batch, each once and in
the original order, after k iterations (k up to n); it is still running before the n-th
iteration and has reached its exit condition after it, so that it ends after exactly n
evaluations, one for each point of the batch in order, and further iterations are never
taken. Each iteration makes one evaluation, of the point at the index: a failing point is
removed in place and the index stays, on success the index advances. The node and the
accumulator that the loop ends with are those of the fold over the points of the original
batch in order. The node after an iteration is the node after that one call of eval (with the
error counted and logged when it failed) and the accumulator is what that call returned; the
expression instances of the node are, after the loop, in the states that these n calls leave
them in, one call after the other. -/
theorem C22_loop_termination {σ : Type} (fs : FillScope) (e : ReduceNode σ) (b : Batch) :
    (∀ k, (evalCalls fs b.Group k ⟨e, 0, b.Points, initialResult e b.Points⟩).map EvalCall.point
      = b.Points.take k) ∧
    (evalCalls fs b.Group b.Points.length ⟨e, 0, b.Points, initialResult e b.Points⟩).length
      = b.Points.length ∧
    (evalCalls fs b.Group b.Points.length ⟨e, 0, b.Points, initialResult e b.Points⟩).map
      EvalCall.point = b.Points ∧
    (∀ k, k < b.Points.length →
      (reduceLoop fs b.Group k ⟨e, 0, b.Points, initialResult e b.Points⟩).i
        < (reduceLoop fs b.Group k ⟨e, 0, b.Points, initialResult e b.Points⟩).Points.length) ∧
    ¬ ((reduceLoop fs b.Group b.Points.length ⟨e, 0, b.Points, initialResult e b.Points⟩).i
        < (reduceLoop fs b.Group b.Points.length
            ⟨e, 0, b.Points, initialResult e b.Points⟩).Points.length) ∧
    (∀ extra,
      reduceLoop fs b.Group (b.Points.length + extra) ⟨e, 0, b.Points, initialResult e b.Points⟩
          = reduceLoop fs b.Group b.Points.length ⟨e, 0, b.Points, initialResult e b.Points⟩ ∧
        evalCalls fs b.Group (b.Points.length + extra)
            ⟨e, 0, b.Points, initialResult e b.Points⟩
          = evalCalls fs b.Group b.Points.length ⟨e, 0, b.Points, initialResult e b.Points⟩) ∧
    (e.evalResults fs b).length = b.Points.length ∧
    (∀ s : ReduceLoop σ, s.i < s.Points.length →
      ∃ c, evalCalls fs b.Group 1 s = [c] ∧ c.group = b.Group ∧
        c.point = s.Points.getD s.i ⟨Time.zero, [], []⟩ ∧
        c.previousFields = s.previousResult.Fields ∧
        c.previousTags = s.previousResult.Tags ∧
        (isError (s.e.eval fs c.now c.group c.fields c.tags c.previousFields
            c.previousTags).1 = true →
          (loopBody fs b.Group s).i = s.i ∧
            (loopBody fs b.Group s).Points = s.Points.eraseIdx s.i) ∧
        (isError (s.e.eval fs c.now c.group c.fields c.tags c.previousFields
            c.previousTags).1 = false →
          (loopBody fs b.Group s).i = s.i + 1 ∧ (loopBody fs b.Group s).Points = s.Points)) ∧
    (reduceLoop fs b.Group b.Points.length ⟨e, 0, b.Points, initialResult e b.Points⟩).e
      = (foldPoints fs b.Group e (initialResult e b.Points) b.Points).1 ∧
    (reduceLoop fs b.Group b.Points.length
        ⟨e, 0, b.Points, initialResult e b.Points⟩).previousResult
      = (foldPoints fs b.Group e (initialResult e b.Points) b.Points).2.1 ∧
    (∀ s : ReduceLoop σ, s.i < s.Points.length →
      ∃ c, evalCalls fs b.Group 1 s = [c] ∧
        (∀ f t,
          (s.e.eval fs c.now c.group c.fields c.tags c.previousFields c.previousTags).1
            = Except.ok (f, t) →
          (loopBody fs b.Group s).e = s.e.afterEval fs c ∧
            (loopBody fs b.Group s).previousResult = ⟨c.now, f, t⟩) ∧
        (∀ err,
          (s.e.eval fs c.now c.group c.fields c.tags c.previousFields c.previousTags).1
            = Except.error err →
          (loopBody fs b.Group s).e
              = (if !(s.e.afterEval fs c).incrementErrorCount.e.QuietFlag then
                  (s.e.afterEval fs c).incrementErrorCount.logPrintln err
                else (s.e.afterEval fs c).incrementErrorCount) ∧
            (loopBody fs b.Group s).previousResult = ⟨c.now, [], []⟩)) ∧
    (reduceLoop fs b.Group b.Points.length
        ⟨e, 0, b.Points, initialResult e b.Points⟩).e.expressionsByGroup
      = (e.afterEvals fs (evalCalls fs b.Group b.Points.length
          ⟨e, 0, b.Points, initialResult e b.Points⟩)).expressionsByGroup ∧
    (e.runReduceBatch fs b).2.expressionsByGroup
      = (e.afterEvals fs (evalCalls fs b.Group b.Points.length
          ⟨e, 0, b.Points, initialResult e b.Points⟩)).expressionsByGroup := by
  have hpts := evalCalls_points fs b.Group b.Points.length
    ⟨e, 0, b.Points, initialResult e b.Points⟩
  simp only [List.drop_zero, List.take_length] at hpts
  have hfold := reduceLoop_eq_foldPoints fs b.Group b.Points.length
    ⟨e, 0, b.Points, initialResult e b.Points⟩ (by simp)
  simp only [List.drop_zero] at hfold
  have hnode : ∀ s : ReduceLoop σ, s.i < s.Points.length →
      ∃ c, evalCalls fs b.Group 1 s = [c] ∧
        (∀ f t,
          (s.e.eval fs c.now c.group c.fields c.tags c.previousFields c.previousTags).1
            = Except.ok (f, t) →
          (loopBody fs b.Group s).e = s.e.afterEval fs c ∧
            (loopBody fs b.Group s).previousResult = ⟨c.now, f, t⟩) ∧
        (∀ err,
          (s.e.eval fs c.now c.group c.fields c.tags c.previousFields c.previousTags).1
            = Except.error err →
          (loopBody fs b.Group s).e
              = (if !(s.e.afterEval fs c).incrementErrorCount.e.QuietFlag then
                  (s.e.afterEval fs c).incrementErrorCount.logPrintln err
                else (s.e.afterEval fs c).incrementErrorCount) ∧
            (loopBody fs b.Group s).previousResult = ⟨c.now, [], []⟩) := by
    intro s hs
    obtain ⟨hok, herr⟩ := loopBody_node fs b.Group s _ rfl
    exact ⟨_, by simp [evalCalls, hs], hok, herr⟩
  have htable := reduceLoop_table fs b.Group b.Points.length
    ⟨e, 0, b.Points, initialResult e b.Points⟩
  refine ⟨?_, ?_, hpts, ?_, ?_, ?_, ?_,
    fun s hs => loopBody_cases fs b.Group s hs, hfold.1, hfold.2, hnode, htable, htable⟩
  · intro k
    have h := evalCalls_points fs b.Group k ⟨e, 0, b.Points, initialResult e b.Points⟩
    simpa using h
  · have h := congrArg List.length hpts
    simpa using h
  · intro k hk
    have h := reduceLoop_measure fs b.Group k ⟨e, 0, b.Points, initialResult e b.Points⟩
      (by simp only [Nat.sub_zero]; omega)
    simp only [Nat.sub_zero] at h
    omega
  · exact reduceLoop_exit fs b.Group b.Points.length
      ⟨e, 0, b.Points, initialResult e b.Points⟩ (by simp)
  · intro extra
    exact ⟨reduceLoop_extra fs b.Group b.Points.length extra _ (by simp),
      evalCalls_extra fs b.Group b.Points.length extra _ (by simp)⟩
  · exact foldPoints_length fs b.Group e (initialResult e b.Points) b.Points

/-- C22, at a concrete input: the batch x = 1, x = "n/a", x = 5 on the running sum, where the
second evaluation fails and its point is removed in place. The loop makes three evaluations,
on the three points in their order, and ends with the two good points left. On the counter
node, whose expression counts how often it is evaluated, the same batch leaves the counter of
the group at 3. -/
theorem C22_loop_termination_witness :
    (evalCalls fillScope "host=a" 3
        ⟨exReduce, 0, [exPoint1, exPointBad, exPoint3],
          initialResult exReduce [exPoint1, exPointBad, exPoint3]⟩).map EvalCall.point
      = [exPoint1, exPointBad, exPoint3] ∧
    (exReduce.evalResults fillScope ⟨"host=a", [exPoint1, exPointBad, exPoint3]⟩).map isError
      = [false, true, false] ∧
    exReduce.keptPoints fillScope ⟨"host=a", [exPoint1, exPointBad, exPoint3]⟩
      = [exPoint1, exPoint3] ∧
    (evalCalls fillScope "host=a" 3
        ⟨exCounter, 0, [exPoint1, exPointBad, exPoint3],
          initialResult exCounter [exPoint1, exPointBad, exPoint3]⟩).length = 3 ∧
    (GoMap.lookup (exCounter.runReduceBatch fillScope
        ⟨"host=a", [exPoint1, exPointBad, exPoint3]⟩).2.expressionsByGroup "host=a").map
      (List.map Expression.state) = some [3] :=
  ⟨(C22_loop_termination fillScope exReduce
      ⟨"host=a", [exPoint1, exPointBad, exPoint3]⟩).2.2.1,
    by decide, by decide,
    (C22_loop_termination fillScope exCounter
      ⟨"host=a", [exPoint1, exPointBad, exPoint3]⟩).2.1,
    by decide⟩

/-- C23, at the failing input: the enabled service at level OK on an event whose points
carry the tag status = down. preparePost sets the status of the payload to ok and then copies
the tags over it: the request carries the status down, which is none of the statuses that the
comment above preparePost lists, while the same level gives ok for the event without that
tag. In the same way the tag app_key replaces the given appKey key-2, which is the app_key of
the payload for the event without that tag. The service that is not enabled returns the error
service is not enabled. -/
theorem C23_tags_replace_status :
    GoMap.lookup (bigpanda.bpData exLibrary exLevels exService.config "" "ping is down"
        exLevels.OK ⟨0⟩ exEventStatusTag) "status" = some "down" ∧
    "down" ∉ bigpanda.documentedStatuses ∧
    GoMap.lookup (bigpanda.bpData exLibrary exLevels exService.config "" "ping is down"
        exLevels.OK ⟨0⟩ exEvent) "status" = some "ok" ∧
    exService.preparePost exLibrary exLevels "" "topic" "id" "ping is down" exLevels.OK ⟨0⟩
        exEventStatusTag
      = bigpanda.PostResult.request
          ⟨"POST", "https://api.bigpanda.io/data/v2/alerts",
            "check=ping is down;timestamp=0;status=down;app_key=key-1;host=a",
            [("Authorization", "Bearer token-1"), ("Content-Type", "application/json")]⟩ ∧
    GoMap.lookup (bigpanda.bpData exLibrary exLevels exService.config "key-2" "ping is down"
        exLevels.OK ⟨0⟩ exEventAppKeyTag) "app_key" = some "key-of-the-tag" ∧
    GoMap.lookup (bigpanda.bpData exLibrary exLevels exService.config "key-2" "ping is down"
        exLevels.OK ⟨0⟩ exEvent) "app_key" = some "key-2" ∧
    exServiceOff.preparePost exLibrary exLevels "" "topic" "id" "ping is down" exLevels.OK ⟨0⟩
        exEventStatusTag
      = bigpanda.PostResult.error "service is not enabled" := by
  refine ⟨by decide, by decide, by decide, by decide, by decide, by decide, by decide⟩

end Kapacitor
